import Mathlib

/-!
Comment pagination of `repository/comment/comment.go`.

A shallow embedding of `CommentRepository.GetCommentsByPostID`: the cursor codec
(`time.Time.Format` / `time.Parse` with the RFC 3339 layout), the query builder, the
row loop with its reply reassembly, and the page-info computation.

Pointers to `model.Comment` are addresses into an explicit heap, so that the aliasing
between an edge's node and the entries of a `Replies` slice is kept.
-/

namespace CommentRepo

/-! ## Errors -/

/-- Errors the call can return: a cursor that `time.Parse` rejects, or an error handed
back by the `database/sql` handle (query or row scan). -/
inductive Err where
  | parse (value : String)
  | db (msg : String)
deriving DecidableEq, Repr

/-! ## `time.Time` and the RFC 3339 layout `2006-01-02T15:04:05Z07:00` -/

/-- An instant with the zone it is shown in: seconds since the Unix epoch, nanoseconds
within the second, and the zone offset in seconds east of UTC. -/
structure Time where
  sec : Int
  nsec : Nat
  offset : Int
deriving DecidableEq, Repr

/-- Proleptic Gregorian date of a day number counted from 1970-01-01. -/
def civilFromDays (z : Int) : Int × Int × Int :=
  let z1 := z + 719468
  let era := z1 / 146097
  let doe := z1 - era * 146097
  let yoe := (doe - doe / 1460 + doe / 36524 - doe / 146096) / 365
  let doy := doe - (365 * yoe + yoe / 4 - yoe / 100)
  let mp := (5 * doy + 2) / 153
  let d := doy - (153 * mp + 2) / 5 + 1
  let m := if mp < 10 then mp + 3 else mp - 9
  let y := yoe + era * 400
  (if m ≤ 2 then y + 1 else y, m, d)

/-- Day number, counted from 1970-01-01, of a proleptic Gregorian date. -/
def daysFromCivil (y m d : Int) : Int :=
  let y1 := if m ≤ 2 then y - 1 else y
  let era := y1 / 400
  let yoe := y1 - era * 400
  let mp := if m > 2 then m - 3 else m + 9
  let doy := (153 * mp + 2) / 5 + d - 1
  let doe := yoe * 365 + yoe / 4 - yoe / 100 + doy
  era * 146097 + doe - 719468

/-- Whether a year is a leap year. -/
def isLeap (y : Int) : Bool :=
  y % 4 == 0 && (y % 100 != 0 || y % 400 == 0)

/-- Number of days of a month (`1..12`) in a year. -/
def daysIn (m : Nat) (y : Int) : Nat :=
  if m == 2 then (if isLeap y then 29 else 28)
  else if m == 4 || m == 6 || m == 9 || m == 11 then 30
  else 31

/-- Go's `appendInt`: a sign for negative numbers, then the decimal digits padded with
zeros on the left to at least `width` digits. -/
def appendInt (x : Int) (width : Nat) : List Char :=
  let ds := Nat.toDigits 10 x.natAbs
  let body := List.replicate (width - ds.length) '0' ++ ds
  if x < 0 then '-' :: body else body

/-- Model of `t.Format(time.RFC3339)`: date and clock in the zone of `t`, whole seconds
only, followed by `Z` for offset zero and by `±hh:mm` otherwise. -/
def formatRFC3339 (t : Time) : String :=
  let loc := t.sec + t.offset
  let days := loc / 86400
  let rem := loc % 86400
  let (y, m, d) := civilFromDays days
  let date := appendInt y 4 ++ ['-'] ++ appendInt m 2 ++ ['-'] ++ appendInt d 2
  let clock := appendInt (rem / 3600) 2 ++ [':'] ++ appendInt (rem % 3600 / 60) 2 ++ [':']
    ++ appendInt (rem % 60) 2
  let zone := Int.tdiv t.offset 60
  let zoneAbs : Int := zone.natAbs
  let tz :=
    if t.offset == 0 then ['Z']
    else (if zone < 0 then ['-'] else ['+'])
      ++ appendInt (zoneAbs / 60) 2 ++ [':'] ++ appendInt (zoneAbs % 60) 2
  String.mk (date ++ ['T'] ++ clock ++ tz)

/-- Value of a decimal digit character. -/
def digitVal (c : Char) : Nat := c.toNat - 48

/-- Go's `getnum`: one or two leading digits; with `fixed` exactly two are required. -/
def getnum : List Char → Bool → Option (Nat × List Char)
  | [], _ => none
  | [a], fixed => if a.isDigit && !fixed then some (digitVal a, []) else none
  | a :: b :: rest, fixed =>
    if !a.isDigit then none
    else if !b.isDigit then (if fixed then none else some (digitVal a, b :: rest))
    else some (digitVal a * 10 + digitVal b, rest)

/-- A literal character of the layout. -/
def expectChar (c : Char) : List Char → Option (List Char)
  | [] => none
  | a :: rest => if a = c then some rest else none

/-- The four-digit year field. -/
def getYear : List Char → Option (Nat × List Char)
  | a :: b :: c :: d :: rest =>
    if a.isDigit && b.isDigit && c.isDigit && d.isDigit then
      some (((digitVal a * 10 + digitVal b) * 10 + digitVal c) * 10 + digitVal d, rest)
    else none
  | _ => none

/-- Value of a run of digits, most significant first. -/
def digitsVal (ds : List Char) : Nat :=
  ds.foldl (fun acc c => acc * 10 + digitVal c) 0

/-- Fractional seconds, accepted after the seconds field although the layout has none:
a period or comma followed by at least one digit. At most nine digits are significant. -/
def getFraction : List Char → Nat × List Char
  | sep :: d :: rest =>
    if (sep = '.' || sep = ',') && d.isDigit then
      let ds := (d :: rest).takeWhile Char.isDigit
      let kept := ds.take 9
      (digitsVal kept * 10 ^ (9 - kept.length), (d :: rest).dropWhile Char.isDigit)
    else (0, sep :: d :: rest)
  | cs => (0, cs)

/-- The zone field `Z07:00`: the letter `Z`, or a sign with hours and minutes. The result
is the offset in seconds east of UTC. -/
def getZone : List Char → Option (Int × List Char)
  | [] => none
  | c :: rest =>
    if c = 'Z' then some (0, rest)
    else if c = '+' || c = '-' then
      match getnum rest true with
      | none => none
      | some (hr, r1) =>
        match expectChar ':' r1 with
        | none => none
        | some r2 =>
          match getnum r2 true with
          | none => none
          | some (mm, r3) =>
            if hr > 24 || mm > 60 then none
            else
              let secs : Int := ((hr * 60 + mm) * 60 : Nat)
              some (if c = '-' then -secs else secs, r3)
    else none

/-- A two-digit (or, when not `fixed`, one-digit) field that must stay below `bound`. -/
def getBelow (bound : Nat) (fixed : Bool) (cs : List Char) : Option (Nat × List Char) :=
  match getnum cs fixed with
  | none => none
  | some (v, r) => if bound ≤ v then none else some (v, r)

/-- The date part `2006-01-02T`: year, month and day with their separators. The day is
checked against the month only once the whole text has been read. -/
def getDate (cs : List Char) : Option ((Nat × Nat × Nat) × List Char) :=
  (getYear cs).bind fun (year, r) =>
  (expectChar '-' r).bind fun r =>
  (getBelow 13 true r).bind fun (month, r) =>
  if month = 0 then none else
  (expectChar '-' r).bind fun r =>
  (getnum r true).bind fun (day, r) =>
  (expectChar 'T' r).bind fun r =>
  some ((year, month, day), r)

/-- The clock part `15:04:05`, with optional fractional seconds: seconds of the day and
nanoseconds. -/
def getClock (cs : List Char) : Option ((Nat × Nat) × List Char) :=
  (getBelow 24 false cs).bind fun (hour, r) =>
  (expectChar ':' r).bind fun r =>
  (getBelow 60 true r).bind fun (minute, r) =>
  (expectChar ':' r).bind fun r =>
  (getBelow 60 true r).bind fun (second, r) =>
  let fr := getFraction r
  some ((hour * 3600 + minute * 60 + second, fr.1), fr.2)

/-- The fields of an RFC 3339 text, in layout order, with their range checks. -/
def parseFields (cs : List Char) : Option Time :=
  (getDate cs).bind fun ((year, month, day), r) =>
  (getClock r).bind fun ((secOfDay, nsec), r) =>
  (getZone r).bind fun (off, r) =>
  if !r.isEmpty then none
  else if day < 1 || day > daysIn month year then none
  else
    let loc : Int := daysFromCivil year month day * 86400 + (secOfDay : Int)
    some { sec := loc - off, nsec := nsec, offset := off }

/-- Model of `time.Parse(time.RFC3339, value)`. -/
def parseRFC3339 (value : String) : Except Err Time :=
  match parseFields value.data with
  | some t => .ok t
  | none => .error (.parse value)

/-- Whether instant `a` is strictly earlier than instant `b`. -/
def Time.before (a b : Time) : Bool :=
  a.sec < b.sec || (a.sec == b.sec && a.nsec < b.nsec)

/-! ## Data model (`graph/model`) -/

/-- An address of a `model.Comment` allocated by the row loop. -/
abbrev Addr := Nat

/-- The columns scanned from one row of `comment_tree`. -/
structure Row where
  ID : Int
  PostID : Int
  UserID : Int
  ParentCommentID : Option Int
  Body : String
  CreatedAt : Time
deriving DecidableEq, Repr

/-- The `model.Comment` struct; `Replies` holds pointers to other comments. -/
structure Comment where
  ID : Int
  PostID : Int
  UserID : Int
  ParentCommentID : Option Int
  Body : String
  CreatedAt : Time
  Replies : List Addr
deriving DecidableEq, Repr

/-- The `model.CommentEdge` struct; `Node` is a pointer to a comment. -/
structure CommentEdge where
  Cursor : String
  Node : Addr
deriving DecidableEq, Repr

/-- The `model.PageInfo` struct; a nil `*string` is `none`. -/
structure PageInfo where
  StartCursor : Option String
  EndCursor : Option String
  HasNextPage : Bool
  HasPrevPage : Bool
deriving DecidableEq, Repr

/-- The `model.CommentConnection` struct. -/
structure CommentConnection where
  Edges : List CommentEdge
  PageInfo : PageInfo
deriving DecidableEq, Repr

/-- What a successful call hands back: the connection together with the comments its
pointers lead to (address `i` is the `i`-th comment the loop allocated). -/
structure Fetched where
  conn : CommentConnection
  heap : List Comment
deriving DecidableEq, Repr

/-! ## The storage handle (`database/sql`) -/

/-- A value bound to a placeholder of the statement. -/
inductive Value where
  | int (v : Int)
  | time (t : Time)
deriving DecidableEq, Repr

/-- The statement text and its positional arguments, as passed to `QueryContext`. -/
structure Query where
  text : String
  args : List Value
deriving DecidableEq, Repr

/-- The `sql.Rows` cursor: what each `Next`/`Scan` round delivers (a scanned row or a scan
error), and the error, if any, that ended the iteration (what `rows.Err()` would report). -/
structure Rows where
  items : List (Except Err Row)
  err : Option Err

/-- The answer of `db.QueryContext` to a statement. -/
abbrev DB := Query → Except Err Rows

/-- The result pair of a call together with the statements it sent to storage. -/
structure Outcome where
  result : Except Err Fetched
  queries : List Query

/-! ## `GetCommentsByPostID`: building the statement -/

/-- The fixed head of the statement. -/
def baseQuery : String :=
  "WITH RECURSIVE comment_tree AS (\n" ++
  "\t\t\t\tSELECT id, post_id, user_id, parent_comment_id, body, created_at\n" ++
  "\t\t\t\tFROM comments\n" ++
  "\t\t\t\tWHERE post_id = $1\n" ++
  "\t\t\t\tUNION ALL\n" ++
  "\t\t\t\tSELECT c.id, c.post_id, c.user_id, c.parent_comment_id, c.body, c.created_at\n" ++
  "\t\t\t\tFROM comments c\n" ++
  "\t\t\t\tINNER JOIN comment_tree ct ON c.parent_comment_id = ct.id\n" ++
  "\t\t\t\t)\n" ++
  "\t\t\t\tSELECT id, post_id, user_id, parent_comment_id, body, created_at FROM comment_tree"

/-- The local variables `keys`, `values` and `arg` of the builder. -/
structure Builder where
  keys : List String
  values : List Value
  arg : Nat

/-- One cursor block: `if cursor != nil` add the key `created_at <op> $arg`, parse the
cursor (returning its error), add the parsed time to the values and advance `arg`. -/
def addCursor (op : String) (cursor : Option String) (b : Builder) : Except Err Builder :=
  match cursor with
  | none => .ok b
  | some c =>
    match parseRFC3339 c with
    | .error e => .error e
    | .ok parsedCursor =>
      .ok { keys := b.keys ++ ["created_at " ++ op ++ " $" ++ toString b.arg],
            values := b.values ++ [Value.time parsedCursor],
            arg := b.arg + 1 }

/-- The `WHERE` part appended when there is at least one key. -/
def whereClause (keys : List String) : String :=
  if keys.length > 0 then " WHERE " ++ String.intercalate " AND " keys else ""

/-- The ordering and limit appended for a bound: `first` when set, else `last` when set. -/
def orderLimit (first last : Option Int) (b : Builder) : String × List Value :=
  match first, last with
  | some f, _ => (" ORDER BY created_at ASC LIMIT $" ++ toString b.arg, b.values ++ [Value.int f])
  | none, some l => (" ORDER BY created_at DESC LIMIT $" ++ toString b.arg, b.values ++ [Value.int l])
  | none, none => ("", b.values)

/-- Lines 66-113: the statement and arguments sent to storage, or the cursor parse error. -/
def buildQuery (postID : Int) (first last : Option Int) (after before : Option String) :
    Except Err Query :=
  match addCursor ">" after { keys := [], values := [Value.int postID], arg := 2 } with
  | .error e => .error e
  | .ok b1 =>
    match addCursor "<" before b1 with
    | .error e => .error e
    | .ok b2 =>
      let ol := orderLimit first last b2
      .ok { text := baseQuery ++ whereClause b2.keys ++ ol.1, args := ol.2 }

/-! ## `GetCommentsByPostID`: the row loop -/

/-- The local variables of the row loop. -/
structure LoopState where
  comments : List CommentEdge
  startCursor : Option String
  endCursor : Option String
  count : Nat
  hasNextPage : Bool
  hasPrevPage : Bool
  commentMap : List (Int × Addr)
  heap : List Comment

/-- The state before the first row. -/
def LoopState.init : LoopState :=
  { comments := [], startCursor := none, endCursor := none, count := 0,
    hasNextPage := false, hasPrevPage := false, commentMap := [], heap := [] }

/-- The test `bound != nil && count == *bound`. -/
def atBound (bound : Option Int) (count : Nat) : Bool :=
  match bound with
  | none => false
  | some n => (count : Int) == n

/-- The statement `p.Replies = append(p.Replies, r)` on the comment at address `p`. -/
def appendReply : List Comment → Addr → Addr → List Comment
  | [], _, _ => []
  | c :: cs, 0, r => { c with Replies := c.Replies ++ [r] } :: cs
  | c :: cs, p + 1, r => c :: appendReply cs p r

/-- Lines 131-133: a fresh `model.Comment` with the scanned columns and no replies. -/
def Comment.scanned (row : Row) : Comment :=
  { ID := row.ID, PostID := row.PostID, UserID := row.UserID,
    ParentCommentID := row.ParentCommentID, Body := row.Body, CreatedAt := row.CreatedAt,
    Replies := [] }

/-- Lines 150-164: a row below the bound becomes a fresh comment and an edge, is entered in
`commentMap` under its id, is appended to the replies of the comment the map holds for its
parent id (if any), and moves `endCursor` and `count`. -/
def consumeRow (s : LoopState) (row : Row) (cursorStr : String) : LoopState :=
  let addr := s.heap.length
  let comment := Comment.scanned row
  let heap := s.heap ++ [comment]
  let commentMap := (row.ID, addr) :: s.commentMap
  let heap :=
    match row.ParentCommentID with
    | none => heap
    | some pid =>
      match commentMap.lookup pid with
      | none => heap
      | some parentComment => appendReply heap parentComment addr
  { s with
    comments := s.comments ++ [{ Cursor := cursorStr, Node := addr }],
    commentMap := commentMap,
    heap := heap,
    endCursor := some cursorStr,
    count := s.count + 1 }

/-- Lines 139-141: the first row met sets `startCursor`. -/
def noteStart (s : LoopState) (cursorStr : String) : LoopState :=
  if s.count == 0 then { s with startCursor := some cursorStr } else s

/-- Lines 143-147: at the bound, `hasNextPage` is set when `first` is set, else `hasPrevPage`. -/
def stopAtBound (first : Option Int) (s : LoopState) : LoopState :=
  if first.isSome then { s with hasNextPage := true } else { s with hasPrevPage := true }

/-- Lines 130-165: the loop over `rows.Next()`. A scan error returns at once; the first row
sets `startCursor`; a row met at the bound sets the page flag and leaves the loop. -/
def scanLoop (first last : Option Int) : List (Except Err Row) → LoopState → Except Err LoopState
  | [], s => .ok s
  | .error e :: _, _ => .error e
  | .ok row :: rest, s =>
    let cursorStr := formatRFC3339 row.CreatedAt
    let s1 := noteStart s cursorStr
    if atBound first s1.count || atBound last s1.count then .ok (stopAtBound first s1)
    else scanLoop first last rest (consumeRow s1 row cursorStr)

/-- Lines 167-181: the edges are reversed when `last` is set, and the connection is built. -/
def finish (first last : Option Int) (s : LoopState) : Fetched :=
  { conn :=
      { Edges := if last.isSome then s.comments.reverse else s.comments,
        PageInfo :=
          { StartCursor := s.startCursor,
            EndCursor := s.endCursor,
            HasNextPage := first.isSome && s.hasNextPage,
            HasPrevPage := last.isSome && s.hasPrevPage } },
    heap := s.heap }

/-- Lines 122-181: everything after a successful `QueryContext`. -/
def scanRows (first last : Option Int) (rows : Rows) : Except Err Fetched :=
  match scanLoop first last rows.items LoopState.init with
  | .error e => .error e
  | .ok s => .ok (finish first last s)

/-- The method `CommentRepository.GetCommentsByPostID` over the storage handle `db`. -/
def GetCommentsByPostID (db : DB) (postID : Int) (first last : Option Int)
    (after before : Option String) : Outcome :=
  match buildQuery postID first last after before with
  | .error e => { result := .error e, queries := [] }
  | .ok q =>
    match db q with
    | .error e => { result := .error e, queries := [q] }
    | .ok rows => { result := scanRows first last rows, queries := [q] }

/-! ## A storage collaborator that executes the statement over a table

The collaborator the pagination contract is stated against: it returns exactly the rows of
the table that satisfy the predicate of the statement it is sent, in the order the
statement asks for, truncated to the limit the statement asks for. The rows of
`comment_tree` are taken to be the comments of the post, each once. -/

/-- The rest of `text` after the first occurrence of `kw`. -/
def findAfter (kw : List Char) : List Char → Option (List Char)
  | [] => if kw.isEmpty then some [] else none
  | c :: cs => if kw.isPrefixOf (c :: cs) then some ((c :: cs).drop kw.length) else findAfter kw cs

/-- The argument bound to the placeholder `$k` that follows the first occurrence of `kw`. -/
def argAfter (kw : String) (q : Query) : Option Value :=
  match findAfter kw.data q.text.data with
  | none => none
  | some rest => q.args.get? (digitsVal (rest.takeWhile Char.isDigit) - 1)

/-- Insertion of a row into a list sorted by creation time (ascending), after its equals. -/
def insertByTime (r : Row) : List Row → List Row
  | [] => [r]
  | x :: xs => if r.CreatedAt.before x.CreatedAt then r :: x :: xs else x :: insertByTime r xs

/-- Stable sort by creation time, ascending. -/
def sortByTime : List Row → List Row
  | [] => []
  | r :: rs => insertByTime r (sortByTime rs)

/-- Whether the row satisfies `created_at > $k` (or `<`) for the argument found, if any. -/
def boundHolds (isLower : Bool) (bound : Option Value) (r : Row) : Bool :=
  match bound with
  | some (Value.time t) => if isLower then t.before r.CreatedAt else r.CreatedAt.before t
  | _ => true

/-- The storage collaborator over a table of comment rows. A statement without an
`ORDER BY` gets the rows in table order. A negative limit is an error. -/
def tableStore (table : List Row) : DB := fun q =>
  let post := argAfter "WHERE post_id = $" q
  let lower := argAfter "created_at > $" q
  let upper := argAfter "created_at < $" q
  let hits := table.filter fun r =>
    post == some (Value.int r.PostID) && boundHolds true lower r && boundHolds false upper r
  let asc := sortByTime hits
  let ordered :=
    if (findAfter "ORDER BY created_at DESC".data q.text.data).isSome then asc.reverse
    else if (findAfter "ORDER BY created_at ASC".data q.text.data).isSome then asc
    else hits
  match argAfter "LIMIT $" q with
  | some (Value.int n) =>
    if n < 0 then .error (.db "LIMIT must not be negative")
    else .ok { items := (ordered.take n.toNat).map .ok, err := none }
  | _ => .ok { items := ordered.map .ok, err := none }

/-- The instant 2024-01-01T00:00:00Z plus `m` minutes. -/
def minutesAfterT0 (m : Nat) : Time :=
  { sec := 1704067200 + 60 * (m : Int), nsec := 0, offset := 0 }

/-- A top-level comment of post 1 with the given id, created `m` minutes after `t0`. -/
def topLevel (id : Int) (m : Nat) : Row :=
  { ID := id, PostID := 1, UserID := 1, ParentCommentID := none, Body := "c",
    CreatedAt := minutesAfterT0 m }

/-- Post 1 with comments 1, 2, 3 created at `t0`, `t0+1m`, `t0+2m`, and one comment of
another post. -/
def threeComments : List Row :=
  [topLevel 2 1, { topLevel 9 1 with PostID := 7 }, topLevel 3 2, topLevel 1 0]

/-- The rows `[P(id=1, parent=nil), C(id=2, parent=1)]` of post 1. -/
def parentAndReply : List Row :=
  [topLevel 1 0, { topLevel 2 1 with ParentCommentID := some 1 }]

/-- A reply (id 5) to comment 4, which is not among the rows, followed by a top-level row. -/
def orphanReply : List Row :=
  [{ topLevel 5 0 with ParentCommentID := some 4 }, topLevel 6 1]

/-- How many rows a forward or unbounded loop takes in: the bound when it is non-negative
and rows suffice, else all rows. -/
def windowSize (first : Option Int) (n : Nat) : Nat :=
  match first with
  | some b => if 0 ≤ b then min b.toNat n else n
  | none => n

/-- A storage handle that answers every statement with the same rows, whatever its limit,
as the `sqlmock` expectations of the repository tests do. -/
def cannedStore (rows : List Row) : DB := fun _ =>
  .ok { items := rows.map .ok, err := none }

/-- The scanned columns a comment was built from. -/
def Comment.row (c : Comment) : Row :=
  { ID := c.ID, PostID := c.PostID, UserID := c.UserID, ParentCommentID := c.ParentCommentID,
    Body := c.Body, CreatedAt := c.CreatedAt }

/-- The call reaches storage and storage answers its statement with `rows`: the cursors
decode, and `db` returns `rows` for the statement built. -/
def Answers (db : DB) (postID : Int) (first last : Option Int) (after before : Option String)
    (rows : Rows) : Prop :=
  match buildQuery postID first last after before with
  | .ok q => db q = .ok rows
  | .error _ => False

/-- The cursor variables agree with the edges collected so far: `count` is their number, and
once there is an edge, `startCursor` is the cursor of the first and `endCursor` that of the
last one collected. -/
def CursorInv (s : LoopState) : Prop :=
  s.count = s.comments.length ∧
  (s.comments ≠ [] →
    s.startCursor = s.comments.head?.map (fun e => e.Cursor) ∧
    s.endCursor = s.comments.getLast?.map (fun e => e.Cursor))

/-- The heap, the edges and `commentMap` agree with the rows consumed so far (`done`, in
consumption order): comment `i` was built from row `i`, edge `i` points to comment `i` and
carries the cursor of row `i`, the map sends an id only to a comment with that id, and to the
only one when ids are distinct; a reply list holds only rows whose parent id is the id of its
owner, and with distinct ids it holds every later row with that parent id. -/
structure HeapInv (done : List Row) (s : LoopState) : Prop where
  rows : s.heap.map Comment.row = done
  nodes : s.comments.map (fun e => e.Node) = List.range done.length
  cursors : s.comments.map (fun e => e.Cursor) = done.map (fun r => formatRFC3339 r.CreatedAt)
  mapped : ∀ (pid : Int) (p : Addr), s.commentMap.lookup pid = some p → (done[p]?).map (fun r => r.ID) = some pid
  latest : (done.map (fun r => r.ID)).Nodup →
    ∀ (i : Addr) (r : Row), done[i]? = some r → s.commentMap.lookup r.ID = some i
  sound : ∀ (i : Addr) (c : Comment) (j : Addr), s.heap[i]? = some c → j ∈ c.Replies →
    (done[j]?).bind (fun r => r.ParentCommentID) = some c.ID
  complete : (done.map (fun r => r.ID)).Nodup →
    ∀ (i j : Addr) (ri rj : Row), i < j → done[i]? = some ri → done[j]? = some rj →
      rj.ParentCommentID = some ri.ID → ∃ c, s.heap[i]? = some c ∧ j ∈ c.Replies

/-- A cursor argument decoded: nil stays nil, a text is parsed. -/
def decodeCursor (c : Option String) : Except Err (Option Time) :=
  match c with
  | none => .ok none
  | some s =>
    match parseRFC3339 s with
    | .ok t => .ok (some t)
    | .error e => .error e

/-- The outer `WHERE` clause the contract describes: the exclusive lower bound for `after`
and the exclusive upper bound for `before`, joined by `AND`, with the placeholders that
follow `$1`. -/
def specWhere (ta tb : Option Time) : String :=
  match ta, tb with
  | none, none => ""
  | some _, none => " WHERE created_at > $2"
  | none, some _ => " WHERE created_at < $2"
  | some _, some _ => " WHERE created_at > $2 AND created_at < $3"

/-- The parameter list the contract describes. -/
def specArgs (postID : Int) (ta tb : Option Time) (bound : Int) : List Value :=
  [Value.int postID] ++ ta.toList.map Value.time ++ tb.toList.map Value.time ++ [Value.int bound]

/-- A storage handle whose query fails with `e`, as `WillReturnError` of the tests. -/
def failingStore (e : Err) : DB := fun _ => .error e

/-- A storage handle that delivers `rows` and then ends the iteration with error `e`. -/
def interruptedStore (rows : List Row) (e : Err) : DB := fun _ =>
  .ok { items := rows.map .ok, err := some e }

/-- The rows behind the returned edges, in edge order: each edge's node looked up in the
heap. -/
def edgeRows (r : Fetched) : List Row :=
  r.conn.Edges.filterMap fun e => (r.heap[e.Node]?).map Comment.row

/-- The reply relation of a heap: the comment at `j` is in the `Replies` of the one at `i`. -/
def IsReply (heap : List Comment) (i j : Addr) : Prop :=
  ∃ c, heap[i]? = some c ∧ j ∈ c.Replies

/-- Replies point forward: whatever is in the `Replies` of the comment at `i` is a comment of
the heap at `i` or later. -/
def Forward (heap : List Comment) : Prop :=
  ∀ (i : Addr) (c : Comment) (j : Addr), heap[i]? = some c → j ∈ c.Replies →
    i ≤ j ∧ j < heap.length

/-- A row that names itself as its parent. -/
def selfParent : List Row :=
  [{ topLevel 1 0 with ParentCommentID := some 1 }]

/-- The calendar year `Format` prints for `t`: the year of its date in its own zone. -/
def Time.year (t : Time) : Int :=
  (civilFromDays ((t.sec + t.offset) / 86400)).1

/-- The rows `[C(id=2, parent=1), P(id=1)]`: the reply is delivered before its parent, as a
descending order delivers them. -/
def replyThenParent : List Row :=
  [{ topLevel 2 1 with ParentCommentID := some 1 }, topLevel 1 0]

end CommentRepo

/-! ## The identity middleware (`pkg/middleware/middleware.go`, `pkg/jwt/jwt.go`) -/

namespace Middleware

/-- A Go interface value as stored in a context or compared with `nil`. -/
inductive Dyn where
  | nil
  | int (v : Int)
  | str (s : String)
  | bool (b : Bool)
deriving DecidableEq, Repr

/-- A `context.Context` as the chain of `WithValue` bindings with string keys, innermost
first. -/
abbrev Context := List (String × Dyn)

/-- The method `ctx.Value(key)`: the innermost binding of the key, or nil. -/
def Context.value (ctx : Context) (key : String) : Dyn :=
  match ctx with
  | [] => Dyn.nil
  | (k, v) :: rest => if k = key then v else Context.value rest key

/-- The function `context.WithValue`. -/
def Context.withValue (ctx : Context) (key : String) (v : Dyn) : Context :=
  (key, v) :: ctx

/-- The function `GetUserID` (middleware.go:38-51): the returned int and the returned error. -/
def GetUserID (ctx : Context) : Int × Option String :=
  let id := ctx.value "userID"
  if id = Dyn.nil then (0, some "user id not found")
  else
    match id with
    | Dyn.int userID => (userID, none)
    | _ => (0, some "invalid type of user id")

/-- What the `jwt` library hands back for an access token: whether the token is valid, and
the user id of its claims when the claims have the expected type. -/
structure Token where
  Valid : Bool
  Claims : Option Int
deriving DecidableEq, Repr

/-- The function `ParseToken` (jwt.go:36-58) over the library call `jwt.ParseWithClaims`:
the returned int and the returned error. -/
def ParseToken (parseWithClaims : String → Except String Token) (accessToken : String) :
    Int × Option String :=
  match parseWithClaims accessToken with
  | .error err => (0, some err)
  | .ok token =>
    if !token.Valid then (0, some "invalid token")
    else
      match token.Claims with
      | none => (0, some "invalid token claims")
      | some userID => (userID, none)

/-- The function `strings.Split(s, " ")` on the characters of `s`: the pieces between single
spaces. -/
def splitSpace : List Char → List (List Char)
  | [] => [[]]
  | c :: cs =>
    match splitSpace cs with
    | [] => [[c]]
    | p :: ps => if c = ' ' then [] :: p :: ps else (c :: p) :: ps

/-- What the middleware does to the response and to the wrapped handler, in order. -/
inductive Effect where
  | httpError (message : String) (code : Nat)
  | next (ctx : Context)
deriving DecidableEq, Repr

/-- The handler returned by `UserIdentity(next)` (middleware.go:11-36), for a request with the
given `Authorization` header and context. -/
def UserIdentity (parseWithClaims : String → Except String Token) (header : String)
    (ctx : Context) : List Effect :=
  if header = "" then [Effect.next ctx]
  else
    let headerParts := splitSpace header.data
    if headerParts.length ≠ 2 then [Effect.httpError "Invalid authorization header" 401]
    else
      let r := ParseToken parseWithClaims (String.mk (headerParts.getD 1 []))
      let onErr := if r.2.isSome then [Effect.httpError "Invalid token" 401] else []
      onErr ++ [Effect.next (ctx.withValue "userID" (Dyn.int r.1))]

/-- A library call that rejects every token. -/
def rejectAll : String → Except String Token := fun _ => .error "signature is invalid"

/-- A library call that accepts every token as a valid token of user 7. -/
def acceptAll : String → Except String Token := fun _ => .ok { Valid := true, Claims := some 7 }

end Middleware

/-! ## The post repository (`repository/post/post.go`) -/

namespace PostRepo

/-- A `driver.Value`: what is bound to a placeholder and what a result column delivers. -/
inductive SqlValue where
  | null
  | int (v : Int)
  | str (s : String)
  | bool (b : Bool)
  | time (t : CommentRepo.Time)
deriving DecidableEq, Repr

/-- The statement text and its positional arguments, as passed to `ExecContext`,
`QueryContext` and `QueryRowContext`. -/
structure Statement where
  text : String
  args : List SqlValue
deriving DecidableEq, Repr

/-- The errors of the storage handle: what the driver reports, `sql.ErrNoRows`, a wrong
number of `Scan` destinations, and a failed conversion at a column index. -/
inductive DbErr where
  | driver (msg : String)
  | noRows
  | count (columns destinations : Nat)
  | scan (index : Nat)
deriving DecidableEq, Repr

/-- The fields of `model.User` that the repository fills. -/
structure User where
  ID : Int
  Username : String
deriving DecidableEq, Repr

/-- The `model.Post` struct; a nil pointer is `none`. -/
structure Post where
  ID : Int
  UserID : Int
  User : Option User
  Title : String
  Body : String
  AllowComments : Bool
  CreatedAt : CommentRepo.Time
  Comments : Option CommentRepo.CommentConnection
deriving DecidableEq, Repr

/-- The fields of `model.UpdatePostReq` that `UpdatePost` reads; a nil pointer is `none`. -/
structure UpdatePostReq where
  Title : Option String
  Body : Option String
  AllowComments : Option Bool
deriving DecidableEq, Repr

/-! ### `UpdatePost` -/

/-- The local variables `keys`, `values` and `arg` of `UpdatePost`. -/
structure SetBuilder where
  keys : List String
  values : List SqlValue
  arg : Nat

/-- One field block of `UpdatePost`: `if field != nil` add the key `column=$arg`, add the
value and advance `arg`. -/
def setField (column : String) (field : Option SqlValue) (b : SetBuilder) : SetBuilder :=
  match field with
  | none => b
  | some v =>
    { keys := b.keys ++ [column ++ "=$" ++ toString b.arg],
      values := b.values ++ [v],
      arg := b.arg + 1 }

/-- Lines 102-128 of `UpdatePost`: the statement and the arguments it is executed with. -/
def updateStatement (userID postID : Int) (req : UpdatePostReq) : Statement :=
  let b : SetBuilder := { keys := [], values := [], arg := 1 }
  let b := setField "title" (req.Title.map SqlValue.str) b
  let b := setField "description" (req.Body.map SqlValue.str) b
  let b := setField "allow_comments" (req.AllowComments.map SqlValue.bool) b
  let joinQuery := String.intercalate ", " b.keys
  { text := "UPDATE posts SET " ++ joinQuery ++ " WHERE id=$" ++ toString b.arg
      ++ " AND user_id=$" ++ toString (b.arg + 1) ++ ";",
    args := b.values ++ [SqlValue.int postID, SqlValue.int userID] }

/-- The returned error of a call together with the statements it sent to storage. -/
structure ExecOutcome where
  err : Option DbErr
  statements : List Statement

/-- The method `PostRepository.UpdatePost` over the handle `exec` (`db.ExecContext`, of
which only the error is used). -/
def UpdatePost (exec : Statement → Option DbErr) (userID postID : Int) (req : UpdatePostReq) :
    ExecOutcome :=
  let st := updateStatement userID postID req
  { err := exec st, statements := [st] }

/-! ### The statements of `CreatePost`, `GetAllPostsByUserID` and `GetPostByID` -/

/-- The `INSERT` statement of `CreatePost` (line 38). -/
def createPostQuery : String :=
  "INSERT INTO posts (user_id, title, body, created_at, allow_comments) " ++
  "VALUES($1, $2, $3, current_timestamp, $4) RETURNING id;"

/-- The statement of `GetAllPostsByUserID` (lines 60-62). -/
def getAllPostsByUserIDQuery : String :=
  "SELECT (p.id, p.title, p.body, p.allow_comments, p.created_at, u.id, u.username) \n" ++
  "\t\t\t\t\t\t\t\t\t\t\t\tFROM posts p INNER JOIN users u ON p.user_id = u.id \n" ++
  "\t\t\t\t\t\t\t\t\t\t\t\tWHERE p.user_id = $1 ORDER BY created_at DESC;"

/-- The statement of `GetPostByID` (lines 87-89). -/
def getPostByIDQuery : String :=
  "SELECT (p.id, p.title, p.body, p.created_at, p.allow_comments, u.id, u.username) \n" ++
  "\t\t\t\t\t\t\t\t\t\t\tFROM posts p INNER JOIN users u ON p.user_id = u.id \n" ++
  "\t\t\t\t\t\t\t\t\t\t\tWHERE p.id = $1;"

/-! ### `Scan` (`database/sql`, `convertAssign`) -/

/-- Go's `strconv.ParseInt(s, 10, 64)`: an optional sign and at least one decimal digit,
within the 64-bit range. -/
def parseInt (s : String) : Option Int :=
  let ds := match s.data with
    | '+' :: rest => rest
    | '-' :: rest => rest
    | cs => cs
  if ds.isEmpty || !ds.all Char.isDigit then none
  else
    let n : Int := CommentRepo.digitsVal ds
    let v : Int := if s.data.head? = some '-' then -n else n
    if -9223372036854775808 ≤ v ∧ v ≤ 9223372036854775807 then some v else none

/-- Go's `strconv.ParseBool`. -/
def parseBool (s : String) : Option Bool :=
  if s ∈ ["1", "t", "T", "TRUE", "true", "True"] then some true
  else if s ∈ ["0", "f", "F", "FALSE", "false", "False"] then some false
  else none

/-- The fraction `.999999999` of the layout `time.RFC3339Nano`: nothing for zero
nanoseconds, else a period and the nine digits without trailing zeros. -/
def nanoFraction (nsec : Nat) : List Char :=
  if nsec = 0 then []
  else '.' :: ((CommentRepo.appendInt nsec 9).reverse.dropWhile (fun c => c = '0')).reverse

/-- Model of `t.Format(time.RFC3339Nano)`. -/
def formatRFC3339Nano (t : CommentRepo.Time) : String :=
  let loc := t.sec + t.offset
  let days := loc / 86400
  let rem := loc % 86400
  let (y, m, d) := CommentRepo.civilFromDays days
  let date := CommentRepo.appendInt y 4 ++ ['-'] ++ CommentRepo.appendInt m 2 ++ ['-'] ++ CommentRepo.appendInt d 2
  let clock := CommentRepo.appendInt (rem / 3600) 2 ++ [':'] ++ CommentRepo.appendInt (rem % 3600 / 60) 2 ++ [':']
    ++ CommentRepo.appendInt (rem % 60) 2
  let zone := Int.tdiv t.offset 60
  let zoneAbs : Int := zone.natAbs
  let tz :=
    if t.offset == 0 then ['Z']
    else (if zone < 0 then ['-'] else ['+'])
      ++ CommentRepo.appendInt (zoneAbs / 60) 2 ++ [':'] ++ CommentRepo.appendInt (zoneAbs % 60) 2
  String.mk (date ++ ['T'] ++ clock ++ nanoFraction t.nsec ++ tz)

/-- Go's `asString` for the values a column delivers. -/
def asString : SqlValue → String
  | .null => "<nil>"
  | .int v => toString v
  | .str s => s
  | .bool b => if b then "true" else "false"
  | .time t => formatRFC3339Nano t

/-- The conversion of `convertAssign` into a destination of type `*int`: NULL is refused,
anything else goes through its text and `strconv.ParseInt`. -/
def scanInt : SqlValue → Option Int
  | .null => none
  | v => parseInt (asString v)

/-- The conversion into a destination of type `*string`: NULL is refused, a time is
formatted with `time.RFC3339Nano`, the others are shown as text. -/
def scanString : SqlValue → Option String
  | .null => none
  | v => some (asString v)

/-- The conversion into a destination of type `*bool` (`driver.Bool.ConvertValue`): a bool,
a text that `strconv.ParseBool` accepts, or the integers 0 and 1. -/
def scanBool : SqlValue → Option Bool
  | .bool b => some b
  | .str s => parseBool s
  | .int v => if v = 1 then some true else if v = 0 then some false else none
  | _ => none

/-- The conversion into a destination of type `*time.Time`: only a time is accepted. -/
def scanTime : SqlValue → Option CommentRepo.Time
  | .time t => some t
  | _ => none

/-- A failed conversion is reported with the index of its column. -/
def atColumn {α : Type} (index : Nat) (r : Option α) : Except DbErr α :=
  match r with
  | some v => .ok v
  | none => .error (.scan index)

/-- The `Scan` call of lines 72 and 91, the same in both methods, followed by
`post.User = &user`: the seven delivered values are converted, in order, into `post.ID`,
`post.Title`, `post.Body`, `post.AllowComments`, `post.CreatedAt`, `user.ID` and
`user.Username`. -/
def scanPost (columns : List SqlValue) : Except DbErr Post :=
  match columns with
  | [c0, c1, c2, c3, c4, c5, c6] =>
    (atColumn 0 (scanInt c0)).bind fun postID =>
    (atColumn 1 (scanString c1)).bind fun postTitle =>
    (atColumn 2 (scanString c2)).bind fun postBody =>
    (atColumn 3 (scanBool c3)).bind fun postAllowComments =>
    (atColumn 4 (scanTime c4)).bind fun postCreatedAt =>
    (atColumn 5 (scanInt c5)).bind fun userID =>
    (atColumn 6 (scanString c6)).bind fun userUsername =>
    .ok { ID := postID, UserID := 0, User := some { ID := userID, Username := userUsername },
          Title := postTitle, Body := postBody, AllowComments := postAllowComments,
          CreatedAt := postCreatedAt, Comments := none }
  | _ => .error (.count columns.length 7)

/-- The method `PostRepository.GetPostByID` over the handle `queryRow`
(`db.QueryRowContext`: an error, no row, or the values of the first row). -/
def GetPostByID (queryRow : Statement → Except DbErr (Option (List SqlValue))) (id : Int) :
    Except DbErr Post :=
  match queryRow { text := getPostByIDQuery, args := [SqlValue.int id] } with
  | .error e => .error e
  | .ok none => .error .noRows
  | .ok (some columns) => scanPost columns

/-- The row loop of `GetAllPostsByUserID` (lines 68-78): the first failing `Scan` returns
its error. -/
def scanPosts : List (List SqlValue) → Except DbErr (List Post)
  | [] => .ok []
  | columns :: rest =>
    match scanPost columns with
    | .error e => .error e
    | .ok post =>
      match scanPosts rest with
      | .error e => .error e
      | .ok posts => .ok (post :: posts)

/-- The method `PostRepository.GetAllPostsByUserID` over the handle `query`
(`db.QueryContext`: an error, or the rows delivered). -/
def GetAllPostsByUserID (query : Statement → Except DbErr (List (List SqlValue)))
    (userID : Int) : Except DbErr (List Post) :=
  match query { text := getAllPostsByUserIDQuery, args := [SqlValue.int userID] } with
  | .error e => .error e
  | .ok rows => scanPosts rows

/-! ### Reading the column lists of the statements -/

/-- The part of `text` before the first occurrence of `kw` (all of it when there is none). -/
def takeBefore (kw : List Char) : List Char → List Char
  | [] => []
  | c :: cs => if kw.isPrefixOf (c :: cs) then [] else c :: takeBefore kw cs

/-- The items of a list written with the separator `, `. -/
def splitComma : List Char → List (List Char)
  | [] => [[]]
  | c :: cs =>
    match splitComma cs with
    | [] => [[c]]
    | p :: ps =>
      if c = ',' ∧ p.head? = some ' ' then [] :: p.tail :: ps else (c :: p) :: ps

/-- The column names written between `start` and `stop` in a statement, separated by `, `. -/
def columnsBetween (start stop : String) (text : String) : List String :=
  match CommentRepo.findAfter start.data text.data with
  | none => []
  | some rest => (splitComma (takeBefore stop.data rest)).map String.mk

/-- The columns an `INSERT INTO posts (...)` statement writes. -/
def insertColumns (text : String) : List String :=
  columnsBetween "INSERT INTO posts (" ")" text

/-- The columns a `SELECT (...)` statement selects, in order. -/
def selectedColumns (text : String) : List String :=
  columnsBetween "SELECT (" ")" text

/-- The columns an `UPDATE posts SET ... WHERE` statement assigns: the name before `=` of
every assignment. -/
def assignedColumns (text : String) : List String :=
  ((columnsBetween "UPDATE posts SET " " WHERE" text).map fun a =>
    String.mk (a.data.takeWhile fun c => c ≠ '=')).filter fun c => c ≠ ""

/-! ### A storage collaborator for the post statements -/

/-- The creation time of the post in the table: 2024-01-01T00:00:00Z. -/
def postCreatedAt : CommentRepo.Time := { sec := 1704067200, nsec := 0, offset := 0 }

/-- The one row of the join of `posts` and `users`: the value of each column. -/
def columnValue (column : String) : SqlValue :=
  if column = "p.id" then .int 1
  else if column = "p.title" then .str "title"
  else if column = "p.body" then .str "body"
  else if column = "p.allow_comments" then .bool true
  else if column = "p.created_at" then .time postCreatedAt
  else if column = "u.id" then .int 2
  else if column = "u.username" then .str "user"
  else .null

/-- A storage handle for `QueryRowContext` that answers a statement with the values of the
columns it selects, in the order it selects them. -/
def postRowStore : Statement → Except DbErr (Option (List SqlValue)) := fun st =>
  .ok (some ((selectedColumns st.text).map columnValue))

/-- A storage handle for `QueryContext` that answers a statement with one row, the values of
the columns it selects, in the order it selects them. -/
def postRowsStore : Statement → Except DbErr (List (List SqlValue)) := fun st =>
  .ok [(selectedColumns st.text).map columnValue]

/-- The values present in the request, in the order Title, Body, AllowComments. -/
def presentValues (req : UpdatePostReq) : List SqlValue :=
  (req.Title.map SqlValue.str).toList ++ (req.Body.map SqlValue.str).toList
    ++ (req.AllowComments.map SqlValue.bool).toList

/-- The text of an `UPDATE posts` statement that assigns `columns` from the placeholders
`$1..$k` in order and selects the row by `id=$(k+1)` and `user_id=$(k+2)`. -/
def updateText (columns : List String) : String :=
  "UPDATE posts SET "
    ++ String.intercalate ", " (columns.enum.map fun ic => ic.2 ++ "=$" ++ toString (ic.1 + 1))
    ++ " WHERE id=$" ++ toString (columns.length + 1)
    ++ " AND user_id=$" ++ toString (columns.length + 2) ++ ";"

/-- The present fields of the request in the order Title, Body, AllowComments, each with the
column its block of `UpdatePost` names and the value it passes. -/
def presentAssignments (req : UpdatePostReq) : List (String × SqlValue) :=
  (req.Title.map fun v => ("title", SqlValue.str v)).toList
    ++ (req.Body.map fun v => ("description", SqlValue.str v)).toList
    ++ (req.AllowComments.map fun v => ("allow_comments", SqlValue.bool v)).toList

/-- An `ExecContext` that fails on every statement. -/
def execFails : Statement → Option DbErr := fun _ => some (DbErr.driver "connection refused")

/-- An `ExecContext` that succeeds, as `WillReturnResult` of the tests. -/
def execOk : Statement → Option DbErr := fun _ => none

end PostRepo

namespace CommentRepo

/-! ## Theorems -/

set_option maxRecDepth 100000

/-! ### Unfolding the row loop -/

@[simp] theorem noteStart_count (s : LoopState) (c : String) : (noteStart s c).count = s.count := by
  unfold noteStart; split <;> rfl

@[simp] theorem noteStart_comments (s : LoopState) (c : String) :
    (noteStart s c).comments = s.comments := by
  unfold noteStart; split <;> rfl

@[simp] theorem noteStart_commentMap (s : LoopState) (c : String) :
    (noteStart s c).commentMap = s.commentMap := by
  unfold noteStart; split <;> rfl

@[simp] theorem noteStart_heap (s : LoopState) (c : String) : (noteStart s c).heap = s.heap := by
  unfold noteStart; split <;> rfl

@[simp] theorem noteStart_hasNextPage (s : LoopState) (c : String) :
    (noteStart s c).hasNextPage = s.hasNextPage := by
  unfold noteStart; split <;> rfl

@[simp] theorem noteStart_hasPrevPage (s : LoopState) (c : String) :
    (noteStart s c).hasPrevPage = s.hasPrevPage := by
  unfold noteStart; split <;> rfl

@[simp] theorem noteStart_endCursor (s : LoopState) (c : String) :
    (noteStart s c).endCursor = s.endCursor := by
  unfold noteStart; split <;> rfl

theorem noteStart_startCursor (s : LoopState) (c : String) :
    (noteStart s c).startCursor = if s.count = 0 then some c else s.startCursor := by
  unfold noteStart; split <;> simp_all

@[simp] theorem stopAtBound_count (f : Option Int) (s : LoopState) :
    (stopAtBound f s).count = s.count := by
  unfold stopAtBound; split <;> rfl

@[simp] theorem stopAtBound_comments (f : Option Int) (s : LoopState) :
    (stopAtBound f s).comments = s.comments := by
  unfold stopAtBound; split <;> rfl

@[simp] theorem stopAtBound_commentMap (f : Option Int) (s : LoopState) :
    (stopAtBound f s).commentMap = s.commentMap := by
  unfold stopAtBound; split <;> rfl

@[simp] theorem stopAtBound_heap (f : Option Int) (s : LoopState) :
    (stopAtBound f s).heap = s.heap := by
  unfold stopAtBound; split <;> rfl

@[simp] theorem stopAtBound_startCursor (f : Option Int) (s : LoopState) :
    (stopAtBound f s).startCursor = s.startCursor := by
  unfold stopAtBound; split <;> rfl

@[simp] theorem stopAtBound_endCursor (f : Option Int) (s : LoopState) :
    (stopAtBound f s).endCursor = s.endCursor := by
  unfold stopAtBound; split <;> rfl

theorem stopAtBound_hasNextPage (f : Option Int) (s : LoopState) :
    (stopAtBound f s).hasNextPage = (f.isSome || s.hasNextPage) := by
  unfold stopAtBound; split <;> simp_all

theorem stopAtBound_hasPrevPage (f : Option Int) (s : LoopState) :
    (stopAtBound f s).hasPrevPage = (!f.isSome || s.hasPrevPage) := by
  unfold stopAtBound; split <;> simp_all

@[simp] theorem consumeRow_count (s : LoopState) (r : Row) (c : String) :
    (consumeRow s r c).count = s.count + 1 := rfl

@[simp] theorem consumeRow_comments (s : LoopState) (r : Row) (c : String) :
    (consumeRow s r c).comments = s.comments ++ [{ Cursor := c, Node := s.heap.length }] := rfl

@[simp] theorem consumeRow_commentMap (s : LoopState) (r : Row) (c : String) :
    (consumeRow s r c).commentMap = (r.ID, s.heap.length) :: s.commentMap := rfl

@[simp] theorem consumeRow_startCursor (s : LoopState) (r : Row) (c : String) :
    (consumeRow s r c).startCursor = s.startCursor := rfl

@[simp] theorem consumeRow_endCursor (s : LoopState) (r : Row) (c : String) :
    (consumeRow s r c).endCursor = some c := rfl

@[simp] theorem consumeRow_hasNextPage (s : LoopState) (r : Row) (c : String) :
    (consumeRow s r c).hasNextPage = s.hasNextPage := rfl

@[simp] theorem consumeRow_hasPrevPage (s : LoopState) (r : Row) (c : String) :
    (consumeRow s r c).hasPrevPage = s.hasPrevPage := rfl

theorem scanLoop_stop (first last : Option Int) (r : Row) (rest : List (Except Err Row))
    (s : LoopState) (h : (atBound first s.count || atBound last s.count) = true) :
    scanLoop first last (.ok r :: rest) s
      = .ok (stopAtBound first (noteStart s (formatRFC3339 r.CreatedAt))) := by
  simp only [scanLoop, noteStart_count]
  rw [if_pos h]

theorem scanLoop_go (first last : Option Int) (r : Row) (rest : List (Except Err Row))
    (s : LoopState) (h : (atBound first s.count || atBound last s.count) = false) :
    scanLoop first last (.ok r :: rest) s
      = scanLoop first last rest
          (consumeRow (noteStart s (formatRFC3339 r.CreatedAt)) r (formatRFC3339 r.CreatedAt)) := by
  simp only [scanLoop, noteStart_count]
  rw [if_neg (by simp [h])]

/-! ### The page flags of the row loop -/

theorem scanLoop_first_only (N : Int) (rows : List Row) :
    ∀ s : LoopState, (s.count : Int) ≤ N → s.hasNextPage = false →
      ∃ s2, scanLoop (some N) none (rows.map .ok) s = .ok s2 ∧
        (s2.hasNextPage = true ↔ N < (s.count + rows.length : Nat)) ∧
        s2.hasPrevPage = s.hasPrevPage := by
  induction rows with
  | nil =>
    intro s hc hf
    refine ⟨s, rfl, ?_, rfl⟩
    simp only [hf, List.length_nil, Nat.add_zero]
    constructor
    · intro h; cases h
    · intro h; omega
  | cons r rest ih =>
    intro s hc hf
    by_cases hb : (s.count : Int) = N
    · refine ⟨_, scanLoop_stop _ _ r _ s (by simp [atBound, hb]), ?_, ?_⟩
      · simp [stopAtBound_hasNextPage]; omega
      · simp [stopAtBound_hasPrevPage]
    · rw [List.map_cons, scanLoop_go _ _ r _ s (by simp [atBound, hb])]
      obtain ⟨s2, h1, h2, h3⟩ := ih
        (consumeRow (noteStart s (formatRFC3339 r.CreatedAt)) r (formatRFC3339 r.CreatedAt))
        (by simp; omega) (by simp [hf])
      refine ⟨s2, h1, ?_, ?_⟩
      · rw [h2]; simp; constructor <;> intro h <;> omega
      · rw [h3]; simp

theorem scanLoop_last_only (N : Int) (rows : List Row) :
    ∀ s : LoopState, (s.count : Int) ≤ N → s.hasPrevPage = false →
      ∃ s2, scanLoop none (some N) (rows.map .ok) s = .ok s2 ∧
        (s2.hasPrevPage = true ↔ N < (s.count + rows.length : Nat)) ∧
        s2.hasNextPage = s.hasNextPage := by
  induction rows with
  | nil =>
    intro s hc hf
    refine ⟨s, rfl, ?_, rfl⟩
    simp only [hf, List.length_nil, Nat.add_zero]
    constructor
    · intro h; cases h
    · intro h; omega
  | cons r rest ih =>
    intro s hc hf
    by_cases hb : (s.count : Int) = N
    · refine ⟨_, scanLoop_stop _ _ r _ s (by simp [atBound, hb]), ?_, ?_⟩
      · simp [stopAtBound_hasPrevPage]; omega
      · simp [stopAtBound_hasNextPage]
    · rw [List.map_cons, scanLoop_go _ _ r _ s (by simp [atBound, hb])]
      obtain ⟨s2, h1, h2, h3⟩ := ih
        (consumeRow (noteStart s (formatRFC3339 r.CreatedAt)) r (formatRFC3339 r.CreatedAt))
        (by simp; omega) (by simp [hf])
      refine ⟨s2, h1, ?_, ?_⟩
      · rw [h2]; simp; constructor <;> intro h <;> omega
      · rw [h3]; simp

theorem scanLoop_unbounded (rows : List Row) :
    ∀ s : LoopState, ∃ s2, scanLoop none none (rows.map .ok) s = .ok s2 ∧
      s2.hasNextPage = s.hasNextPage ∧ s2.hasPrevPage = s.hasPrevPage := by
  induction rows with
  | nil => intro s; exact ⟨s, rfl, rfl, rfl⟩
  | cons r rest ih =>
    intro s
    rw [List.map_cons, scanLoop_go _ _ r _ s (by simp [atBound])]
    obtain ⟨s2, h1, h2, h3⟩ := ih
      (consumeRow (noteStart s (formatRFC3339 r.CreatedAt)) r (formatRFC3339 r.CreatedAt))
    exact ⟨s2, h1, by rw [h2]; simp, by rw [h3]; simp⟩

/-! ### The call as a whole -/

theorem result_of_answer (db : DB) (postID : Int) (first last : Option Int)
    (after before : Option String) (rows : Rows)
    (h : Answers db postID first last after before rows) :
    (GetCommentsByPostID db postID first last after before).result = scanRows first last rows := by
  unfold Answers at h
  unfold GetCommentsByPostID
  cases hq : buildQuery postID first last after before with
  | error e => rw [hq] at h; exact h.elim
  | ok q =>
    rw [hq] at h
    simp only [h]

theorem cannedStore_answers (rows : List Row) (postID : Int) (first last : Option Int) :
    Answers (cannedStore rows) postID first last none none { items := rows.map .ok, err := none } := by
  unfold Answers buildQuery addCursor
  rfl

/-- C4: for rows `rows` returned by storage and a bound `N ≥ 0`: with only `first = N`,
`HasNextPage` is true exactly when more than `N` rows were returned and `HasPrevPage` is false;
with only `last = N`, `HasPrevPage` is true exactly when more than `N` rows were returned and
`HasNextPage` is false; with neither bound both flags are false. -/
theorem page_flags_follow_overfetch (db : DB) (postID : Int) (after before : Option String)
    (N : Int) (rows : List Row) (err : Option Err) (hN : 0 ≤ N) :
    (Answers db postID (some N) none after before { items := rows.map .ok, err := err } →
      ∃ r, (GetCommentsByPostID db postID (some N) none after before).result = .ok r ∧
        (r.conn.PageInfo.HasNextPage = true ↔ N < (rows.length : Int)) ∧
        r.conn.PageInfo.HasPrevPage = false) ∧
    (Answers db postID none (some N) after before { items := rows.map .ok, err := err } →
      ∃ r, (GetCommentsByPostID db postID none (some N) after before).result = .ok r ∧
        (r.conn.PageInfo.HasPrevPage = true ↔ N < (rows.length : Int)) ∧
        r.conn.PageInfo.HasNextPage = false) ∧
    (Answers db postID none none after before { items := rows.map .ok, err := err } →
      ∃ r, (GetCommentsByPostID db postID none none after before).result = .ok r ∧
        r.conn.PageInfo.HasNextPage = false ∧ r.conn.PageInfo.HasPrevPage = false) := by
  refine ⟨fun h => ?_, fun h => ?_, fun h => ?_⟩
  · rw [result_of_answer _ _ _ _ _ _ _ h]
    obtain ⟨s2, h1, h2, _⟩ := scanLoop_first_only N rows LoopState.init (by simpa [LoopState.init] using hN) rfl
    refine ⟨finish (some N) none s2, by simp only [scanRows, h1], ?_, rfl⟩
    simpa [finish, LoopState.init] using h2
  · rw [result_of_answer _ _ _ _ _ _ _ h]
    obtain ⟨s2, h1, h2, _⟩ := scanLoop_last_only N rows LoopState.init (by simpa [LoopState.init] using hN) rfl
    refine ⟨finish none (some N) s2, by simp only [scanRows, h1], ?_, rfl⟩
    simpa [finish, LoopState.init] using h2
  · rw [result_of_answer _ _ _ _ _ _ _ h]
    obtain ⟨s2, h1, _, _⟩ := scanLoop_unbounded rows LoopState.init
    exact ⟨finish none none s2, by simp only [scanRows, h1], rfl, rfl⟩

/-- Witness of C4: with bound 1 and two rows returned, forward sets only `HasNextPage`,
backward sets only `HasPrevPage`, and without a bound both flags are false. -/
theorem page_flags_follow_overfetch_witness :
    (∃ r, (GetCommentsByPostID (cannedStore [topLevel 1 0, topLevel 2 1]) 1 (some 1) none none
          none).result = .ok r ∧
        (r.conn.PageInfo.HasNextPage = true ↔ (1 : Int) < ([topLevel 1 0, topLevel 2 1].length : Int)) ∧
        r.conn.PageInfo.HasPrevPage = false) ∧
    (∃ r, (GetCommentsByPostID (cannedStore [topLevel 1 0, topLevel 2 1]) 1 none (some 1) none
          none).result = .ok r ∧
        (r.conn.PageInfo.HasPrevPage = true ↔ (1 : Int) < ([topLevel 1 0, topLevel 2 1].length : Int)) ∧
        r.conn.PageInfo.HasNextPage = false) ∧
    (∃ r, (GetCommentsByPostID (cannedStore [topLevel 1 0, topLevel 2 1]) 1 none none none
          none).result = .ok r ∧
        r.conn.PageInfo.HasNextPage = false ∧ r.conn.PageInfo.HasPrevPage = false) :=
  have h := page_flags_follow_overfetch (cannedStore [topLevel 1 0, topLevel 2 1]) 1 none none 1
    [topLevel 1 0, topLevel 2 1] none (by decide)
  ⟨h.1 (cannedStore_answers _ _ _ _), h.2.1 (cannedStore_answers _ _ _ _),
    h.2.2 (cannedStore_answers _ _ _ _)⟩

/-- C10: when `after` is present and does not decode, or `before` is present and does not
decode, the call returns an error and no connection, and no statement is sent to storage. -/
theorem undecodable_cursor_rejected (db : DB) (postID : Int) (first last : Option Int)
    (after before : Option String)
    (h : (∃ a e, after = some a ∧ parseRFC3339 a = .error e) ∨
         (∃ b e, before = some b ∧ parseRFC3339 b = .error e)) :
    (∃ e, (GetCommentsByPostID db postID first last after before).result = .error e) ∧
    (GetCommentsByPostID db postID first last after before).queries = [] := by
  have hq : ∃ e, buildQuery postID first last after before = .error e := by
    unfold buildQuery
    rcases h with ⟨a, e, rfl, ha⟩ | ⟨b, e, rfl, hb⟩
    · exact ⟨e, by simp [addCursor, ha]⟩
    · cases h1 : addCursor ">" after { keys := [], values := [Value.int postID], arg := 2 } with
      | error e1 => exact ⟨e1, rfl⟩
      | ok b1 => exact ⟨e, by simp [addCursor, hb]⟩
  obtain ⟨e, he⟩ := hq
  unfold GetCommentsByPostID
  rw [he]
  exact ⟨⟨e, rfl⟩, rfl⟩

/-- Witness of C10: the text `not-a-cursor` as `after` is refused without any statement, even
over a storage that would answer. -/
theorem undecodable_cursor_rejected_witness :
    (∃ e, (GetCommentsByPostID (tableStore threeComments) 1 (some 2) none (some "not-a-cursor")
        none).result = .error e) ∧
    (GetCommentsByPostID (tableStore threeComments) 1 (some 2) none (some "not-a-cursor")
        none).queries = [] :=
  undecodable_cursor_rejected (tableStore threeComments) 1 (some 2) none (some "not-a-cursor") none
    (Or.inl ⟨"not-a-cursor", Err.parse "not-a-cursor", rfl, rfl⟩)

/-! ### The limit sent to storage and what it does to the page flags -/

theorem buildQuery_first (postID N : Int) (last : Option Int) :
    buildQuery postID (some N) last none none
      = .ok { text := baseQuery ++ " ORDER BY created_at " ++ "ASC" ++ " LIMIT $2",
              args := [Value.int postID, Value.int N] } := by
  simp only [buildQuery, addCursor, orderLimit, whereClause]
  rfl

theorem buildQuery_last (postID N : Int) :
    buildQuery postID none (some N) none none
      = .ok { text := baseQuery ++ " ORDER BY created_at " ++ "DESC" ++ " LIMIT $2",
              args := [Value.int postID, Value.int N] } := by
  simp only [buildQuery, addCursor, orderLimit, whereClause]
  rfl

/-- C2 (what the code sends): with a bound `N` honoured and no cursors, the statement ends in
`LIMIT $2` and the argument bound to `$2` is `N` itself, not `N + 1`: with `first = N` (whatever
`last` is) in ascending order, with only `last = N` in descending order. -/
theorem limit_argument_is_the_bound (postID N : Int) (last : Option Int) :
    buildQuery postID (some N) last none none
      = .ok { text := baseQuery ++ " ORDER BY created_at ASC LIMIT $2",
              args := [Value.int postID, Value.int N] } ∧
    buildQuery postID none (some N) none none
      = .ok { text := baseQuery ++ " ORDER BY created_at DESC LIMIT $2",
              args := [Value.int postID, Value.int N] } :=
  ⟨buildQuery_first postID N last, buildQuery_last postID N⟩

/-- With cursors too, the last argument of the statement is the bound itself. -/
theorem limit_argument_with_cursors (postID N : Int) (first last : Option Int)
    (after before : Option String) (q : Query)
    (hb : first = some N ∨ (first = none ∧ last = some N))
    (hq : buildQuery postID first last after before = .ok q) :
    q.args.getLast? = some (Value.int N) := by
  unfold buildQuery at hq
  cases h1 : addCursor ">" after { keys := [], values := [Value.int postID], arg := 2 } with
  | error e => simp [h1] at hq
  | ok b1 =>
    cases h2 : addCursor "<" before b1 with
    | error e => simp [h1, h2] at hq
    | ok b2 =>
      simp only [h1, h2, Except.ok.injEq] at hq
      subst hq
      rcases hb with rfl | ⟨rfl, rfl⟩ <;> simp [orderLimit]

theorem limit_found (post N : Int) (dir : String) (hd : dir = "ASC" ∨ dir = "DESC") :
    argAfter "LIMIT $" { text := baseQuery ++ " ORDER BY created_at " ++ dir ++ " LIMIT $2",
                         args := [Value.int post, Value.int N] } = some (Value.int N) := by
  rcases hd with rfl | rfl <;> rfl

/-- The table-backed storage truncates to the limit it is sent. -/
theorem tableStore_honours_limit (table : List Row) (post N : Int) (dir : String)
    (hd : dir = "ASC" ∨ dir = "DESC") (hN : 0 ≤ N) :
    ∃ rows : List Row,
      tableStore table { text := baseQuery ++ " ORDER BY created_at " ++ dir ++ " LIMIT $2",
                         args := [Value.int post, Value.int N] }
        = Except.ok { items := rows.map Except.ok, err := none } ∧
      rows.length ≤ N.toNat := by
  unfold tableStore
  simp only [limit_found post N dir hd]
  rw [if_neg (by omega)]
  exact ⟨_, rfl, by simp [List.length_take]⟩

/-- Over a storage that honours the limit it is sent, a page bounded by `first = N` never
reports a next page and a page bounded by `last = N` never reports a previous one, however
many comments the post has. -/
theorem honoured_limit_never_flags (table : List Row) (postID N : Int) (hN : 0 ≤ N) :
    (∃ r, (GetCommentsByPostID (tableStore table) postID (some N) none none none).result = .ok r ∧
      r.conn.PageInfo.HasNextPage = false) ∧
    (∃ r, (GetCommentsByPostID (tableStore table) postID none (some N) none none).result = .ok r ∧
      r.conn.PageInfo.HasPrevPage = false) := by
  constructor
  · obtain ⟨rows, h1, h2⟩ := tableStore_honours_limit table postID N "ASC" (Or.inl rfl) hN
    have ha : Answers (tableStore table) postID (some N) none none none
        { items := rows.map .ok, err := none } := by
      unfold Answers; rw [buildQuery_first]; exact h1
    rw [result_of_answer _ _ _ _ _ _ _ ha]
    obtain ⟨s2, h3, h4, _⟩ := scanLoop_first_only N rows LoopState.init
      (by simpa [LoopState.init] using hN) rfl
    refine ⟨finish (some N) none s2, by simp only [scanRows, h3], ?_⟩
    have hlt : ¬ (N < ((LoopState.init.count + rows.length : Nat) : Int)) := by
      simp only [LoopState.init]; omega
    have : s2.hasNextPage = false := by
      cases hs : s2.hasNextPage with
      | false => rfl
      | true => exact absurd (h4.mp hs) hlt
    simp [finish, this]
  · obtain ⟨rows, h1, h2⟩ := tableStore_honours_limit table postID N "DESC" (Or.inr rfl) hN
    have ha : Answers (tableStore table) postID none (some N) none none
        { items := rows.map .ok, err := none } := by
      unfold Answers; rw [buildQuery_last]; exact h1
    rw [result_of_answer _ _ _ _ _ _ _ ha]
    obtain ⟨s2, h3, h4, _⟩ := scanLoop_last_only N rows LoopState.init
      (by simpa [LoopState.init] using hN) rfl
    refine ⟨finish none (some N) s2, by simp only [scanRows, h3], ?_⟩
    have hlt : ¬ (N < ((LoopState.init.count + rows.length : Nat) : Int)) := by
      simp only [LoopState.init]; omega
    have : s2.hasPrevPage = false := by
      cases hs : s2.hasPrevPage with
      | false => rfl
      | true => exact absurd (h4.mp hs) hlt
    simp [finish, this]

/-- C1 (the code at the claim's scenario): post 1 has comments 1, 2, 3 created at `t0`,
`t0+1m`, `t0+2m`; storage executes the statement it is sent. With `first = 2` the statement
asks for 2 rows, the call returns the edges of comments 1 and 2 with cursors `t0` and `t0+1m`,
and `HasNextPage` is false although a third comment exists. -/
theorem first_two_of_three_reports_no_next_page :
    GetCommentsByPostID (tableStore threeComments) 1 (some 2) none none none
      = { result := .ok
            { conn :=
                { Edges := [{ Cursor := "2024-01-01T00:00:00Z", Node := 0 },
                            { Cursor := "2024-01-01T00:01:00Z", Node := 1 }],
                  PageInfo :=
                    { StartCursor := some "2024-01-01T00:00:00Z",
                      EndCursor := some "2024-01-01T00:01:00Z",
                      HasNextPage := false,
                      HasPrevPage := false } },
              heap := [{ ID := 1, PostID := 1, UserID := 1, ParentCommentID := none, Body := "c",
                         CreatedAt := minutesAfterT0 0, Replies := [] },
                       { ID := 2, PostID := 1, UserID := 1, ParentCommentID := none, Body := "c",
                         CreatedAt := minutesAfterT0 1, Replies := [] }] },
          queries := [{ text := baseQuery ++ " ORDER BY created_at ASC LIMIT $2",
                        args := [Value.int 1, Value.int 2] }] } := by
  rfl

/-- C3 (the code at the claim's scenario): same data, `last = 2`. The statement asks for 2
rows in descending order, the call returns the edges of comments 2 and 3 in ascending order,
and `HasPrevPage` is false although an older comment exists. -/
theorem last_two_of_three_reports_no_prev_page :
    GetCommentsByPostID (tableStore threeComments) 1 none (some 2) none none
      = { result := .ok
            { conn :=
                { Edges := [{ Cursor := "2024-01-01T00:01:00Z", Node := 1 },
                            { Cursor := "2024-01-01T00:02:00Z", Node := 0 }],
                  PageInfo :=
                    { StartCursor := some "2024-01-01T00:02:00Z",
                      EndCursor := some "2024-01-01T00:01:00Z",
                      HasNextPage := false,
                      HasPrevPage := false } },
              heap := [{ ID := 3, PostID := 1, UserID := 1, ParentCommentID := none, Body := "c",
                         CreatedAt := minutesAfterT0 2, Replies := [] },
                       { ID := 2, PostID := 1, UserID := 1, ParentCommentID := none, Body := "c",
                         CreatedAt := minutesAfterT0 1, Replies := [] }] },
          queries := [{ text := baseQuery ++ " ORDER BY created_at DESC LIMIT $2",
                        args := [Value.int 1, Value.int 2] }] } := by
  rfl

/-! ### Cursors of the page -/

/-- C8 (the code at the failing input): with `first = 0` and a storage that delivers one row,
the call returns no edge, yet `StartCursor` is the cursor of the row that was left out. -/
theorem zero_bound_leaks_start_cursor :
    (GetCommentsByPostID (cannedStore [topLevel 1 0]) 1 (some 0) none none none).result
      = .ok { conn := { Edges := [],
                        PageInfo := { StartCursor := some "2024-01-01T00:00:00Z",
                                      EndCursor := none,
                                      HasNextPage := true,
                                      HasPrevPage := false } },
              heap := [] } := by
  rfl

/-- C9 (the code at the failing input): over the three comments, `first = 2, last = 5` sends
the same statement as `first = 2` alone, but returns the two edges in descending order
(comment 2, then comment 1), where `first = 2` alone returns comment 1, then comment 2. -/
theorem both_bounds_reverse_the_forward_page :
    (GetCommentsByPostID (tableStore threeComments) 1 (some 2) (some 5) none none).queries
      = (GetCommentsByPostID (tableStore threeComments) 1 (some 2) none none none).queries ∧
    ((GetCommentsByPostID (tableStore threeComments) 1 (some 2) (some 5) none none).result.toOption.map
        fun r => r.conn.Edges)
      = some [{ Cursor := "2024-01-01T00:01:00Z", Node := 1 },
              { Cursor := "2024-01-01T00:00:00Z", Node := 0 }] ∧
    ((GetCommentsByPostID (tableStore threeComments) 1 (some 2) none none none).result.toOption.map
        fun r => r.conn.Edges)
      = some [{ Cursor := "2024-01-01T00:00:00Z", Node := 0 },
              { Cursor := "2024-01-01T00:01:00Z", Node := 1 }] :=
  ⟨rfl, rfl, rfl⟩

/-- C7 fails as stated: with `last = 2` over the three comments the edge list is not empty,
`StartCursor` is the cursor of the last returned edge (`t0+2m`) and `EndCursor` that of the
first (`t0+1m`), so neither is the cursor the claim names. -/
theorem backward_page_cursors_are_swapped :
    ∃ r, (GetCommentsByPostID (tableStore threeComments) 1 none (some 2) none none).result = .ok r ∧
      r.conn.Edges ≠ [] ∧
      r.conn.PageInfo.StartCursor ≠ r.conn.Edges.head?.map (fun e => e.Cursor) ∧
      r.conn.PageInfo.EndCursor ≠ r.conn.Edges.getLast?.map (fun e => e.Cursor) :=
  ⟨_, rfl, by decide, by decide, by decide⟩

theorem result_ok_inv (db : DB) (postID : Int) (first last : Option Int)
    (after before : Option String) (r : Fetched)
    (hr : (GetCommentsByPostID db postID first last after before).result = .ok r) :
    ∃ rows s, scanLoop first last rows LoopState.init = .ok s ∧ r = finish first last s := by
  unfold GetCommentsByPostID at hr
  cases hq : buildQuery postID first last after before with
  | error e => simp [hq] at hr
  | ok q =>
    cases hd : db q with
    | error e => simp [hq, hd] at hr
    | ok rows =>
      simp only [hq, hd, scanRows] at hr
      cases hs : scanLoop first last rows.items LoopState.init with
      | error e => simp [hs] at hr
      | ok s =>
        simp only [hs, Except.ok.injEq] at hr
        exact ⟨rows.items, s, hs, hr.symm⟩

theorem scanLoop_cursors (first last : Option Int) (items : List (Except Err Row)) :
    ∀ s s2 : LoopState, CursorInv s → scanLoop first last items s = .ok s2 → CursorInv s2 := by
  induction items with
  | nil =>
    intro s s2 hi h
    simp only [scanLoop, Except.ok.injEq] at h
    exact h ▸ hi
  | cons it rest ih =>
    intro s s2 hi h
    cases it with
    | error e => simp [scanLoop] at h
    | ok r =>
      cases hb : (atBound first s.count || atBound last s.count) with
      | true =>
        rw [scanLoop_stop _ _ _ _ _ hb, Except.ok.injEq] at h
        subst h
        refine ⟨by simpa using hi.1, fun hne => ?_⟩
        have hne2 : s.comments ≠ [] := by simpa using hne
        have hc : s.count ≠ 0 := by
          rw [hi.1]; exact fun h0 => hne2 (List.length_eq_zero.mp h0)
        simpa [noteStart_startCursor, hc] using hi.2 hne2
      | false =>
        rw [scanLoop_go _ _ _ _ _ hb] at h
        refine ih _ s2 ⟨by simp [hi.1], fun _ => ?_⟩ h
        refine ⟨?_, by simp⟩
        by_cases hne : s.comments = []
        · have hc : s.count = 0 := by rw [hi.1, hne]; rfl
          simp [noteStart_startCursor, hc, hne]
        · have hc : s.count ≠ 0 := by
            rw [hi.1]; exact fun h0 => hne (List.length_eq_zero.mp h0)
          obtain ⟨x, xs, hx⟩ := List.exists_cons_of_ne_nil hne
          have := (hi.2 hne).1
          simp [noteStart_startCursor, hc, hx] at this ⊢
          exact this

/-- C7 as amended: for every call that returns a non-empty edge list, the cursors are those of
the edges in the order the rows were consumed. When `last` is nil, `StartCursor` is the cursor
of the first returned edge and `EndCursor` that of the last returned edge; when only `last` is
set (the edges are returned reversed), `StartCursor` is the cursor of the last returned edge
and `EndCursor` that of the first. -/
theorem page_cursors_follow_consumption_order (db : DB) (postID : Int) (first last : Option Int)
    (after before : Option String) (r : Fetched)
    (hr : (GetCommentsByPostID db postID first last after before).result = .ok r)
    (hne : r.conn.Edges ≠ []) :
    (last = none →
      r.conn.PageInfo.StartCursor = r.conn.Edges.head?.map (fun e => e.Cursor) ∧
      r.conn.PageInfo.EndCursor = r.conn.Edges.getLast?.map (fun e => e.Cursor)) ∧
    (first = none → last ≠ none →
      r.conn.PageInfo.StartCursor = r.conn.Edges.getLast?.map (fun e => e.Cursor) ∧
      r.conn.PageInfo.EndCursor = r.conn.Edges.head?.map (fun e => e.Cursor)) := by
  obtain ⟨rows, s, hs, rfl⟩ := result_ok_inv db postID first last after before r hr
  have hi : CursorInv s :=
    scanLoop_cursors first last rows _ s ⟨rfl, fun h => (h rfl).elim⟩ hs
  constructor
  · intro hl
    subst hl
    have hne2 : s.comments ≠ [] := by simpa [finish] using hne
    simpa [finish] using hi.2 hne2
  · intro _ hl
    obtain ⟨l, rfl⟩ := Option.ne_none_iff_exists'.mp hl
    have hne2 : s.comments ≠ [] := by simpa [finish] using hne
    simpa [finish, List.head?_reverse, List.getLast?_reverse] using hi.2 hne2

/-- Witness of C7 as amended: the forward page of two over the three comments, and the
backward page of two. -/
theorem page_cursors_follow_consumption_order_witness :
    (∃ r, (GetCommentsByPostID (tableStore threeComments) 1 (some 2) none none none).result = .ok r ∧
      r.conn.Edges ≠ [] ∧
      r.conn.PageInfo.StartCursor = r.conn.Edges.head?.map (fun e => e.Cursor) ∧
      r.conn.PageInfo.EndCursor = r.conn.Edges.getLast?.map (fun e => e.Cursor)) ∧
    (∃ r, (GetCommentsByPostID (tableStore threeComments) 1 none (some 2) none none).result = .ok r ∧
      r.conn.Edges ≠ [] ∧
      r.conn.PageInfo.StartCursor = r.conn.Edges.getLast?.map (fun e => e.Cursor) ∧
      r.conn.PageInfo.EndCursor = r.conn.Edges.head?.map (fun e => e.Cursor)) :=
  ⟨⟨_, rfl, by decide,
      (page_cursors_follow_consumption_order (tableStore threeComments) 1 (some 2) none none none _
        rfl (by decide)).1 rfl⟩,
   ⟨_, rfl, by decide,
      (page_cursors_follow_consumption_order (tableStore threeComments) 1 none (some 2) none none _
        rfl (by decide)).2 rfl (by decide)⟩⟩

/-! ### Reply reassembly -/

theorem appendReply_length (h : List Comment) (p r : Addr) :
    (appendReply h p r).length = h.length := by
  induction h generalizing p with
  | nil => rfl
  | cons c cs ih => cases p <;> simp [appendReply, ih]

theorem appendReply_row (h : List Comment) (p r : Addr) :
    (appendReply h p r).map Comment.row = h.map Comment.row := by
  induction h generalizing p with
  | nil => rfl
  | cons c cs ih => cases p <;> simp [appendReply, ih, Comment.row]

theorem appendReply_get (h : List Comment) (p r i : Addr) :
    (appendReply h p r)[i]? =
      (h[i]?).map fun c => if i = p then { c with Replies := c.Replies ++ [r] } else c := by
  induction h generalizing p i with
  | nil => simp [appendReply]
  | cons c cs ih =>
    cases p with
    | zero => cases i <;> simp [appendReply]
    | succ p => cases i <;> simp [appendReply, ih]

/-- The comment the loop would attach a row to: the one `commentMap` holds for its parent id
after the row itself has been entered. -/
theorem consumeRow_heap (s : LoopState) (r : Row) (c : String) :
    (consumeRow s r c).heap =
      match r.ParentCommentID.bind fun pid => List.lookup pid ((r.ID, s.heap.length) :: s.commentMap) with
      | none => s.heap ++ [Comment.scanned r]
      | some p => appendReply (s.heap ++ [Comment.scanned r]) p s.heap.length := by
  unfold consumeRow
  cases hp : r.ParentCommentID with
  | none => rfl
  | some pid =>
    simp only [Option.bind]

theorem consumeRow_heap_row (s : LoopState) (r : Row) (c : String) :
    (consumeRow s r c).heap.map Comment.row = s.heap.map Comment.row ++ [r] := by
  rw [consumeRow_heap]
  split <;> simp [appendReply_row, Comment.row, Comment.scanned]

theorem consumeRow_heap_get (s : LoopState) (r : Row) (c : String) (i : Addr) :
    (consumeRow s r c).heap[i]? =
      ((s.heap ++ [Comment.scanned r])[i]?).map fun x =>
        if (r.ParentCommentID.bind fun pid =>
            List.lookup pid ((r.ID, s.heap.length) :: s.commentMap)) = some i
        then { x with Replies := x.Replies ++ [s.heap.length] } else x := by
  rw [consumeRow_heap]
  split
  · next h => simp [h]
  · next p h =>
    rw [appendReply_get, h]
    congr 1
    funext x
    by_cases hip : i = p
    · simp [hip]
    · have : ¬ (p = i) := fun h => hip h.symm
      simp [hip, this]

theorem lookup_cons_int (k a : Int) (v : Addr) (m : List (Int × Addr)) :
    List.lookup a ((k, v) :: m) = if a = k then some v else List.lookup a m := by
  by_cases h : a = k
  · subst h; simp
  · have hb : (a == k) = false := by simpa using h
    simp [List.lookup, hb, h]

theorem get_append_of_some {α : Type} {l : List α} {i : Nat} {a : α} (h : l[i]? = some a)
    (x : List α) : (l ++ x)[i]? = some a := by
  obtain ⟨hi, _⟩ := List.getElem?_eq_some.mp h
  rw [List.getElem?_append_left hi, h]

theorem get_concat_cases {α : Type} {l : List α} {x a : α} {i : Nat}
    (h : (l ++ [x])[i]? = some a) : l[i]? = some a ∨ (i = l.length ∧ a = x) := by
  by_cases hi : i < l.length
  · rw [List.getElem?_append_left hi] at h; exact Or.inl h
  · obtain ⟨hi2, _⟩ := List.getElem?_eq_some.mp h
    have hil : i = l.length := by simp at hi2; omega
    subst hil
    rw [List.getElem?_concat_length] at h
    exact Or.inr ⟨rfl, (Option.some.inj h).symm⟩

theorem HeapInv.init : HeapInv [] LoopState.init := by
  constructor <;> simp [LoopState.init]

theorem HeapInv.heap_length {done : List Row} {s : LoopState} (h : HeapInv done s) :
    s.heap.length = done.length := by
  have := congrArg List.length h.rows
  simpa using this

theorem HeapInv.heap_id {done : List Row} {s : LoopState} (h : HeapInv done s)
    {i : Addr} {c : Comment} (hc : s.heap[i]? = some c) : done[i]? = some c.row := by
  rw [← h.rows, List.getElem?_map, hc]; rfl

theorem HeapInv.consume {done : List Row} {s : LoopState} (h : HeapInv done s)
    (s1 : LoopState) (row : Row) (hh : s1.heap = s.heap) (hm : s1.commentMap = s.commentMap)
    (hc : s1.comments = s.comments) :
    HeapInv (done ++ [row]) (consumeRow s1 row (formatRFC3339 row.CreatedAt)) := by
  have hlen : s.heap.length = done.length := h.heap_length
  -- the map after the row has been entered
  have hmapped : ∀ (pid : Int) (p : Addr),
      List.lookup pid ((row.ID, done.length) :: s.commentMap) = some p →
        ((done ++ [row])[p]?).map (fun r => r.ID) = some pid := by
    intro pid p hl
    rw [lookup_cons_int] at hl
    by_cases hk : pid = row.ID
    · rw [if_pos hk] at hl
      obtain rfl := Option.some.inj hl
      rw [List.getElem?_concat_length, hk]; rfl
    · rw [if_neg hk] at hl
      have := h.mapped pid p hl
      cases hd : done[p]? with
      | none => rw [hd] at this; cases this
      | some r => rw [hd] at this; rw [get_append_of_some hd]; exact this
  have hlatest : (List.map (fun r => r.ID) (done ++ [row])).Nodup →
      ∀ (i : Addr) (r : Row), (done ++ [row])[i]? = some r →
        List.lookup r.ID ((row.ID, done.length) :: s.commentMap) = some i := by
    intro hn i r hi
    rw [List.map_append, List.nodup_append] at hn
    obtain ⟨hn1, _, hdis⟩ := hn
    rw [lookup_cons_int]
    rcases get_concat_cases hi with hold | ⟨rfl, rfl⟩
    · have hmem : r.ID ∈ done.map (fun r => r.ID) :=
        List.mem_map.mpr ⟨r, List.mem_iff_getElem?.mpr ⟨i, hold⟩, rfl⟩
      have hne : r.ID ≠ row.ID := by
        intro he
        exact hdis hmem (by simp [he])
      rw [if_neg hne]
      exact h.latest hn1 i r hold
    · simp
  refine ⟨?_, ?_, ?_, ?_, ?_, ?_, ?_⟩
  · rw [consumeRow_heap_row, hh, h.rows]
  · simp [hc, hh, h.nodes, hlen, List.range_succ]
  · simp [hc, h.cursors]
  · intro pid p hl
    rw [consumeRow_commentMap, hh, hm, hlen] at hl
    exact hmapped pid p hl
  · intro hn i r hi
    rw [consumeRow_commentMap, hh, hm, hlen]
    exact hlatest hn i r hi
  · intro i c j hi hj
    rw [consumeRow_heap_get, hh, hm, hlen] at hi
    cases hx : (s.heap ++ [Comment.scanned row])[i]? with
    | none => rw [hx] at hi; cases hi
    | some x =>
      rw [hx] at hi
      simp only [Option.map_some', Option.some.injEq] at hi
      -- the owner's id and replies before the row
      have hxid : (done ++ [row])[i]? = some x.row := by
        have : ((s.heap ++ [Comment.scanned row]).map Comment.row)[i]? = some x.row := by
          rw [List.getElem?_map, hx]; rfl
        rw [List.map_append, h.rows] at this
        exact this
      have hxold : ∀ j, j ∈ x.Replies →
          ((done ++ [row])[j]?).bind (fun r => r.ParentCommentID) = some x.ID := by
        intro j hj
        rcases get_concat_cases hx with hold | ⟨_, rfl⟩
        · have := h.sound i x j hold hj
          cases hd : done[j]? with
          | none => rw [hd] at this; cases this
          | some rj => rw [hd] at this; rw [get_append_of_some hd]; exact this
        · simp [Comment.scanned] at hj
      by_cases ht : (row.ParentCommentID.bind fun pid =>
          List.lookup pid ((row.ID, done.length) :: s.commentMap)) = some i
      · rw [if_pos ht] at hi
        subst hi
        simp only [List.mem_append, List.mem_singleton] at hj
        rcases hj with hj | rfl
        · exact hxold j hj
        · rw [List.getElem?_concat_length]
          cases hp : row.ParentCommentID with
          | none => rw [hp] at ht; cases ht
          | some pid =>
            rw [hp] at ht
            have := hmapped pid i ht
            rw [hxid] at this
            simp only [Option.map_some', Option.some.injEq] at this
            simp only [Option.some_bind, hp, Option.some.injEq]
            exact this.symm
      · rw [if_neg ht] at hi
        subst hi
        exact hxold j hj
  · intro hn i j ri rj hij hi hj hpar
    have hn1 : (done.map (fun r => r.ID)).Nodup := by
      rw [List.map_append, List.nodup_append] at hn
      exact hn.1
    rw [consumeRow_heap_get, hh, hm, hlen]
    rcases get_concat_cases hj with hjold | ⟨rfl, rfl⟩
    · have hjlt : j < done.length := (List.getElem?_eq_some.mp hjold).1
      have hiold : done[i]? = some ri := by
        rw [List.getElem?_append_left (Nat.lt_trans hij hjlt)] at hi; exact hi
      obtain ⟨c, hc1, hc2⟩ := h.complete hn1 i j ri rj hij hiold hjold hpar
      rw [get_append_of_some hc1]
      simp only [Option.map_some']
      split
      · exact ⟨_, rfl, by simp [hc2]⟩
      · exact ⟨_, rfl, hc2⟩
    · have hiold : done[i]? = some ri := by
        rw [List.getElem?_append_left hij] at hi; exact hi
      have hilt : i < s.heap.length := by rw [hlen]; exact hij
      have ht : (rj.ParentCommentID.bind fun pid =>
          List.lookup pid ((rj.ID, done.length) :: s.commentMap)) = some i := by
        rw [hpar]
        exact hlatest hn i ri hi
      rw [List.getElem?_append_left hilt, List.getElem?_eq_getElem hilt]
      simp only [Option.map_some', ht, if_true]
      exact ⟨_, rfl, by simp⟩

theorem HeapInv.congr {done : List Row} {s : LoopState} (h : HeapInv done s) (s1 : LoopState)
    (hh : s1.heap = s.heap) (hm : s1.commentMap = s.commentMap) (hc : s1.comments = s.comments) :
    HeapInv done s1 :=
  ⟨hh ▸ h.rows, hc ▸ h.nodes, hc ▸ h.cursors, hm ▸ h.mapped, hm ▸ h.latest, hh ▸ h.sound,
    hh ▸ h.complete⟩

/-- The loop over rows that all scan: it succeeds, the rows taken in are a prefix of the rows
delivered, the invariant holds for them, no taken row was met at a bound, and a row was left
only because it was met at a bound. -/
theorem scanLoop_heapInv (first last : Option Int) (rest : List Row) :
    ∀ (done : List Row) (s : LoopState), HeapInv done s → s.count = done.length →
      ∃ k s2, scanLoop first last (rest.map .ok) s = .ok s2 ∧
        HeapInv (done ++ rest.take k) s2 ∧ k ≤ rest.length ∧
        (∀ i, i < k →
          (atBound first (done.length + i) || atBound last (done.length + i)) = false) ∧
        (k < rest.length →
          (atBound first (done.length + k) || atBound last (done.length + k)) = true) := by
  induction rest with
  | nil =>
    intro done s h _
    exact ⟨0, s, rfl, by simpa using h, Nat.le_refl _, fun i hi => by omega,
      fun hk => by simp at hk⟩
  | cons r rest ih =>
    intro done s h hcnt
    cases hb : (atBound first s.count || atBound last s.count) with
    | true =>
      refine ⟨0, _, scanLoop_stop _ _ r _ s hb, ?_, Nat.zero_le _, fun i hi => by omega, fun _ => ?_⟩
      · simpa using h.congr (stopAtBound first (noteStart s (formatRFC3339 r.CreatedAt)))
          (by simp) (by simp) (by simp)
      · simpa [hcnt] using hb
    | false =>
      rw [List.map_cons, scanLoop_go _ _ r _ s hb]
      obtain ⟨k, s2, h1, h2, h3, h4, h5⟩ := ih (done ++ [r])
        (consumeRow (noteStart s (formatRFC3339 r.CreatedAt)) r (formatRFC3339 r.CreatedAt))
        (h.consume _ r (by simp) (by simp) (by simp)) (by simp [hcnt])
      refine ⟨k + 1, s2, h1, by simpa using h2, by simpa using h3, ?_, ?_⟩
      · intro i hi
        cases i with
        | zero => simpa [hcnt] using hb
        | succ i =>
          have := h4 i (by omega)
          simpa [Nat.add_assoc, Nat.add_comm 1 i] using this
      · intro hk
        have := h5 (by simpa using hk)
        simpa [Nat.add_assoc, Nat.add_comm 1 k] using this

theorem scanRows_heapInv (first last : Option Int) (rows : List Row) (err : Option Err) :
    ∃ k s2, scanRows first last { items := rows.map .ok, err := err } = .ok (finish first last s2) ∧
      HeapInv (rows.take k) s2 ∧ k ≤ rows.length ∧
      (∀ i, i < k → (atBound first i || atBound last i) = false) ∧
      (k < rows.length → (atBound first k || atBound last k) = true) := by
  obtain ⟨k, s2, h1, h2, h3, h4, h5⟩ :=
    scanLoop_heapInv first last rows [] LoopState.init HeapInv.init rfl
  refine ⟨k, s2, by simp only [scanRows, h1], by simpa using h2, h3, ?_, ?_⟩
  · intro i hi; simpa using h4 i hi
  · intro hk; simpa using h5 hk

theorem window_forward (first : Option Int) (n k : Nat) (hk : k ≤ n)
    (h4 : ∀ i, i < k → (atBound first i || atBound none i) = false)
    (h5 : k < n → (atBound first k || atBound none k) = true) :
    k = windowSize first n := by
  cases first with
  | none =>
    simp only [windowSize]
    by_contra hne
    have := h5 (by omega)
    simp [atBound] at this
  | some b =>
    simp only [windowSize]
    by_cases hb : 0 ≤ b
    · rw [if_pos hb]
      by_cases hlt : k < n
      · have := h5 hlt
        simp [atBound] at this
        omega
      · have hkn : k = n := by omega
        by_cases hbn : b.toNat < n
        · have := h4 b.toNat (by omega)
          simp [atBound] at this
          omega
        · omega
    · rw [if_neg hb]
      by_contra hne
      have := h5 (by omega)
      simp [atBound] at this
      omega

/-- C5: for every forward call (`last` nil; `first` set or not) over rows with distinct ids,
the comments built are the rows taken in, one edge per comment in the same order (replies
included, so there are as many edges as rows taken in), and every row taken in whose parent id
is the id of a row taken in before it is in the `Replies` of that row's comment. -/
theorem replies_attached_and_kept_as_edges (db : DB) (postID : Int) (first : Option Int)
    (after before : Option String) (rows : List Row) (err : Option Err)
    (hd : (rows.map (fun r => r.ID)).Nodup)
    (ha : Answers db postID first none after before { items := rows.map .ok, err := err }) :
    ∃ r, (GetCommentsByPostID db postID first none after before).result = .ok r ∧
      r.heap.map Comment.row = rows.take (windowSize first rows.length) ∧
      r.conn.Edges.map (fun e => e.Node) = List.range (windowSize first rows.length) ∧
      r.conn.Edges.length = windowSize first rows.length ∧
      ∀ (i j : Addr) (ri rj : Row), i < j → j < windowSize first rows.length →
        rows[i]? = some ri → rows[j]? = some rj → rj.ParentCommentID = some ri.ID →
        ∃ c, r.heap[i]? = some c ∧ j ∈ c.Replies := by
  rw [result_of_answer _ _ _ _ _ _ _ ha]
  obtain ⟨k, s2, h1, h2, h3, h4, h5⟩ := scanRows_heapInv first none rows err
  have hk : k = windowSize first rows.length := window_forward first rows.length k h3 h4 h5
  subst hk
  have hlen : (List.take (windowSize first rows.length) rows).length
      = windowSize first rows.length := by
    rw [List.length_take]; exact Nat.min_eq_left h3
  have hnodes : s2.comments.map (fun e => e.Node) = List.range (windowSize first rows.length) := by
    rw [h2.nodes, hlen]
  refine ⟨_, h1, h2.rows, by simpa [finish] using hnodes, ?_, ?_⟩
  · have := congrArg List.length hnodes
    simpa [finish] using this
  · intro i j ri rj hij hj hi hrj hpar
    have hnd : ((List.take (windowSize first rows.length) rows).map (fun r => r.ID)).Nodup := by
      rw [List.map_take]
      exact hd.sublist (List.take_sublist _ _)
    exact h2.complete hnd i j ri rj hij
      (by rw [List.getElem?_take_of_lt (Nat.lt_trans hij hj)]; exact hi)
      (by rw [List.getElem?_take_of_lt hj]; exact hrj) hpar

/-- Witness of C5: the rows `[P(id=1), C(id=2, parent=1)]` with `first = 2` give two edges,
and the comment of edge 1 has `Replies = [C]`. -/
theorem replies_attached_and_kept_as_edges_witness :
    (∃ r, (GetCommentsByPostID (cannedStore parentAndReply) 1 (some 2) none none none).result = .ok r ∧
      r.heap.map Comment.row = parentAndReply.take (windowSize (some 2) parentAndReply.length) ∧
      r.conn.Edges.map (fun e => e.Node) = List.range (windowSize (some 2) parentAndReply.length) ∧
      r.conn.Edges.length = windowSize (some 2) parentAndReply.length ∧
      ∀ (i j : Addr) (ri rj : Row), i < j → j < windowSize (some 2) parentAndReply.length →
        parentAndReply[i]? = some ri → parentAndReply[j]? = some rj →
        rj.ParentCommentID = some ri.ID → ∃ c, r.heap[i]? = some c ∧ j ∈ c.Replies) ∧
    (GetCommentsByPostID (cannedStore parentAndReply) 1 (some 2) none none none).result
      = .ok { conn := { Edges := [{ Cursor := "2024-01-01T00:00:00Z", Node := 0 },
                                  { Cursor := "2024-01-01T00:01:00Z", Node := 1 }],
                        PageInfo := { StartCursor := some "2024-01-01T00:00:00Z",
                                      EndCursor := some "2024-01-01T00:01:00Z",
                                      HasNextPage := false, HasPrevPage := false } },
              heap := [{ ID := 1, PostID := 1, UserID := 1, ParentCommentID := none, Body := "c",
                         CreatedAt := minutesAfterT0 0, Replies := [1] },
                       { ID := 2, PostID := 1, UserID := 1, ParentCommentID := some 1, Body := "c",
                         CreatedAt := minutesAfterT0 1, Replies := [] }] } :=
  ⟨replies_attached_and_kept_as_edges (cannedStore parentAndReply) 1 (some 2) none none
      parentAndReply none (by decide) (cannedStore_answers _ _ _ _), rfl⟩

/-- C6: for every call over rows that all scan, the call succeeds, and a comment taken in
whose parent id is the id of no comment taken in has an edge of its own and is in the
`Replies` of no comment. -/
theorem orphan_reply_is_plain_edge (db : DB) (postID : Int) (first last : Option Int)
    (after before : Option String) (rows : List Row) (err : Option Err)
    (ha : Answers db postID first last after before { items := rows.map .ok, err := err }) :
    ∃ r, (GetCommentsByPostID db postID first last after before).result = .ok r ∧
      r.heap.map Comment.row = rows.take r.heap.length ∧
      ∀ (j : Addr) (c : Comment) (pid : Int), r.heap[j]? = some c →
        c.ParentCommentID = some pid → (∀ c2 ∈ r.heap, c2.ID ≠ pid) →
        (∃ e ∈ r.conn.Edges, e.Node = j) ∧ ∀ c2 ∈ r.heap, j ∉ c2.Replies := by
  rw [result_of_answer _ _ _ _ _ _ _ ha]
  obtain ⟨k, s2, h1, h2, h3, _, _⟩ := scanRows_heapInv first last rows err
  have hlen : s2.heap.length = k := by
    rw [h2.heap_length, List.length_take]; exact Nat.min_eq_left h3
  refine ⟨_, h1, ?_, ?_⟩
  · simp only [finish]
    rw [hlen]; exact h2.rows
  · intro j c pid hj hp hno
    simp only [finish] at hj hno ⊢
    constructor
    · have hjlt : j < s2.heap.length := (List.getElem?_eq_some.mp hj).1
      have hmem : j ∈ s2.comments.map (fun e => e.Node) := by
        rw [h2.nodes, ← h2.heap_length]; exact List.mem_range.mpr hjlt
      obtain ⟨e, he, hej⟩ := List.mem_map.mp hmem
      refine ⟨e, ?_, hej⟩
      split
      · exact List.mem_reverse.mpr he
      · exact he
    · intro c2 hc2 hjin
      obtain ⟨i, hi⟩ := List.mem_iff_getElem?.mp hc2
      have hs := h2.sound i c2 j hi hjin
      rw [h2.heap_id hj] at hs
      simp only [Option.some_bind, Comment.row] at hs
      rw [hp] at hs
      exact hno c2 hc2 (Option.some.inj hs).symm

/-- Witness of C6: a reply to comment 4, which storage did not deliver, followed by a
top-level row: both are edges, and the reply is in no `Replies`. -/
theorem orphan_reply_is_plain_edge_witness :
    (∃ r, (GetCommentsByPostID (cannedStore orphanReply) 1 (some 2) none none none).result = .ok r ∧
      r.heap.map Comment.row = orphanReply.take r.heap.length ∧
      ∀ (j : Addr) (c : Comment) (pid : Int), r.heap[j]? = some c →
        c.ParentCommentID = some pid → (∀ c2 ∈ r.heap, c2.ID ≠ pid) →
        (∃ e ∈ r.conn.Edges, e.Node = j) ∧ ∀ c2 ∈ r.heap, j ∉ c2.Replies) ∧
    (GetCommentsByPostID (cannedStore orphanReply) 1 (some 2) none none none).result
      = .ok { conn := { Edges := [{ Cursor := "2024-01-01T00:00:00Z", Node := 0 },
                                  { Cursor := "2024-01-01T00:01:00Z", Node := 1 }],
                        PageInfo := { StartCursor := some "2024-01-01T00:00:00Z",
                                      EndCursor := some "2024-01-01T00:01:00Z",
                                      HasNextPage := false, HasPrevPage := false } },
              heap := [{ ID := 5, PostID := 1, UserID := 1, ParentCommentID := some 4, Body := "c",
                         CreatedAt := minutesAfterT0 0, Replies := [] },
                       { ID := 6, PostID := 1, UserID := 1, ParentCommentID := none, Body := "c",
                         CreatedAt := minutesAfterT0 1, Replies := [] }] } :=
  ⟨orphan_reply_is_plain_edge (cannedStore orphanReply) 1 (some 2) none none none orphanReply none
      (cannedStore_answers _ _ _ _), rfl⟩

/-! ### The shape of the statement -/

/-- C12: for every post, decodable cursors and a bound `N` (`first` when set, else `last`),
the statement built has the arguments `[postID] ++ [decoded after] ++ [decoded before] ++ [N]`;
its text is the fixed head, then the `WHERE` clause with `created_at > $i` for `after` and
`created_at < $j` for `before`, then `ORDER BY created_at ASC LIMIT $k` when `first` is set and
`ORDER BY created_at DESC LIMIT $k` otherwise; and each placeholder index is the 1-based
position of its value among the arguments. -/
theorem built_query_shape (postID N : Int) (first last : Option Int)
    (after before : Option String) (ta tb : Option Time)
    (hb : first = some N ∨ (first = none ∧ last = some N))
    (ha : decodeCursor after = .ok ta) (hbf : decodeCursor before = .ok tb) :
    ∃ q, buildQuery postID first last after before = .ok q ∧
      q.args = specArgs postID ta tb N ∧
      q.text = baseQuery ++ specWhere ta tb ++ " ORDER BY created_at "
        ++ (if first.isSome then "ASC" else "DESC") ++ " LIMIT $" ++ toString q.args.length ∧
      q.args.get? (1 - 1) = some (Value.int postID) ∧
      (∀ t, ta = some t → q.args.get? (2 - 1) = some (Value.time t)) ∧
      (∀ t, tb = some t → q.args.get? ((if ta.isSome then 3 else 2) - 1) = some (Value.time t)) ∧
      q.args.get? (q.args.length - 1) = some (Value.int N) := by
  have hta : ∀ a, after = some a → ∃ t, parseRFC3339 a = .ok t ∧ ta = some t := by
    intro a h
    subst h
    cases hp : parseRFC3339 a with
    | error e => simp [decodeCursor, hp] at ha
    | ok t => exact ⟨t, rfl, by simpa [decodeCursor, hp] using ha.symm⟩
  have htb : ∀ b, before = some b → ∃ t, parseRFC3339 b = .ok t ∧ tb = some t := by
    intro b h
    subst h
    cases hp : parseRFC3339 b with
    | error e => simp [decodeCursor, hp] at hbf
    | ok t => exact ⟨t, rfl, by simpa [decodeCursor, hp] using hbf.symm⟩
  cases after with
  | none =>
    have hta0 : ta = none := by simpa [decodeCursor] using ha.symm
    subst hta0
    cases before with
    | none =>
      have htb0 : tb = none := by simpa [decodeCursor] using hbf.symm
      subst htb0
      rcases hb with rfl | ⟨rfl, rfl⟩ <;>
        simp only [buildQuery, addCursor, orderLimit, whereClause, Except.ok.injEq,
          exists_eq_left'] <;>
        refine ⟨?_, ?_, ?_, ?_, ?_, ?_⟩ <;> first | rfl | simp
    | some b =>
      obtain ⟨t2, hpb, rfl⟩ := htb b rfl
      rcases hb with rfl | ⟨rfl, rfl⟩ <;>
        simp only [buildQuery, addCursor, hpb, orderLimit, whereClause, Except.ok.injEq,
          exists_eq_left'] <;>
        refine ⟨?_, ?_, ?_, ?_, ?_, ?_⟩ <;> first | rfl | simp
  | some a =>
    obtain ⟨t1, hpa, rfl⟩ := hta a rfl
    cases before with
    | none =>
      have htb0 : tb = none := by simpa [decodeCursor] using hbf.symm
      subst htb0
      rcases hb with rfl | ⟨rfl, rfl⟩ <;>
        simp only [buildQuery, addCursor, hpa, orderLimit, whereClause, Except.ok.injEq,
          exists_eq_left'] <;>
        refine ⟨?_, ?_, ?_, ?_, ?_, ?_⟩ <;> first | rfl | simp
    | some b =>
      obtain ⟨t2, hpb, rfl⟩ := htb b rfl
      rcases hb with rfl | ⟨rfl, rfl⟩ <;>
        simp only [buildQuery, addCursor, hpa, hpb, orderLimit, whereClause, Except.ok.injEq,
          exists_eq_left'] <;>
        refine ⟨?_, ?_, ?_, ?_, ?_, ?_⟩ <;> first | rfl | simp

/-- Witness of C12: the statement of the repository test with both cursors and `first = 2`. -/
theorem built_query_shape_witness :
    (∃ q, buildQuery 1 (some 2) none (some "2024-01-01T00:00:00Z") (some "2024-01-01T02:00:00Z")
        = .ok q ∧
      q.args = specArgs 1 (some (minutesAfterT0 0)) (some (minutesAfterT0 120)) 2 ∧
      q.text = baseQuery ++ specWhere (some (minutesAfterT0 0)) (some (minutesAfterT0 120))
        ++ " ORDER BY created_at " ++ (if (some (2 : Int)).isSome then "ASC" else "DESC")
        ++ " LIMIT $" ++ toString q.args.length ∧
      q.args.get? (1 - 1) = some (Value.int 1) ∧
      (∀ t, some (minutesAfterT0 0) = some t → q.args.get? (2 - 1) = some (Value.time t)) ∧
      (∀ t, some (minutesAfterT0 120) = some t →
        q.args.get? ((if (some (minutesAfterT0 0)).isSome then 3 else 2) - 1)
          = some (Value.time t)) ∧
      q.args.get? (q.args.length - 1) = some (Value.int 2)) ∧
    buildQuery 1 (some 2) none (some "2024-01-01T00:00:00Z") (some "2024-01-01T02:00:00Z")
      = .ok { text := baseQuery
                ++ " WHERE created_at > $2 AND created_at < $3 ORDER BY created_at ASC LIMIT $4",
              args := [Value.int 1, Value.time (minutesAfterT0 0),
                       Value.time (minutesAfterT0 120), Value.int 2] } :=
  ⟨built_query_shape 1 2 (some 2) none (some "2024-01-01T00:00:00Z")
      (some "2024-01-01T02:00:00Z") (some (minutesAfterT0 0)) (some (minutesAfterT0 120))
      (Or.inl rfl) rfl rfl, rfl⟩

/-! ### Bounds that are not validated, and the unbounded statement -/

theorem sent_to_storage (db : DB) (postID : Int) (first last : Option Int)
    (after before : Option String) (q : Query)
    (hq : buildQuery postID first last after before = .ok q) :
    (GetCommentsByPostID db postID first last after before).queries = [q] ∧
    (GetCommentsByPostID db postID first last after before).result =
      match db q with
      | .error e => .error e
      | .ok rows => scanRows first last rows := by
  unfold GetCommentsByPostID
  simp only [hq]
  cases db q <;> exact ⟨rfl, rfl⟩

/-- C11 fails as stated: with `first = -1` the call is not rejected. Over a storage that
delivers rows it succeeds with every row as an edge, and over a storage that executes the
statement the only error is the one storage raises for `LIMIT -1`; either way the statement
was sent. -/
theorem negative_first_is_not_rejected :
    GetCommentsByPostID (cannedStore [topLevel 1 0]) 1 (some (-1)) none none none
      = { result := .ok
            { conn := { Edges := [{ Cursor := "2024-01-01T00:00:00Z", Node := 0 }],
                        PageInfo := { StartCursor := some "2024-01-01T00:00:00Z",
                                      EndCursor := some "2024-01-01T00:00:00Z",
                                      HasNextPage := false, HasPrevPage := false } },
              heap := [Comment.scanned (topLevel 1 0)] },
          queries := [{ text := baseQuery ++ " ORDER BY created_at ASC LIMIT $2",
                        args := [Value.int 1, Value.int (-1)] }] } ∧
    GetCommentsByPostID (tableStore threeComments) 1 (some (-1)) none none none
      = { result := .error (Err.db "LIMIT must not be negative"),
          queries := [{ text := baseQuery ++ " ORDER BY created_at ASC LIMIT $2",
                        args := [Value.int 1, Value.int (-1)] }] } :=
  ⟨rfl, rfl⟩

/-- C11 as amended: a negative `first` (or a negative `last` when `first` is nil) is not
validated. When the cursors decode, the statement with the negative bound as its last
argument is sent to storage, an error of storage is returned unchanged, and when only that
bound is set and storage delivers rows that all scan, every row becomes an edge. -/
theorem negative_bound_reaches_storage (db : DB) (postID N : Int) (first last : Option Int)
    (after before : Option String) (q : Query) (hN : N < 0)
    (hb : first = some N ∨ (first = none ∧ last = some N))
    (hq : buildQuery postID first last after before = .ok q) :
    (GetCommentsByPostID db postID first last after before).queries = [q] ∧
    q.args.getLast? = some (Value.int N) ∧
    (∀ e, db q = .error e →
      (GetCommentsByPostID db postID first last after before).result = .error e) ∧
    (∀ (rows : List Row) (err : Option Err), (first = none ∨ last = none) →
      db q = .ok { items := rows.map .ok, err := err } →
      ∃ r, (GetCommentsByPostID db postID first last after before).result = .ok r ∧
        r.conn.Edges.length = rows.length) := by
  obtain ⟨h1, h2⟩ := sent_to_storage db postID first last after before q hq
  refine ⟨h1, limit_argument_with_cursors postID N first last after before q hb hq, ?_, ?_⟩
  · intro e he
    rw [h2, he]
  · intro rows err hone hd
    rw [h2, hd]
    obtain ⟨k, s2, h3, h4, h5, _, h7⟩ := scanRows_heapInv first last rows err
    have hk : k = rows.length := by
      by_contra hne
      have := h7 (by omega)
      rcases hb with rfl | ⟨rfl, rfl⟩
      · rcases hone with h | rfl
        · cases h
        · simp [atBound] at this; omega
      · simp [atBound] at this; omega
    refine ⟨_, h3, ?_⟩
    have := congrArg List.length h4.nodes
    simp only [List.length_map, List.length_range, List.length_take] at this
    simp only [finish]
    split <;> simp [this, hk]

/-- Witness of C11 as amended: `first = -1` over the three comments. -/
theorem negative_bound_reaches_storage_witness :
    (GetCommentsByPostID (tableStore threeComments) 1 (some (-1)) none none none).queries
      = [{ text := baseQuery ++ " ORDER BY created_at ASC LIMIT $2",
           args := [Value.int 1, Value.int (-1)] }] ∧
    ([Value.int 1, Value.int (-1)] : List Value).getLast? = some (Value.int (-1)) ∧
    (∀ e, tableStore threeComments { text := baseQuery ++ " ORDER BY created_at ASC LIMIT $2",
                                     args := [Value.int 1, Value.int (-1)] } = .error e →
      (GetCommentsByPostID (tableStore threeComments) 1 (some (-1)) none none none).result
        = .error e) ∧
    (∀ (rows : List Row) (err : Option Err),
        ((some (-1) : Option Int) = none ∨ (none : Option Int) = none) →
      tableStore threeComments { text := baseQuery ++ " ORDER BY created_at ASC LIMIT $2",
                                 args := [Value.int 1, Value.int (-1)] }
        = .ok { items := rows.map .ok, err := err } →
      ∃ r, (GetCommentsByPostID (tableStore threeComments) 1 (some (-1)) none none none).result
          = .ok r ∧ r.conn.Edges.length = rows.length) :=
  negative_bound_reaches_storage (tableStore threeComments) 1 (-1) (some (-1)) none none none _
    (by decide) (Or.inl rfl) (buildQuery_first 1 (-1) none)

/-- C13 (what the code sends): with neither bound set the statement is the fixed head alone
(plus the `WHERE` clause of the cursors): it has no `LIMIT` and no `ORDER BY` at all. Over the
three comments, stored in the order 2, 3, 1, the edges come back in that order. -/
theorem unbounded_statement_has_no_order :
    (∀ postID : Int, buildQuery postID none none none none
        = .ok { text := baseQuery, args := [Value.int postID] }) ∧
    findAfter "LIMIT".data baseQuery.data = none ∧
    findAfter "ORDER BY".data baseQuery.data = none ∧
    ((GetCommentsByPostID (tableStore threeComments) 1 none none none none).result.toOption.map
        fun r => r.conn.Edges)
      = some [{ Cursor := "2024-01-01T00:01:00Z", Node := 0 },
              { Cursor := "2024-01-01T00:02:00Z", Node := 1 },
              { Cursor := "2024-01-01T00:00:00Z", Node := 2 }] :=
  ⟨fun _ => rfl, rfl, rfl, rfl⟩

/-- With cursors and no bound, the statement ends with the `WHERE` clause. -/
theorem unbounded_statement_with_cursors (postID : Int) (after before : Option String) (q : Query)
    (hq : buildQuery postID none none after before = .ok q) :
    ∃ keys, q.text = baseQuery ++ whereClause keys ++ "" := by
  unfold buildQuery at hq
  cases h1 : addCursor ">" after { keys := [], values := [Value.int postID], arg := 2 } with
  | error e => simp [h1] at hq
  | ok b1 =>
    cases h2 : addCursor "<" before b1 with
    | error e => simp [h1, h2] at hq
    | ok b2 =>
      simp only [h1, h2, Except.ok.injEq, orderLimit] at hq
      exact ⟨b2.keys, by rw [← hq]⟩

/-! ### Failures of storage -/

/-- C17: when the storage query fails with error `e`, the call returns `e` itself and no
connection, after that one statement. -/
theorem storage_error_returned_unchanged (db : DB) (postID : Int) (first last : Option Int)
    (after before : Option String) (q : Query) (e : Err)
    (hq : buildQuery postID first last after before = .ok q) (hd : db q = .error e) :
    (GetCommentsByPostID db postID first last after before).result = .error e ∧
    (GetCommentsByPostID db postID first last after before).queries = [q] := by
  obtain ⟨h1, h2⟩ := sent_to_storage db postID first last after before q hq
  exact ⟨by rw [h2, hd], h1⟩

/-- Witness of C17: the failure test of the repository, `first = 2` with both cursors over a
storage whose query fails. -/
theorem storage_error_returned_unchanged_witness :
    (GetCommentsByPostID (failingStore (Err.db "sql: no rows in result set")) 1 (some 2) none
        (some "2024-01-01T00:00:00Z") (some "2024-01-01T02:00:00Z")).result
      = .error (Err.db "sql: no rows in result set") ∧
    (GetCommentsByPostID (failingStore (Err.db "sql: no rows in result set")) 1 (some 2) none
        (some "2024-01-01T00:00:00Z") (some "2024-01-01T02:00:00Z")).queries
      = [{ text := baseQuery
             ++ " WHERE created_at > $2 AND created_at < $3 ORDER BY created_at ASC LIMIT $4",
           args := [Value.int 1, Value.time (minutesAfterT0 0),
                    Value.time (minutesAfterT0 120), Value.int 2] }] :=
  storage_error_returned_unchanged (failingStore (Err.db "sql: no rows in result set")) 1
    (some 2) none (some "2024-01-01T00:00:00Z") (some "2024-01-01T02:00:00Z") _ _ rfl rfl

/-- A row that fails to scan before any bound is met makes the loop return its error. -/
theorem scanLoop_scan_error (first last : Option Int) (e : Err) (rest : List (Except Err Row))
    (rows : List Row) :
    ∀ s : LoopState,
      (∀ i, i < rows.length →
        (atBound first (s.count + i) || atBound last (s.count + i)) = false) →
      scanLoop first last (rows.map .ok ++ .error e :: rest) s = .error e := by
  induction rows with
  | nil => intro s _; rfl
  | cons r rows ih =>
    intro s h
    have h0 := h 0 (by simp)
    rw [Nat.add_zero] at h0
    rw [List.map_cons, List.cons_append, scanLoop_go _ _ r _ s h0]
    apply ih
    intro i hi
    have := h (i + 1) (by simpa using hi)
    simpa [Nat.add_assoc, Nat.add_comm 1 i] using this

/-- C18 (the code at the failing input): storage delivers one row and then the iteration ends
with an error. The call returns a connection with that one row and no error. -/
theorem iteration_error_is_swallowed :
    (GetCommentsByPostID (interruptedStore [topLevel 1 0] (Err.db "connection reset")) 1
        (some 2) none none none).result
      = .ok { conn := { Edges := [{ Cursor := "2024-01-01T00:00:00Z", Node := 0 }],
                        PageInfo := { StartCursor := some "2024-01-01T00:00:00Z",
                                      EndCursor := some "2024-01-01T00:00:00Z",
                                      HasNextPage := false, HasPrevPage := false } },
              heap := [Comment.scanned (topLevel 1 0)] } :=
  rfl

/-- The error that ended the iteration never reaches the result: the call returns the same
whatever `rows.Err()` would report. -/
theorem iteration_error_ignored (first last : Option Int) (items : List (Except Err Row))
    (err1 err2 : Option Err) :
    scanRows first last { items := items, err := err1 }
      = scanRows first last { items := items, err := err2 } :=
  rfl

/-- C19: when storage returns no row, the call succeeds with no edge, both cursors absent
and both page flags false. -/
theorem empty_page (db : DB) (postID : Int) (first last : Option Int)
    (after before : Option String) (err : Option Err)
    (ha : Answers db postID first last after before { items := [], err := err }) :
    (GetCommentsByPostID db postID first last after before).result
      = .ok { conn := { Edges := [],
                        PageInfo := { StartCursor := none, EndCursor := none,
                                      HasNextPage := false, HasPrevPage := false } },
              heap := [] } := by
  rw [result_of_answer _ _ _ _ _ _ _ ha]
  cases first <;> cases last <;> rfl

/-- Witness of C19: `after` set to a cursor past the three comments. -/
theorem empty_page_witness :
    (GetCommentsByPostID (tableStore threeComments) 1 (some 2) none
        (some "2024-01-01T00:05:00Z") none).result
      = .ok { conn := { Edges := [],
                        PageInfo := { StartCursor := none, EndCursor := none,
                                      HasNextPage := false, HasPrevPage := false } },
              heap := [] } :=
  empty_page (tableStore threeComments) 1 (some 2) none (some "2024-01-01T00:05:00Z") none none
    (by unfold Answers; rfl)

/-! ### The backward page -/

theorem range_filterMap_get {α : Type} (l : List α) :
    ∀ n, n ≤ l.length → (List.range n).filterMap (fun i => l[i]?) = l.take n := by
  intro n
  induction n with
  | zero => intro _; rfl
  | succ n ih =>
    intro h
    have hn : n < l.length := h
    rw [List.range_succ, List.filterMap_append, ih (Nat.le_of_lt hn), List.take_succ,
      List.getElem?_eq_getElem hn]
    simp [List.filterMap_cons, List.getElem?_eq_getElem hn]

theorem window_backward (N : Int) (n k : Nat) (hN : 0 ≤ N) (hk : k ≤ n)
    (h4 : ∀ i, i < k → (atBound none i || atBound (some N) i) = false)
    (h5 : k < n → (atBound none k || atBound (some N) k) = true) :
    k = min N.toNat n := by
  by_cases hlt : k < n
  · have := h5 hlt
    simp [atBound] at this
    omega
  · have hkn : k = n := by omega
    by_cases hbn : N.toNat < n
    · have := h4 N.toNat (by omega)
      simp [atBound] at this
      omega
    · omega

theorem HeapInv.edge_rows {done : List Row} {s : LoopState} (h : HeapInv done s) :
    s.comments.filterMap (fun e => (s.heap[e.Node]?).map Comment.row) = done := by
  have h1 : s.comments.filterMap (fun e => (s.heap[e.Node]?).map Comment.row)
      = (s.comments.map fun e => e.Node).filterMap fun i => (s.heap.map Comment.row)[i]? := by
    rw [List.filterMap_map]
    congr 1
    funext e
    simp
  rw [h1, h.nodes, h.rows]
  simpa using range_filterMap_get done done.length (Nat.le_refl _)

/-- C16: for every call with only `last = N` set (`N ≥ 0`) over rows that all scan, the rows
behind the returned edges are the first `min(N, number of rows)` rows in reversed order, with
their cursors; when storage delivered the rows in descending creation order, the edges are in
ascending creation order. -/
theorem backward_page_is_reversed_window (db : DB) (postID : Int) (after before : Option String)
    (N : Int) (rows : List Row) (err : Option Err) (hN : 0 ≤ N)
    (ha : Answers db postID none (some N) after before { items := rows.map .ok, err := err }) :
    ∃ r, (GetCommentsByPostID db postID none (some N) after before).result = .ok r ∧
      edgeRows r = (rows.take (min N.toNat rows.length)).reverse ∧
      r.conn.Edges.map (fun e => e.Cursor)
        = (rows.take (min N.toNat rows.length)).reverse.map
            (fun x => formatRFC3339 x.CreatedAt) ∧
      r.conn.Edges.length = min N.toNat rows.length ∧
      (rows.Pairwise (fun a b => a.CreatedAt.before b.CreatedAt = false) →
        (edgeRows r).Pairwise (fun a b => b.CreatedAt.before a.CreatedAt = false)) := by
  rw [result_of_answer _ _ _ _ _ _ _ ha]
  obtain ⟨k, s2, h1, h2, h3, h4, h5⟩ := scanRows_heapInv none (some N) rows err
  have hk : k = min N.toNat rows.length := window_backward N rows.length k hN h3 h4 h5
  subst hk
  have hrows : edgeRows (finish none (some N) s2)
      = (rows.take (min N.toNat rows.length)).reverse := by
    simp only [edgeRows, finish, Option.isSome_some, if_true, List.filterMap_reverse]
    rw [h2.edge_rows]
  refine ⟨_, h1, hrows, ?_, ?_, ?_⟩
  · simp only [finish, Option.isSome_some, if_true, List.map_reverse, h2.cursors]
  · have := congrArg List.length h2.nodes
    simp only [List.length_map, List.length_range, List.length_take] at this
    simp only [finish, Option.isSome_some, if_true, List.length_reverse, this]
    omega
  · intro hdesc
    rw [hrows, List.pairwise_reverse]
    exact hdesc.sublist (List.take_sublist _ _)

/-- Witness of C16: the three comments delivered newest first, `last = 2`. -/
theorem backward_page_is_reversed_window_witness :
    ∃ r, (GetCommentsByPostID (cannedStore [topLevel 3 2, topLevel 2 1, topLevel 1 0]) 1 none
        (some 2) none none).result = .ok r ∧
      edgeRows r = [topLevel 2 1, topLevel 3 2] ∧
      r.conn.Edges.map (fun e => e.Cursor) = ["2024-01-01T00:01:00Z", "2024-01-01T00:02:00Z"] ∧
      r.conn.Edges.length = 2 ∧
      (([topLevel 3 2, topLevel 2 1, topLevel 1 0] : List Row).Pairwise
          (fun a b => a.CreatedAt.before b.CreatedAt = false) →
        (edgeRows r).Pairwise (fun a b => b.CreatedAt.before a.CreatedAt = false)) :=
  backward_page_is_reversed_window (cannedStore [topLevel 3 2, topLevel 2 1, topLevel 1 0]) 1
    none none 2 [topLevel 3 2, topLevel 2 1, topLevel 1 0] none (by decide)
    (cannedStore_answers _ _ _ _)

/-! ### The reply relation -/

theorem consumeRow_heap_length (s : LoopState) (r : Row) (c : String) :
    (consumeRow s r c).heap.length = s.heap.length + 1 := by
  have := congrArg List.length (consumeRow_heap_row s r c)
  simpa using this

theorem forward_consumeRow {s : LoopState} (h : Forward s.heap) (r : Row) (c : String) :
    Forward (consumeRow s r c).heap := by
  intro i x j hi hj
  rw [consumeRow_heap_length]
  have hilt : i < s.heap.length + 1 := by
    have := (List.getElem?_eq_some.mp hi).1
    rwa [consumeRow_heap_length] at this
  rw [consumeRow_heap_get] at hi
  cases hx : (s.heap ++ [Comment.scanned r])[i]? with
  | none => rw [hx] at hi; cases hi
  | some y =>
    rw [hx] at hi
    simp only [Option.map_some', Option.some.injEq] at hi
    have hold : ∀ j, j ∈ y.Replies → i ≤ j ∧ j < s.heap.length + 1 := by
      intro j hj
      rcases get_concat_cases hx with hy | ⟨_, rfl⟩
      · have := h i y j hy hj
        exact ⟨this.1, Nat.lt_succ_of_lt this.2⟩
      · simp [Comment.scanned] at hj
    split at hi
    · subst hi
      simp only [List.mem_append, List.mem_singleton] at hj
      rcases hj with hj | rfl
      · exact hold j hj
      · exact ⟨Nat.le_of_lt_succ hilt, Nat.lt_succ_self _⟩
    · subst hi
      exact hold j hj

theorem scanLoop_forward (first last : Option Int) (items : List (Except Err Row)) :
    ∀ s s2 : LoopState, Forward s.heap → scanLoop first last items s = .ok s2 →
      Forward s2.heap := by
  induction items with
  | nil =>
    intro s s2 hf h
    simp only [scanLoop, Except.ok.injEq] at h
    exact h ▸ hf
  | cons it rest ih =>
    intro s s2 hf h
    cases it with
    | error e => simp [scanLoop] at h
    | ok r =>
      cases hb : (atBound first s.count || atBound last s.count) with
      | true =>
        rw [scanLoop_stop _ _ _ _ _ hb, Except.ok.injEq] at h
        subst h
        simpa using hf
      | false =>
        rw [scanLoop_go _ _ _ _ _ hb] at h
        refine ih _ s2 (forward_consumeRow ?_ r _) h
        simpa using hf

theorem forward_no_return {heap : List Comment}
    (h : ∀ (i : Addr) (c : Comment) (j : Addr), heap[i]? = some c → j ∈ c.Replies → i < j)
    {i j : Addr} (hr : Relation.TransGen (IsReply heap) i j) : i < j := by
  induction hr with
  | single hs =>
    obtain ⟨c, hc, hj⟩ := hs
    exact h _ c _ hc hj
  | tail _ hs ih =>
    obtain ⟨c, hc, hj⟩ := hs
    exact Nat.lt_trans ih (h _ c _ hc hj)

/-- C20 fails as stated: a row whose parent id is its own id is entered in `commentMap`
before its parent is looked up, so its comment ends in its own `Replies`. -/
theorem self_parent_is_its_own_reply :
    (GetCommentsByPostID (cannedStore selfParent) 1 none none none none).result
      = .ok { conn := { Edges := [{ Cursor := "2024-01-01T00:00:00Z", Node := 0 }],
                        PageInfo := { StartCursor := some "2024-01-01T00:00:00Z",
                                      EndCursor := some "2024-01-01T00:00:00Z",
                                      HasNextPage := false, HasPrevPage := false } },
              heap := [{ ID := 1, PostID := 1, UserID := 1, ParentCommentID := some 1,
                         Body := "c", CreatedAt := minutesAfterT0 0, Replies := [0] }] } ∧
    IsReply [{ ID := 1, PostID := 1, UserID := 1, ParentCommentID := some 1,
               Body := "c", CreatedAt := minutesAfterT0 0, Replies := [0] }] 0 0 :=
  ⟨rfl, _, rfl, by decide⟩

/-- C20 as amended: for every row sequence in which no row names itself as its parent, every
entry of a `Replies` list is a comment taken in strictly after the owner of the list, so no
chain of replies leads back to where it started, and no comment is in its own `Replies`. -/
theorem replies_lie_later (db : DB) (postID : Int) (first last : Option Int)
    (after before : Option String) (rows : List Row) (err : Option Err)
    (hself : ∀ x ∈ rows, x.ParentCommentID ≠ some x.ID)
    (ha : Answers db postID first last after before { items := rows.map .ok, err := err }) :
    ∃ r, (GetCommentsByPostID db postID first last after before).result = .ok r ∧
      (∀ (i : Addr) (c : Comment) (j : Addr), r.heap[i]? = some c → j ∈ c.Replies → i < j) ∧
      (∀ i : Addr, ¬ Relation.TransGen (IsReply r.heap) i i) ∧
      (∀ (i : Addr) (c : Comment), r.heap[i]? = some c → i ∉ c.Replies) := by
  rw [result_of_answer _ _ _ _ _ _ _ ha]
  obtain ⟨k, s2, h1, h2, _, _, _⟩ :=
    scanLoop_heapInv first last rows [] LoopState.init HeapInv.init rfl
  rw [List.nil_append] at h2
  have hfw : Forward s2.heap :=
    scanLoop_forward first last _ LoopState.init s2
      (by intro i c j hi; simp [LoopState.init] at hi) h1
  have hlt : ∀ (i : Addr) (c : Comment) (j : Addr),
      s2.heap[i]? = some c → j ∈ c.Replies → i < j := by
    intro i c j hi hj
    have hle := (hfw i c j hi hj).1
    rcases Nat.lt_or_eq_of_le hle with h | h
    · exact h
    · exfalso
      subst h
      have hs := h2.sound i c i hi hj
      have hrow := h2.heap_id hi
      rw [hrow] at hs
      simp only [Option.some_bind, Comment.row] at hs
      have hmem : c.row ∈ rows :=
        (List.take_sublist k rows).subset (List.mem_iff_getElem?.mpr ⟨i, hrow⟩)
      exact hself c.row hmem hs
  refine ⟨finish first last s2, by simp only [scanRows, h1], ?_, ?_, ?_⟩
  · exact hlt
  · intro i hr
    exact Nat.lt_irrefl i (forward_no_return hlt hr)
  · intro i c hi hin
    exact Nat.lt_irrefl i (hlt i c i hi hin)

/-- Witness of C20 as amended: the rows `[P(id=1), C(id=2, parent=1)]`. -/
theorem replies_lie_later_witness :
    ∃ r, (GetCommentsByPostID (cannedStore parentAndReply) 1 (some 2) none none none).result
        = .ok r ∧
      (∀ (i : Addr) (c : Comment) (j : Addr), r.heap[i]? = some c → j ∈ c.Replies → i < j) ∧
      (∀ i : Addr, ¬ Relation.TransGen (IsReply r.heap) i i) ∧
      (∀ (i : Addr) (c : Comment), r.heap[i]? = some c → i ∉ c.Replies) :=
  replies_lie_later (cannedStore parentAndReply) 1 (some 2) none none none parentAndReply none
    (by decide) (cannedStore_answers _ _ _ _)

/-! ### The calendar of the cursor codec -/

theorem yearOfEra_facts (N yoe : Int) (h0 : 0 ≤ N) (h1 : N < 146097)
    (hy : yoe = (N - N / 1460 + N / 36524 - N / 146096) / 365) :
    0 ≤ yoe ∧ yoe ≤ 399 ∧
    0 ≤ N - (365 * yoe + yoe / 4 - yoe / 100) ∧
    N - (365 * yoe + yoe / 4 - yoe / 100) ≤ 365 ∧
    (N - (365 * yoe + yoe / 4 - yoe / 100) = 365 →
      yoe % 4 = 3 ∧ (yoe % 100 ≠ 99 ∨ yoe = 399)) := by
  have hr : 0 ≤ yoe ∧ yoe ≤ 399 := by omega
  have hb : yoe / 100 = 0 ∨ yoe / 100 = 1 ∨ yoe / 100 = 2 ∨ yoe / 100 = 3 := by omega
  have hc : N / 36524 = 0 ∨ N / 36524 = 1 ∨ N / 36524 = 2 ∨ N / 36524 = 3 ∨ N / 36524 = 4 := by
    omega
  have he : N / 146096 = 0 ∨ N / 146096 = 1 := by omega
  refine ⟨hr.1, hr.2, ?_, ?_, ?_⟩
  · rcases hb with hb | hb | hb | hb <;> rcases hc with hc | hc | hc | hc | hc <;> omega
  · rcases hb with hb | hb | hb | hb <;> rcases hc with hc | hc | hc | hc | hc <;> omega
  · intro h
    constructor
    · by_contra hs
      have hq : N / 1460 ≤ yoe / 4 := by
        rcases hb with hb | hb | hb | hb <;> omega
      rcases he with he | he <;>
        rcases hb with hb | hb | hb | hb <;> rcases hc with hc | hc | hc | hc | hc <;> omega
    · rcases hb with hb | hb | hb | hb <;> rcases hc with hc | hc | hc | hc | hc <;> omega

/-- What `civilFromDays` computes, in terms of the era, the year of the era, the day of the
March-based year and the March-based month. -/
theorem civilFromDays_parts (z : Int) :
    ∃ era yoe doy mp : Int,
      0 ≤ yoe ∧ yoe ≤ 399 ∧ 0 ≤ doy ∧ doy ≤ 365 ∧
      (doy = 365 → yoe % 4 = 3 ∧ (yoe % 100 ≠ 99 ∨ yoe = 399)) ∧
      mp = (5 * doy + 2) / 153 ∧
      z = era * 146097 + (yoe * 365 + yoe / 4 - yoe / 100 + doy) - 719468 ∧
      civilFromDays z =
        (if (if mp < 10 then mp + 3 else mp - 9) ≤ 2 then yoe + era * 400 + 1
          else yoe + era * 400,
         if mp < 10 then mp + 3 else mp - 9,
         doy - (153 * mp + 2) / 5 + 1) := by
  have h0 : 0 ≤ z + 719468 - (z + 719468) / 146097 * 146097 := by omega
  have h1 : z + 719468 - (z + 719468) / 146097 * 146097 < 146097 := by omega
  obtain ⟨f1, f2, f3, f4, f5⟩ := yearOfEra_facts _ _ h0 h1 rfl
  refine ⟨(z + 719468) / 146097, _, _, _, f1, f2, f3, f4, f5, rfl, ?_, rfl⟩
  omega

theorem isLeap_of_last_day (yoe era : Int)
    (h : yoe % 4 = 3 ∧ (yoe % 100 ≠ 99 ∨ yoe = 399)) (_h0 : 0 ≤ yoe) (_h1 : yoe ≤ 399) :
    isLeap (yoe + era * 400 + 1) = true := by
  have h4 : (yoe + era * 400 + 1) % 4 = 0 := by omega
  have h100 : (yoe + era * 400 + 1) % 100 ≠ 0 ∨ (yoe + era * 400 + 1) % 400 = 0 := by omega
  simp only [isLeap, Bool.and_eq_true, Bool.or_eq_true, beq_iff_eq, bne_iff_ne, ne_eq]
  exact ⟨h4, h100⟩

/-- The date `civilFromDays` returns is a date of the calendar, and `daysFromCivil` leads back
to the day number. -/
theorem civilFromDays_valid (z : Int) :
    1 ≤ (civilFromDays z).2.1 ∧ (civilFromDays z).2.1 ≤ 12 ∧
    1 ≤ (civilFromDays z).2.2 ∧
    (civilFromDays z).2.2 ≤ (daysIn (civilFromDays z).2.1.toNat (civilFromDays z).1 : Nat) ∧
    daysFromCivil (civilFromDays z).1 (civilFromDays z).2.1 (civilFromDays z).2.2 = z := by
  obtain ⟨era, yoe, doy, mp, f1, f2, f3, f4, f5, hmp, hz, hc⟩ := civilFromDays_parts z
  rw [hc]
  have hm : mp = 0 ∨ mp = 1 ∨ mp = 2 ∨ mp = 3 ∨ mp = 4 ∨ mp = 5 ∨ mp = 6 ∨ mp = 7 ∨ mp = 8 ∨
      mp = 9 ∨ mp = 10 ∨ mp = 11 := by omega
  rcases hm with h | h | h | h | h | h | h | h | h | h | h | h
  all_goals
    subst h
    refine ⟨by norm_num, by norm_num, ?_, ?_, ?_⟩
  all_goals first
    | (simp only [daysFromCivil]; norm_num; omega)
    | (norm_num; omega)
    | (norm_num [daysIn]; omega)
    | skip
  by_cases hd : doy = 365
  · have hl := isLeap_of_last_day yoe era (f5 hd) f1 f2
    norm_num [daysIn, hl]
    omega
  · norm_num [daysIn]
    split <;> omega

/-! ### Decimal fields of the cursor codec -/

theorem digitChar_isDigit : ∀ k, k < 10 →
    (Nat.digitChar k).isDigit = true ∧ digitVal (Nat.digitChar k) = k := by
  decide

theorem toDigitsCore_one (fuel n : Nat) (ds : List Char) (h : n < 10) :
    Nat.toDigitsCore 10 (fuel + 1) n ds = Nat.digitChar n :: ds := by
  have h1 : n / 10 = 0 := by omega
  have h2 : n % 10 = n := by omega
  simp [Nat.toDigitsCore, h1, h2]

theorem toDigitsCore_step (fuel n : Nat) (ds : List Char) (h : 10 ≤ n) :
    Nat.toDigitsCore 10 (fuel + 1) n ds
      = Nat.toDigitsCore 10 fuel (n / 10) (Nat.digitChar (n % 10) :: ds) := by
  have h1 : n / 10 ≠ 0 := by omega
  simp [Nat.toDigitsCore, h1]

theorem toDigits_two (n : Nat) (h : n < 100) :
    List.replicate (2 - (Nat.toDigits 10 n).length) '0' ++ Nat.toDigits 10 n
      = [Nat.digitChar (n / 10), Nat.digitChar (n % 10)] := by
  unfold Nat.toDigits
  by_cases h1 : n < 10
  · have h2 : n / 10 = 0 := by omega
    have h3 : n % 10 = n := by omega
    rw [toDigitsCore_one n n [] h1, h2, h3]
    rfl
  · obtain ⟨f, rfl⟩ : ∃ f, n = f + 1 := ⟨n - 1, by omega⟩
    rw [toDigitsCore_step _ _ _ (by omega), toDigitsCore_one f _ _ (by omega)]
    rfl

theorem appendInt_two (x : Int) (h0 : 0 ≤ x) (h1 : x < 100) :
    appendInt x 2 = [Nat.digitChar (x.toNat / 10), Nat.digitChar (x.toNat % 10)] := by
  obtain ⟨n, rfl⟩ := Int.eq_ofNat_of_zero_le h0
  have hn : n < 100 := by omega
  simp only [appendInt, Int.natAbs_ofNat, Int.toNat_ofNat]
  rw [if_neg (by omega)]
  exact toDigits_two n hn

theorem toDigits_four (n : Nat) (h : n < 10000) :
    List.replicate (4 - (Nat.toDigits 10 n).length) '0' ++ Nat.toDigits 10 n
      = [Nat.digitChar (n / 1000), Nat.digitChar (n / 100 % 10), Nat.digitChar (n / 10 % 10),
         Nat.digitChar (n % 10)] := by
  unfold Nat.toDigits
  by_cases h1 : n < 10
  · have e1 : n / 1000 = 0 := by omega
    have e2 : n / 100 % 10 = 0 := by omega
    have e3 : n / 10 % 10 = 0 := by omega
    have e4 : n % 10 = n := by omega
    rw [toDigitsCore_one n n [] h1, e1, e2, e3, e4]
    rfl
  · by_cases h2 : n < 100
    · obtain ⟨f, rfl⟩ : ∃ f, n = f + 1 := ⟨n - 1, by omega⟩
      have e1 : (f + 1) / 1000 = 0 := by omega
      have e2 : (f + 1) / 100 % 10 = 0 := by omega
      have e3 : (f + 1) / 10 % 10 = (f + 1) / 10 := by omega
      rw [toDigitsCore_step _ _ _ (by omega), toDigitsCore_one f _ _ (by omega), e1, e2, e3]
      rfl
    · by_cases h3 : n < 1000
      · obtain ⟨f, rfl⟩ : ∃ f, n = f + 2 := ⟨n - 2, by omega⟩
        have e1 : (f + 2) / 1000 = 0 := by omega
        have e2 : (f + 2) / 100 % 10 = (f + 2) / 10 / 10 := by omega
        rw [toDigitsCore_step _ _ _ (by omega), toDigitsCore_step _ _ _ (by omega),
          toDigitsCore_one f _ _ (by omega), e1, e2]
        rfl
      · obtain ⟨f, rfl⟩ : ∃ f, n = f + 3 := ⟨n - 3, by omega⟩
        have e1 : (f + 3) / 1000 = (f + 3) / 10 / 10 / 10 := by omega
        have e2 : (f + 3) / 100 % 10 = (f + 3) / 10 / 10 % 10 := by omega
        rw [toDigitsCore_step _ _ _ (by omega), toDigitsCore_step _ _ _ (by omega),
          toDigitsCore_step _ _ _ (by omega), toDigitsCore_one f _ _ (by omega), e1, e2]
        rfl

theorem appendInt_four (x : Int) (h0 : 0 ≤ x) (h1 : x < 10000) :
    appendInt x 4 = [Nat.digitChar (x.toNat / 1000), Nat.digitChar (x.toNat / 100 % 10),
      Nat.digitChar (x.toNat / 10 % 10), Nat.digitChar (x.toNat % 10)] := by
  obtain ⟨n, rfl⟩ := Int.eq_ofNat_of_zero_le h0
  have hn : n < 10000 := by omega
  simp only [appendInt, Int.natAbs_ofNat, Int.toNat_ofNat]
  rw [if_neg (by omega)]
  exact toDigits_four n hn

theorem getnum_digits (n : Nat) (h : n < 100) (fixed : Bool) (rest : List Char) :
    getnum (Nat.digitChar (n / 10) :: Nat.digitChar (n % 10) :: rest) fixed = some (n, rest) := by
  obtain ⟨a1, a2⟩ := digitChar_isDigit (n / 10) (by omega)
  obtain ⟨b1, b2⟩ := digitChar_isDigit (n % 10) (by omega)
  simp only [getnum, a1, b1, a2, b2, Bool.not_true, Bool.false_eq_true, if_false]
  congr 2
  omega

theorem getBelow_digits (bound n : Nat) (h : n < bound) (hb : bound ≤ 100) (fixed : Bool)
    (rest : List Char) :
    getBelow bound fixed (Nat.digitChar (n / 10) :: Nat.digitChar (n % 10) :: rest)
      = some (n, rest) := by
  simp only [getBelow, getnum_digits n (by omega) fixed rest]
  rw [if_neg (by omega)]

theorem getYear_digits (n : Nat) (h : n < 10000) (rest : List Char) :
    getYear (Nat.digitChar (n / 1000) :: Nat.digitChar (n / 100 % 10) ::
        Nat.digitChar (n / 10 % 10) :: Nat.digitChar (n % 10) :: rest) = some (n, rest) := by
  obtain ⟨a1, a2⟩ := digitChar_isDigit (n / 1000) (by omega)
  obtain ⟨b1, b2⟩ := digitChar_isDigit (n / 100 % 10) (by omega)
  obtain ⟨c1, c2⟩ := digitChar_isDigit (n / 10 % 10) (by omega)
  obtain ⟨d1, d2⟩ := digitChar_isDigit (n % 10) (by omega)
  simp only [getYear, a1, b1, c1, d1, a2, b2, c2, d2, Bool.and_self, if_true]
  congr 2
  omega

theorem getDate_digits (y mo d : Nat) (hy : y < 10000) (hm1 : 1 ≤ mo) (hm2 : mo ≤ 12)
    (hd : d < 100) (rest : List Char) :
    getDate (Nat.digitChar (y / 1000) :: Nat.digitChar (y / 100 % 10) ::
        Nat.digitChar (y / 10 % 10) :: Nat.digitChar (y % 10) :: '-' ::
        Nat.digitChar (mo / 10) :: Nat.digitChar (mo % 10) :: '-' ::
        Nat.digitChar (d / 10) :: Nat.digitChar (d % 10) :: 'T' :: rest)
      = some ((y, mo, d), rest) := by
  have hmo : mo ≠ 0 := by omega
  simp [getDate, getYear_digits y hy, expectChar, getBelow_digits 13 mo (by omega) (by omega),
    getnum_digits d hd, hmo]

theorem getClock_digits (h mi s : Nat) (hh : h < 24) (hmi : mi < 60) (hs : s < 60)
    (tz : List Char) (hfr : getFraction tz = (0, tz)) :
    getClock (Nat.digitChar (h / 10) :: Nat.digitChar (h % 10) :: ':' ::
        Nat.digitChar (mi / 10) :: Nat.digitChar (mi % 10) :: ':' ::
        Nat.digitChar (s / 10) :: Nat.digitChar (s % 10) :: tz)
      = some ((h * 3600 + mi * 60 + s, 0), tz) := by
  simp [getClock, expectChar, getBelow_digits 24 h hh (by omega),
    getBelow_digits 60 mi hmi (by omega), getBelow_digits 60 s hs (by omega), hfr]

/-- Parsing a text made of in-range decimal fields and a zone suffix gives back the fields. -/
theorem parseFields_digits (y mo d h mi s : Nat) (hy : y < 10000) (hm1 : 1 ≤ mo) (hm2 : mo ≤ 12)
    (hd1 : 1 ≤ d) (hd2 : d ≤ daysIn mo y) (hh : h < 24) (hmi : mi < 60) (hs : s < 60)
    (tz : List Char) (off : Int) (hfr : getFraction tz = (0, tz))
    (hz : getZone tz = some (off, [])) :
    parseFields (Nat.digitChar (y / 1000) :: Nat.digitChar (y / 100 % 10) ::
        Nat.digitChar (y / 10 % 10) :: Nat.digitChar (y % 10) :: '-' ::
        Nat.digitChar (mo / 10) :: Nat.digitChar (mo % 10) :: '-' ::
        Nat.digitChar (d / 10) :: Nat.digitChar (d % 10) :: 'T' ::
        Nat.digitChar (h / 10) :: Nat.digitChar (h % 10) :: ':' ::
        Nat.digitChar (mi / 10) :: Nat.digitChar (mi % 10) :: ':' ::
        Nat.digitChar (s / 10) :: Nat.digitChar (s % 10) :: tz)
      = some { sec := daysFromCivil y mo d * 86400 + ((h * 3600 + mi * 60 + s : Nat) : Int) - off,
               nsec := 0, offset := off } := by
  have hdl : d < 100 := by
    have : daysIn mo y ≤ 31 := by
      unfold daysIn; split
      · split <;> omega
      · split <;> omega
    omega
  have hnd1 : ¬ d = 0 := by omega
  have hnd2 : ¬ d > daysIn mo y := by omega
  simp [parseFields, getDate_digits y mo d hy hm1 hm2 hdl, getClock_digits h mi s hh hmi hs tz hfr,
    hz, hnd1, hnd2]

theorem zone_round_trip (off : Int) (h60 : off % 60 = 0) (hlo : -86400 < off)
    (hhi : off < 86400) :
    getZone (if off == 0 then ['Z']
        else (if Int.tdiv off 60 < 0 then ['-'] else ['+'])
          ++ appendInt (((Int.tdiv off 60).natAbs : Int) / 60) 2 ++ [':']
          ++ appendInt (((Int.tdiv off 60).natAbs : Int) % 60) 2) = some (off, []) ∧
    getFraction (if off == 0 then ['Z']
        else (if Int.tdiv off 60 < 0 then ['-'] else ['+'])
          ++ appendInt (((Int.tdiv off 60).natAbs : Int) / 60) 2 ++ [':']
          ++ appendInt (((Int.tdiv off 60).natAbs : Int) % 60) 2)
      = (0, if off == 0 then ['Z']
        else (if Int.tdiv off 60 < 0 then ['-'] else ['+'])
          ++ appendInt (((Int.tdiv off 60).natAbs : Int) / 60) 2 ++ [':']
          ++ appendInt (((Int.tdiv off 60).natAbs : Int) % 60) 2) := by
  by_cases h0 : off = 0
  · subst h0
    exact ⟨rfl, rfl⟩
  · have hk : Int.tdiv off 60 = off / 60 := Int.tdiv_eq_ediv_of_dvd (Int.dvd_of_emod_eq_zero h60)
    have hne : (off == 0) = false := by simpa using h0
    rw [hk]
    simp only [hne, Bool.false_eq_true, if_false]
    generalize hA : (off / 60).natAbs = A
    have hA1 : A < 1440 := by omega
    have hA2 : off = 60 * (A : Int) ∨ off = -(60 * (A : Int)) := by omega
    have e1 : ((A : Int) / 60) = ((A / 60 : Nat) : Int) := by norm_cast
    have e2 : ((A : Int) % 60) = ((A % 60 : Nat) : Int) := by norm_cast
    rw [e1, e2, appendInt_two _ (by omega) (by omega), appendInt_two _ (by omega) (by omega)]
    simp only [Int.toNat_ofNat]
    have h24 : ¬ (A / 60 > 24 ∨ A % 60 > 60) := by omega
    by_cases hneg : off / 60 < 0
    · simp only [hneg, if_true, List.cons_append, List.nil_append, List.append_assoc]
      constructor
      · have g1 := getnum_digits (A / 60) (by omega) true
          (':' :: [Nat.digitChar (A % 60 / 10), Nat.digitChar (A % 60 % 10)])
        have g2 := getnum_digits (A % 60) (by omega) true []
        simp only [getZone, g1, expectChar, g2]
        simp [h24, g2]
        omega
      · simp [getFraction]
    · simp only [hneg, if_false, List.cons_append, List.nil_append, List.append_assoc]
      constructor
      · have g1 := getnum_digits (A / 60) (by omega) true
          (':' :: [Nat.digitChar (A % 60 / 10), Nat.digitChar (A % 60 % 10)])
        have g2 := getnum_digits (A % 60) (by omega) true []
        simp only [getZone, g1, expectChar, g2]
        simp [h24, g2]
        omega
      · simp [getFraction]

/-! ### The cursor round trip -/

/-- The text `Format` produces for a time whose year has four digits, field by field. -/
theorem formatRFC3339_fields (t : Time) (hy0 : 0 ≤ t.year) (hy1 : t.year ≤ 9999) :
    ∃ y mo d h mi s : Nat, ∃ tz : List Char,
      y < 10000 ∧ 1 ≤ mo ∧ mo ≤ 12 ∧ 1 ≤ d ∧ d ≤ daysIn mo y ∧ h < 24 ∧ mi < 60 ∧ s < 60 ∧
      (y : Int) = t.year ∧
      daysFromCivil y mo d * 86400 + ((h * 3600 + mi * 60 + s : Nat) : Int) = t.sec + t.offset ∧
      tz = (if t.offset == 0 then ['Z']
        else (if Int.tdiv t.offset 60 < 0 then ['-'] else ['+'])
          ++ appendInt (((Int.tdiv t.offset 60).natAbs : Int) / 60) 2 ++ [':']
          ++ appendInt (((Int.tdiv t.offset 60).natAbs : Int) % 60) 2) ∧
      (formatRFC3339 t).data =
        Nat.digitChar (y / 1000) :: Nat.digitChar (y / 100 % 10) ::
        Nat.digitChar (y / 10 % 10) :: Nat.digitChar (y % 10) :: '-' ::
        Nat.digitChar (mo / 10) :: Nat.digitChar (mo % 10) :: '-' ::
        Nat.digitChar (d / 10) :: Nat.digitChar (d % 10) :: 'T' ::
        Nat.digitChar (h / 10) :: Nat.digitChar (h % 10) :: ':' ::
        Nat.digitChar (mi / 10) :: Nat.digitChar (mi % 10) :: ':' ::
        Nat.digitChar (s / 10) :: Nat.digitChar (s % 10) :: tz ∧
      civilFromDays ((t.sec + t.offset) / 86400) = ((y : Int), (mo : Int), (d : Int)) := by
  obtain ⟨v1, v2, v3, v4, v5⟩ := civilFromDays_valid ((t.sec + t.offset) / 86400)
  unfold Time.year at hy0 hy1
  rcases hciv : civilFromDays ((t.sec + t.offset) / 86400) with ⟨y, m, d⟩
  rw [hciv] at v1 v2 v3 v4 v5 hy0 hy1
  simp only at v1 v2 v3 v4 v5 hy0 hy1
  have hd31 : daysIn m.toNat y ≤ 31 := by
    unfold daysIn; split
    · split <;> omega
    · split <;> omega
  have hr0 : 0 ≤ (t.sec + t.offset) % 86400 := by omega
  have hr1 : (t.sec + t.offset) % 86400 < 86400 := by omega
  refine ⟨y.toNat, m.toNat, d.toNat, ((t.sec + t.offset) % 86400 / 3600).toNat,
    ((t.sec + t.offset) % 86400 % 3600 / 60).toNat, ((t.sec + t.offset) % 86400 % 60).toNat, _,
    by omega, by omega, by omega, by omega, ?_, by omega, by omega, by omega, ?_, ?_, rfl, ?_,
    ?_⟩
  · have : ((y.toNat : Nat) : Int) = y := Int.toNat_of_nonneg hy0
    rw [this]; omega
  · unfold Time.year; rw [hciv]; exact Int.toNat_of_nonneg hy0
  · have e1 : ((y.toNat : Nat) : Int) = y := Int.toNat_of_nonneg hy0
    have e2 : ((m.toNat : Nat) : Int) = m := Int.toNat_of_nonneg (by omega)
    have e3 : ((d.toNat : Nat) : Int) = d := Int.toNat_of_nonneg (by omega)
    rw [e1, e2, e3, v5]
    omega
  · simp only [formatRFC3339, hciv]
    rw [appendInt_four y hy0 (by omega), appendInt_two m (by omega) (by omega),
      appendInt_two d (by omega) (by omega),
      appendInt_two ((t.sec + t.offset) % 86400 / 3600) (by omega) (by omega),
      appendInt_two ((t.sec + t.offset) % 86400 % 3600 / 60) (by omega) (by omega),
      appendInt_two ((t.sec + t.offset) % 86400 % 60) (by omega) (by omega)]
    simp only [List.append_assoc, List.cons_append, List.nil_append]
  · rw [Int.toNat_of_nonneg hy0, Int.toNat_of_nonneg (show 0 ≤ m by omega),
      Int.toNat_of_nonneg (show 0 ≤ d by omega)]

/-- C14 fails as stated: a creation time with half a second formats without it, so decoding
the cursor gives the whole second, not the time. -/
theorem round_trip_drops_fraction :
    formatRFC3339 { sec := 1704067200, nsec := 500000000, offset := 0 } = "2024-01-01T00:00:00Z" ∧
    parseRFC3339 (formatRFC3339 { sec := 1704067200, nsec := 500000000, offset := 0 })
      = .ok { sec := 1704067200, nsec := 0, offset := 0 } ∧
    parseRFC3339 (formatRFC3339 { sec := 1704067200, nsec := 500000000, offset := 0 })
      ≠ .ok { sec := 1704067200, nsec := 500000000, offset := 0 } :=
  ⟨rfl, rfl, fun h => by
    have h2 : (Except.ok { sec := 1704067200, nsec := 0, offset := 0 } : Except Err Time)
        = .ok { sec := 1704067200, nsec := 500000000, offset := 0 } := h
    injection h2 with h3
    injection h3 with _ h4 _
    exact absurd h4 (by decide)⟩

/-- C14 as amended: for every creation time `t` with a four-digit year and a zone offset of
whole minutes, less than a day, decoding the cursor produced for `t` yields `t` cut to its
whole second; it yields exactly `t` when `t` has no fraction of a second. -/
theorem cursor_round_trip (t : Time) (hy0 : 0 ≤ t.year) (hy1 : t.year ≤ 9999)
    (h60 : t.offset % 60 = 0) (hlo : -86400 < t.offset) (hhi : t.offset < 86400) :
    parseRFC3339 (formatRFC3339 t) = .ok { t with nsec := 0 } ∧
    (t.nsec = 0 → parseRFC3339 (formatRFC3339 t) = .ok t) := by
  obtain ⟨y, mo, d, h, mi, s, tz, b1, b2, b3, b4, b5, b6, b7, b8, _, hsec, htz, hdata, _⟩ :=
    formatRFC3339_fields t hy0 hy1
  obtain ⟨z1, z2⟩ := zone_round_trip t.offset h60 hlo hhi
  rw [← htz] at z1 z2
  have hp := parseFields_digits y mo d h mi s b1 b2 b3 b4 b5 b6 b7 b8 tz t.offset z2 z1
  have hmain : parseRFC3339 (formatRFC3339 t) = .ok { t with nsec := 0 } := by
    unfold parseRFC3339
    rw [hdata, hp, hsec]
    simp
  refine ⟨hmain, fun hn => ?_⟩
  rw [hmain]
  cases t
  simp only at hn
  subst hn
  rfl

/-- Witness of C14 as amended: 2024-01-01T03:01:00+03:00. -/
theorem cursor_round_trip_witness :
    parseRFC3339 (formatRFC3339 { sec := 1704067260, nsec := 0, offset := 10800 })
      = .ok { ({ sec := 1704067260, nsec := 0, offset := 10800 } : Time) with nsec := 0 } ∧
    ((0 : Nat) = 0 → parseRFC3339 (formatRFC3339 { sec := 1704067260, nsec := 0, offset := 10800 })
      = .ok { sec := 1704067260, nsec := 0, offset := 10800 }) :=
  cursor_round_trip { sec := 1704067260, nsec := 0, offset := 10800 } (by decide) (by decide)
    (by decide) (by decide) (by decide)

/-! ### The order of cursors -/

/-- The day number of a date, with the days before its March-based year in closed form. -/
theorem daysFromCivil_form (y m d : Int) :
    daysFromCivil y m d =
      365 * (if m ≤ 2 then y - 1 else y) + (if m ≤ 2 then y - 1 else y) / 4
        - (if m ≤ 2 then y - 1 else y) / 100 + (if m ≤ 2 then y - 1 else y) / 400
        + (153 * (if m > 2 then m - 3 else m + 9) + 2) / 5 + d - 1 - 719468 := by
  simp only [daysFromCivil]
  split <;> split <;> omega

theorem yearStart_mono (a b : Int) (h : a < b) :
    365 * (a + 1) + (a + 1) / 4 - (a + 1) / 100 + (a + 1) / 400
      ≤ 365 * b + b / 4 - b / 100 + b / 400 := by
  omega

/-- A date of the calendar lies within its month and within its March-based year. -/
theorem date_within_year (y m d : Int) (hm1 : 1 ≤ m) (hm2 : m ≤ 12) (hd1 : 1 ≤ d)
    (hd2 : d ≤ (daysIn m.toNat y : Nat)) :
    (153 * (if m > 2 then m - 3 else m + 9) + 2) / 5 + d - 1
      < (153 * ((if m > 2 then m - 3 else m + 9) + 1) + 2) / 5 ∧
    365 * (if m ≤ 2 then y - 1 else y) + (if m ≤ 2 then y - 1 else y) / 4
        - (if m ≤ 2 then y - 1 else y) / 100 + (if m ≤ 2 then y - 1 else y) / 400
        + (153 * (if m > 2 then m - 3 else m + 9) + 2) / 5 + d - 1
      < 365 * ((if m ≤ 2 then y - 1 else y) + 1) + ((if m ≤ 2 then y - 1 else y) + 1) / 4
        - ((if m ≤ 2 then y - 1 else y) + 1) / 100 + ((if m ≤ 2 then y - 1 else y) + 1) / 400 := by
  have hm : m = 1 ∨ m = 2 ∨ m = 3 ∨ m = 4 ∨ m = 5 ∨ m = 6 ∨ m = 7 ∨ m = 8 ∨ m = 9 ∨ m = 10 ∨
      m = 11 ∨ m = 12 := by omega
  rcases hm with h | h | h | h | h | h | h | h | h | h | h | h
  all_goals subst h
  all_goals first
    | (norm_num [daysIn] at hd2 ⊢; omega)
    | skip
  norm_num [daysIn] at hd2 ⊢
  by_cases hl : isLeap y = true
  · simp only [hl, if_true] at hd2
    simp only [isLeap, Bool.and_eq_true, Bool.or_eq_true, beq_iff_eq, bne_iff_ne, ne_eq] at hl
    omega
  · simp only [hl] at hd2
    simp only [isLeap, Bool.and_eq_true, Bool.or_eq_true, beq_iff_eq, bne_iff_ne, ne_eq] at hl
    norm_num at hd2
    omega

theorem monthStart_mono (a b : Int) (h : a < b) :
    (153 * (a + 1) + 2) / 5 ≤ (153 * b + 2) / 5 := by
  omega

/-- Within March-based years: an earlier year, or the same year and an earlier month, or the
same month and a day that is not later, gives a day count that is not greater. -/
theorem ordinal_mono (Y1 mp1 d1 Y2 mp2 d2 : Int) (hmp1 : 0 ≤ mp1) (hd1 : 1 ≤ d1)
    (a2 : (153 * mp2 + 2) / 5 + d2 - 1 < (153 * (mp2 + 1) + 2) / 5)
    (b2 : 365 * Y2 + Y2 / 4 - Y2 / 100 + Y2 / 400 + (153 * mp2 + 2) / 5 + d2 - 1
      < 365 * (Y2 + 1) + (Y2 + 1) / 4 - (Y2 + 1) / 100 + (Y2 + 1) / 400)
    (hle : Y2 < Y1 ∨ (Y2 = Y1 ∧ (mp2 < mp1 ∨ (mp2 = mp1 ∧ d2 ≤ d1)))) :
    365 * Y2 + Y2 / 4 - Y2 / 100 + Y2 / 400 + (153 * mp2 + 2) / 5 + d2 - 1
      ≤ 365 * Y1 + Y1 / 4 - Y1 / 100 + Y1 / 400 + (153 * mp1 + 2) / 5 + d1 - 1 := by
  have hs1 : 0 ≤ (153 * mp1 + 2) / 5 := by omega
  rcases hle with h | ⟨rfl, h | ⟨rfl, h⟩⟩
  · have hy := yearStart_mono Y2 Y1 h
    generalize 365 * (Y2 + 1) + (Y2 + 1) / 4 - (Y2 + 1) / 100 + (Y2 + 1) / 400 = F2n at *
    generalize 365 * Y2 + Y2 / 4 - Y2 / 100 + Y2 / 400 = F2 at *
    generalize 365 * Y1 + Y1 / 4 - Y1 / 100 + Y1 / 400 = F1 at *
    generalize (153 * mp1 + 2) / 5 = s1 at *
    generalize (153 * mp2 + 2) / 5 = s2 at *
    omega
  · have hm := monthStart_mono mp2 mp1 h
    generalize 365 * Y2 + Y2 / 4 - Y2 / 100 + Y2 / 400 = F2 at *
    generalize (153 * (mp2 + 1) + 2) / 5 = s2n at *
    generalize (153 * mp1 + 2) / 5 = s1 at *
    generalize (153 * mp2 + 2) / 5 = s2 at *
    omega
  · omega

/-- Day numbers follow the order of dates: a date that is not later has a day number that
is not greater. -/
theorem daysFromCivil_mono (y1 m1 d1 y2 m2 d2 : Int)
    (hm1 : 1 ≤ m1) (hm1b : m1 ≤ 12) (hd1 : 1 ≤ d1) (_hd1b : d1 ≤ (daysIn m1.toNat y1 : Nat))
    (hm2 : 1 ≤ m2) (hm2b : m2 ≤ 12) (hd2 : 1 ≤ d2) (hd2b : d2 ≤ (daysIn m2.toNat y2 : Nat))
    (hle : y2 < y1 ∨ (y2 = y1 ∧ (m2 < m1 ∨ (m2 = m1 ∧ d2 ≤ d1)))) :
    daysFromCivil y2 m2 d2 ≤ daysFromCivil y1 m1 d1 := by
  rw [daysFromCivil_form y1 m1 d1, daysFromCivil_form y2 m2 d2]
  obtain ⟨a2, b2⟩ := date_within_year y2 m2 d2 hm2 hm2b hd2 hd2b
  have key := ordinal_mono (if m1 ≤ 2 then y1 - 1 else y1) (if m1 > 2 then m1 - 3 else m1 + 9) d1
    (if m2 ≤ 2 then y2 - 1 else y2) (if m2 > 2 then m2 - 3 else m2 + 9) d2
    (by split <;> omega) hd1 a2 b2
    (by
      by_cases c1 : m1 ≤ 2 <;> by_cases c2 : m2 ≤ 2
      · have e1 : ¬ m1 > 2 := by omega
        have e2 : ¬ m2 > 2 := by omega
        simp only [c1, c2, e1, e2, if_true, if_false]
        omega
      · have e1 : ¬ m1 > 2 := by omega
        have e2 : m2 > 2 := by omega
        simp only [c1, c2, e1, e2, if_true, if_false]
        omega
      · have e1 : m1 > 2 := by omega
        have e2 : ¬ m2 > 2 := by omega
        simp only [c1, c2, e1, e2, if_true, if_false]
        omega
      · have e1 : m1 > 2 := by omega
        have e2 : m2 > 2 := by omega
        simp only [c1, c2, e1, e2, if_true, if_false]
        omega)
  omega

theorem digitChar_lt : ∀ a, a < 10 → ∀ b, b < 10 → a < b →
    Nat.digitChar a < Nat.digitChar b := by
  decide

theorem cons_lt_same (c : Char) {l1 l2 : List Char} (h : List.Lex (· < ·) l1 l2) :
    List.Lex (· < ·) (c :: l1) (c :: l2) :=
  List.Lex.cons h

theorem two_digits_lt (n1 n2 : Nat) (h2 : n2 < 100) (h : n1 < n2) (r1 r2 : List Char) :
    List.Lex (· < ·) (Nat.digitChar (n1 / 10) :: Nat.digitChar (n1 % 10) :: r1)
      (Nat.digitChar (n2 / 10) :: Nat.digitChar (n2 % 10) :: r2) := by
  by_cases hq : n1 / 10 < n2 / 10
  · exact List.Lex.rel (digitChar_lt _ (by omega) _ (by omega) hq)
  · have he : n1 / 10 = n2 / 10 := by omega
    have hr : n1 % 10 < n2 % 10 := by omega
    rw [he]
    exact cons_lt_same _ (List.Lex.rel (digitChar_lt _ (by omega) _ (by omega) hr))

theorem four_digits_lt (n1 n2 : Nat) (h2 : n2 < 10000) (h : n1 < n2) (r1 r2 : List Char) :
    List.Lex (· < ·) (Nat.digitChar (n1 / 1000) :: Nat.digitChar (n1 / 100 % 10) ::
        Nat.digitChar (n1 / 10 % 10) :: Nat.digitChar (n1 % 10) :: r1)
      (Nat.digitChar (n2 / 1000) :: Nat.digitChar (n2 / 100 % 10) ::
        Nat.digitChar (n2 / 10 % 10) :: Nat.digitChar (n2 % 10) :: r2) := by
  by_cases ha : n1 / 1000 < n2 / 1000
  · exact List.Lex.rel (digitChar_lt _ (by omega) _ (by omega) ha)
  · have ea : n1 / 1000 = n2 / 1000 := by omega
    rw [ea]
    apply cons_lt_same
    by_cases hb : n1 / 100 % 10 < n2 / 100 % 10
    · exact List.Lex.rel (digitChar_lt _ (by omega) _ (by omega) hb)
    · have eb : n1 / 100 % 10 = n2 / 100 % 10 := by omega
      rw [eb]
      apply cons_lt_same
      by_cases hc : n1 / 10 % 10 < n2 / 10 % 10
      · exact List.Lex.rel (digitChar_lt _ (by omega) _ (by omega) hc)
      · have ec : n1 / 10 % 10 = n2 / 10 % 10 := by omega
        have hd : n1 % 10 < n2 % 10 := by omega
        rw [ec]
        apply cons_lt_same
        exact List.Lex.rel (digitChar_lt _ (by omega) _ (by omega) hd)

/-- Texts of in-range decimal fields with the same zone suffix compare as their fields do. -/
theorem fields_lt (y1 mo1 d1 h1 mi1 s1 y2 mo2 d2 h2 mi2 s2 : Nat) (tz : List Char)
    (by2 : y2 < 10000) (bm2 : mo2 < 100) (bd2 : d2 < 100) (bh2 : h2 < 100) (bi2 : mi2 < 100)
    (bs2 : s2 < 100)
    (hlex : y1 < y2 ∨ (y1 = y2 ∧ (mo1 < mo2 ∨ (mo1 = mo2 ∧ (d1 < d2 ∨ (d1 = d2 ∧
      (h1 < h2 ∨ (h1 = h2 ∧ (mi1 < mi2 ∨ (mi1 = mi2 ∧ s1 < s2)))))))))) :
    List.Lex (· < ·)
      (Nat.digitChar (y1 / 1000) :: Nat.digitChar (y1 / 100 % 10) ::
        Nat.digitChar (y1 / 10 % 10) :: Nat.digitChar (y1 % 10) :: '-' ::
        Nat.digitChar (mo1 / 10) :: Nat.digitChar (mo1 % 10) :: '-' ::
        Nat.digitChar (d1 / 10) :: Nat.digitChar (d1 % 10) :: 'T' ::
        Nat.digitChar (h1 / 10) :: Nat.digitChar (h1 % 10) :: ':' ::
        Nat.digitChar (mi1 / 10) :: Nat.digitChar (mi1 % 10) :: ':' ::
        Nat.digitChar (s1 / 10) :: Nat.digitChar (s1 % 10) :: tz)
      (Nat.digitChar (y2 / 1000) :: Nat.digitChar (y2 / 100 % 10) ::
        Nat.digitChar (y2 / 10 % 10) :: Nat.digitChar (y2 % 10) :: '-' ::
        Nat.digitChar (mo2 / 10) :: Nat.digitChar (mo2 % 10) :: '-' ::
        Nat.digitChar (d2 / 10) :: Nat.digitChar (d2 % 10) :: 'T' ::
        Nat.digitChar (h2 / 10) :: Nat.digitChar (h2 % 10) :: ':' ::
        Nat.digitChar (mi2 / 10) :: Nat.digitChar (mi2 % 10) :: ':' ::
        Nat.digitChar (s2 / 10) :: Nat.digitChar (s2 % 10) :: tz) := by
  rcases hlex with h | ⟨rfl, h⟩
  · exact four_digits_lt _ _ by2 h _ _
  refine cons_lt_same _ (cons_lt_same _ (cons_lt_same _ (cons_lt_same _ (cons_lt_same _ ?_))))
  rcases h with h | ⟨rfl, h⟩
  · exact two_digits_lt _ _ bm2 h _ _
  refine cons_lt_same _ (cons_lt_same _ (cons_lt_same _ ?_))
  rcases h with h | ⟨rfl, h⟩
  · exact two_digits_lt _ _ bd2 h _ _
  refine cons_lt_same _ (cons_lt_same _ (cons_lt_same _ ?_))
  rcases h with h | ⟨rfl, h⟩
  · exact two_digits_lt _ _ bh2 h _ _
  refine cons_lt_same _ (cons_lt_same _ (cons_lt_same _ ?_))
  rcases h with h | ⟨rfl, h⟩
  · exact two_digits_lt _ _ bi2 h _ _
  refine cons_lt_same _ (cons_lt_same _ (cons_lt_same _ ?_))
  exact two_digits_lt _ _ bs2 h _ _

/-- C15 fails as stated: two creation times within the same second get the same cursor, and
a time shown in another zone can get a greater cursor although it is earlier. -/
theorem cursor_order_breaks :
    (Time.before { sec := 1704067200, nsec := 0, offset := 0 }
        { sec := 1704067200, nsec := 500000000, offset := 0 } = true ∧
      ¬ formatRFC3339 { sec := 1704067200, nsec := 0, offset := 0 }
        < formatRFC3339 { sec := 1704067200, nsec := 500000000, offset := 0 }) ∧
    (Time.before { sec := 1704067200, nsec := 0, offset := 18000 }
        { sec := 1704070800, nsec := 0, offset := 0 } = true ∧
      formatRFC3339 { sec := 1704067200, nsec := 0, offset := 18000 } = "2024-01-01T05:00:00+05:00" ∧
      formatRFC3339 { sec := 1704070800, nsec := 0, offset := 0 } = "2024-01-01T01:00:00Z" ∧
      ¬ formatRFC3339 { sec := 1704067200, nsec := 0, offset := 18000 }
        < formatRFC3339 { sec := 1704070800, nsec := 0, offset := 0 }) := by
  refine ⟨⟨rfl, ?_⟩, rfl, rfl, rfl, ?_⟩
  · exact lt_irrefl _
  · have h : formatRFC3339 { sec := 1704070800, nsec := 0, offset := 0 }
        < formatRFC3339 { sec := 1704067200, nsec := 0, offset := 18000 } :=
      String.lt_iff_toList_lt.mpr (by decide)
    exact lt_asymm h

/-- C15 as amended: for creation times shown in the same zone with four-digit years, a time
in an earlier second has a strictly smaller cursor under the order of strings, and times in
the same second have the same cursor. -/
theorem cursor_order (t1 t2 : Time) (hz : t1.offset = t2.offset)
    (hy10 : 0 ≤ t1.year) (hy11 : t1.year ≤ 9999) (hy20 : 0 ≤ t2.year) (hy21 : t2.year ≤ 9999) :
    (t1.sec < t2.sec → formatRFC3339 t1 < formatRFC3339 t2) ∧
    (t1.sec = t2.sec → formatRFC3339 t1 = formatRFC3339 t2) := by
  constructor
  · intro hlt
    obtain ⟨y1, mo1, d1, h1, mi1, s1, tz1, a1, a2, a3, a4, a5, a6, a7, a8, _, asec, atz, adata,
      aciv⟩ := formatRFC3339_fields t1 hy10 hy11
    obtain ⟨y2, mo2, d2, h2, mi2, s2, tz2, b1, b2, b3, b4, b5, b6, b7, b8, _, bsec, btz, bdata,
      bciv⟩ := formatRFC3339_fields t2 hy20 hy21
    have htz : tz1 = tz2 := by rw [atz, btz, hz]
    subst htz
    refine String.lt_iff_toList_lt.mpr ?_
    show List.Lex (· < ·) (formatRFC3339 t1).data (formatRFC3339 t2).data
    rw [adata, bdata]
    have hd31 : ∀ (m : Nat) (y : Int), daysIn m y ≤ 31 := by
      intro m y
      unfold daysIn; split
      · split <;> omega
      · split <;> omega
    have := hd31 mo2 y2
    apply fields_lt _ _ _ _ _ _ _ _ _ _ _ _ _ b1 (by omega) (by omega) (by omega) (by omega)
      (by omega)
    have hdays1 : daysFromCivil y1 mo1 d1 = (t1.sec + t1.offset) / 86400 := by omega
    have hdays2 : daysFromCivil y2 mo2 d2 = (t2.sec + t2.offset) / 86400 := by omega
    by_cases hsame : (t1.sec + t1.offset) / 86400 = (t2.sec + t2.offset) / 86400
    · rw [hsame, bciv] at aciv
      simp only [Prod.mk.injEq, Nat.cast_inj] at aciv
      obtain ⟨e1, e2, e3⟩ := aciv
      subst e1; subst e2; subst e3
      omega
    · by_contra hnot
      have hle : ((y1 : Int) < y2 ∨ ((y1 : Int) = y2 ∧ ((mo1 : Int) < mo2 ∨
          ((mo1 : Int) = mo2 ∧ (d1 : Int) < d2)))) ∨
          ((y2 : Int) < y1 ∨ ((y2 : Int) = y1 ∧ ((mo2 : Int) < mo1 ∨
          ((mo2 : Int) = mo1 ∧ (d2 : Int) ≤ d1)))) := by omega
      rcases hle with hle | hle
      · exact hnot (by omega)
      · have hm := daysFromCivil_mono y1 mo1 d1 y2 mo2 d2 (by omega) (by omega) (by omega)
          (by simpa using a5) (by omega) (by omega) (by omega) (by simpa using b5) hle
        omega
  · intro heq
    simp only [formatRFC3339, heq, hz]

/-- Witness of C15 as amended: `t0` and `t0 + 1m`. -/
theorem cursor_order_witness :
    ((1704067200 : Int) < 1704067260 →
      formatRFC3339 (minutesAfterT0 0) < formatRFC3339 (minutesAfterT0 1)) ∧
    ((1704067200 : Int) = 1704067260 →
      formatRFC3339 (minutesAfterT0 0) = formatRFC3339 (minutesAfterT0 1)) :=
  cursor_order (minutesAfterT0 0) (minutesAfterT0 1) rfl (by decide) (by decide) (by decide)
    (by decide)

/-! ### Both page flags -/

theorem scanLoop_flags (first last : Option Int) (items : List (Except Err Row)) :
    ∀ s s2 : LoopState, s.hasNextPage = false → s.hasPrevPage = false →
      scanLoop first last items s = .ok s2 → (s2.hasNextPage && s2.hasPrevPage) = false := by
  induction items with
  | nil =>
    intro s s2 hn hp h
    simp only [scanLoop, Except.ok.injEq] at h
    subst h
    simp [hn]
  | cons it rest ih =>
    intro s s2 hn hp h
    cases it with
    | error e => simp [scanLoop] at h
    | ok r =>
      cases hb : (atBound first s.count || atBound last s.count) with
      | true =>
        rw [scanLoop_stop _ _ _ _ _ hb, Except.ok.injEq] at h
        subst h
        rw [stopAtBound_hasNextPage, stopAtBound_hasPrevPage]
        cases first <;> simp [hn, hp]
      | false =>
        rw [scanLoop_go _ _ _ _ _ hb] at h
        exact ih _ s2 (by simpa using hn) (by simpa using hp) h

/-- C21: for every call that returns a connection, whatever the storage handle, the bounds and
the cursors, `HasNextPage` and `HasPrevPage` are not both true. -/
theorem page_flags_exclusive (db : DB) (postID : Int) (first last : Option Int)
    (after before : Option String) (r : Fetched)
    (hr : (GetCommentsByPostID db postID first last after before).result = .ok r) :
    ¬ (r.conn.PageInfo.HasNextPage = true ∧ r.conn.PageInfo.HasPrevPage = true) := by
  obtain ⟨rows, s, hs, rfl⟩ := result_ok_inv db postID first last after before r hr
  have h := scanLoop_flags first last rows _ s rfl rfl hs
  intro ⟨h1, h2⟩
  simp only [finish, Bool.and_eq_true] at h1 h2
  rw [h1.2, h2.2] at h
  exact Bool.noConfusion h

/-- Witness of C21: both bounds set to 2 over the three comments, where the loop stops at
the bound. -/
theorem page_flags_exclusive_witness :
    ∃ r, (GetCommentsByPostID (cannedStore threeComments) 1 (some 2) (some 2) none none).result
        = .ok r ∧
      r.conn.PageInfo.HasNextPage = true ∧
      ¬ (r.conn.PageInfo.HasNextPage = true ∧ r.conn.PageInfo.HasPrevPage = true) :=
  ⟨_, rfl, rfl,
    page_flags_exclusive (cannedStore threeComments) 1 (some 2) (some 2) none none _ rfl⟩

/-! ### One statement per call -/

theorem buildQuery_of_decoded (postID : Int) (first last : Option Int)
    (after before : Option String) (ta tb : Option Time)
    (ha : decodeCursor after = .ok ta) (hbf : decodeCursor before = .ok tb) :
    ∃ q, buildQuery postID first last after before = .ok q := by
  cases after with
  | none =>
    cases before with
    | none => exact ⟨_, rfl⟩
    | some b =>
      cases hp : parseRFC3339 b with
      | error e => simp [decodeCursor, hp] at hbf
      | ok t => simp only [buildQuery, addCursor, hp]; exact ⟨_, rfl⟩
  | some a =>
    cases hpa : parseRFC3339 a with
    | error e => simp [decodeCursor, hpa] at ha
    | ok t1 =>
      cases before with
      | none => simp only [buildQuery, addCursor, hpa]; exact ⟨_, rfl⟩
      | some b =>
        cases hp : parseRFC3339 b with
        | error e => simp [decodeCursor, hp] at hbf
        | ok t => simp only [buildQuery, addCursor, hpa, hp]; exact ⟨_, rfl⟩

/-- C25: for every call whose cursors (if any) decode, one statement is built, and whatever
storage handle the call runs over (whatever rows or error it answers), that statement is the
only one sent and the handle is asked for nothing else: the result is the error the handle
answers to that statement, or what the row loop makes of the rows it answers, and two handles
that answer that statement alike give the same result. -/
theorem storage_queried_once (postID : Int) (first last : Option Int)
    (after before : Option String) (ta tb : Option Time)
    (ha : decodeCursor after = .ok ta) (hbf : decodeCursor before = .ok tb) :
    ∃ q, buildQuery postID first last after before = .ok q ∧
      ∀ db : DB, (GetCommentsByPostID db postID first last after before).queries = [q] ∧
        (GetCommentsByPostID db postID first last after before).queries.length = 1 ∧
        (GetCommentsByPostID db postID first last after before).result
          = (match db q with
             | .error e => .error e
             | .ok rows => scanRows first last rows) ∧
        (∀ db2 : DB, db2 q = db q →
          (GetCommentsByPostID db2 postID first last after before).result
            = (GetCommentsByPostID db postID first last after before).result) := by
  obtain ⟨q, hq⟩ := buildQuery_of_decoded postID first last after before ta tb ha hbf
  refine ⟨q, hq, fun db => ?_⟩
  obtain ⟨h, hres⟩ := sent_to_storage db postID first last after before q hq
  refine ⟨h, by rw [h]; rfl, hres, fun db2 h2 => ?_⟩
  rw [hres, (sent_to_storage db2 postID first last after before q hq).2, h2]

/-- Witness of C25: `first = 2` after the cursor of the first comment; over a storage that
fails the call returns its error, and over one that delivers the three later rows it returns
a page, each after one statement. -/
theorem storage_queried_once_witness :
    (∃ q, buildQuery 1 (some 2) none (some "2024-01-01T00:00:00Z") none = .ok q ∧
      ∀ db : DB,
        (GetCommentsByPostID db 1 (some 2) none (some "2024-01-01T00:00:00Z") none).queries = [q] ∧
        (GetCommentsByPostID db 1 (some 2) none (some "2024-01-01T00:00:00Z") none).queries.length
          = 1 ∧
        (GetCommentsByPostID db 1 (some 2) none (some "2024-01-01T00:00:00Z") none).result
          = (match db q with
             | .error e => .error e
             | .ok rows => scanRows (some 2) none rows) ∧
        (∀ db2 : DB, db2 q = db q →
          (GetCommentsByPostID db2 1 (some 2) none (some "2024-01-01T00:00:00Z") none).result
            = (GetCommentsByPostID db 1 (some 2) none (some "2024-01-01T00:00:00Z") none).result)) ∧
    (GetCommentsByPostID (failingStore (Err.db "connection refused")) 1 (some 2) none
        (some "2024-01-01T00:00:00Z") none).result = .error (Err.db "connection refused") ∧
    (GetCommentsByPostID (failingStore (Err.db "connection refused")) 1 (some 2) none
        (some "2024-01-01T00:00:00Z") none).queries.length = 1 ∧
    (GetCommentsByPostID (tableStore threeComments) 1 (some 2) none
        (some "2024-01-01T00:00:00Z") none).queries.length = 1 :=
  ⟨storage_queried_once 1 (some 2) none (some "2024-01-01T00:00:00Z") none
    (some (minutesAfterT0 0)) none rfl rfl, rfl, rfl, rfl⟩

/-! ### The forward window and the cursors of a backward page -/

theorem forward_init : Forward LoopState.init.heap := by
  intro i c j hi
  simp [LoopState.init] at hi

theorem before_irrefl (a : Time) : a.before a = false := by
  simp [Time.before]

theorem before_asymm (a b : Time) (h : a.before b = true) : b.before a = false := by
  simp only [Time.before, Bool.or_eq_true, Bool.and_eq_true, decide_eq_true_eq, beq_iff_eq] at h
  simp only [Time.before, Bool.or_eq_false_iff, Bool.and_eq_false_iff, decide_eq_false_iff_not]
  rcases h with h | ⟨h1, h2⟩
  · exact ⟨by omega, Or.inl (by simp; omega)⟩
  · exact ⟨by omega, Or.inr (by omega)⟩

/-- C24: for every forward call (`last` nil; `first` nil or `N ≥ 0`) over rows that all scan,
the rows behind the returned edges are the first `min(N, number of rows)` rows in input order
(all rows when `first` is nil), edge `i` points to the comment built from row `i` and carries
the RFC 3339 text of its creation time, and every edge and every `Replies` entry points to one
of these comments, so the row met at the bound is in no edge and in no `Replies` list. -/
theorem forward_page_is_window (db : DB) (postID : Int) (first : Option Int)
    (after before : Option String) (rows : List Row) (err : Option Err)
    (hN : ∀ N, first = some N → 0 ≤ N)
    (ha : Answers db postID first none after before { items := rows.map .ok, err := err }) :
    ∃ r, (GetCommentsByPostID db postID first none after before).result = .ok r ∧
      edgeRows r = rows.take (windowSize first rows.length) ∧
      r.conn.Edges.map (fun e => e.Cursor)
        = (rows.take (windowSize first rows.length)).map (fun x => formatRFC3339 x.CreatedAt) ∧
      r.conn.Edges.map (fun e => e.Node) = List.range (windowSize first rows.length) ∧
      r.heap.map Comment.row = rows.take (windowSize first rows.length) ∧
      (∀ e ∈ r.conn.Edges, e.Node < windowSize first rows.length) ∧
      (∀ (i : Addr) (c : Comment) (j : Addr), r.heap[i]? = some c → j ∈ c.Replies →
        j < windowSize first rows.length) ∧
      (first = none → windowSize first rows.length = rows.length) ∧
      (∀ N, first = some N → windowSize first rows.length = min N.toNat rows.length) := by
  rw [result_of_answer _ _ _ _ _ _ _ ha]
  obtain ⟨k, s2, h1, h2, h3, h4, h5⟩ :=
    scanLoop_heapInv first none rows [] LoopState.init HeapInv.init rfl
  rw [List.nil_append] at h2
  have hk : k = windowSize first rows.length :=
    window_forward first rows.length k h3 (fun i hi => by simpa using h4 i hi)
      (fun hlt => by simpa using h5 hlt)
  subst hk
  have hlen : (List.take (windowSize first rows.length) rows).length
      = windowSize first rows.length := by
    rw [List.length_take]; exact Nat.min_eq_left h3
  have hnodes : s2.comments.map (fun e => e.Node) = List.range (windowSize first rows.length) := by
    rw [h2.nodes, hlen]
  have hfw : Forward s2.heap := scanLoop_forward first none _ LoopState.init s2 forward_init h1
  refine ⟨finish first none s2, by simp only [scanRows, h1], ?_, ?_, ?_, h2.rows, ?_, ?_, ?_, ?_⟩
  · simpa [edgeRows, finish] using h2.edge_rows
  · simpa [finish] using h2.cursors
  · simpa [finish] using hnodes
  · intro e he
    have hm : e.Node ∈ s2.comments.map (fun e => e.Node) :=
      List.mem_map_of_mem _ (by simpa [finish] using he)
    rw [hnodes] at hm
    exact List.mem_range.mp hm
  · intro i c j hi hj
    have := (hfw i c j hi hj).2
    rw [h2.heap_length, hlen] at this
    exact this
  · intro h; subst h; rfl
  · intro N h
    subst h
    simp only [windowSize]
    rw [if_pos (hN N rfl)]

/-- Witness of C24: the three rows of the repository test with `first = 2`. -/
theorem forward_page_is_window_witness :
    ∃ r, (GetCommentsByPostID (cannedStore [topLevel 1 0, topLevel 2 1, topLevel 3 2]) 1
        (some 2) none none none).result = .ok r ∧
      edgeRows r = [topLevel 1 0, topLevel 2 1] ∧
      r.conn.Edges.map (fun e => e.Cursor) = ["2024-01-01T00:00:00Z", "2024-01-01T00:01:00Z"] ∧
      r.conn.Edges.map (fun e => e.Node) = [0, 1] ∧
      r.heap.map Comment.row = [topLevel 1 0, topLevel 2 1] ∧
      (∀ e ∈ r.conn.Edges, e.Node < 2) ∧
      (∀ (i : Addr) (c : Comment) (j : Addr), r.heap[i]? = some c → j ∈ c.Replies → j < 2) ∧
      ((some 2 : Option Int) = none → 2 = 3) ∧
      (∀ N : Int, some 2 = some N → 2 = min N.toNat 3) :=
  forward_page_is_window (cannedStore [topLevel 1 0, topLevel 2 1, topLevel 3 2]) 1 (some 2)
    none none [topLevel 1 0, topLevel 2 1, topLevel 3 2] none
    (fun N h => by injection h with h; omega) (cannedStore_answers _ _ _ _)

/-- C26: for every call with only `last = N` set (`N ≥ 1`) over a non-empty sequence of rows
that all scan, `StartCursor` is the cursor of the first row received, which is the last edge
of the returned list, and `EndCursor` is the cursor of the last row taken in, which is the
first edge of the returned list. -/
theorem backward_cursors_pre_reversal (db : DB) (postID : Int) (after before : Option String)
    (N : Int) (rows : List Row) (err : Option Err) (hN : 1 ≤ N) (hne : rows ≠ [])
    (ha : Answers db postID none (some N) after before { items := rows.map .ok, err := err }) :
    ∃ r, (GetCommentsByPostID db postID none (some N) after before).result = .ok r ∧
      r.conn.Edges ≠ [] ∧
      r.conn.PageInfo.StartCursor = rows.head?.map (fun x => formatRFC3339 x.CreatedAt) ∧
      r.conn.PageInfo.StartCursor = r.conn.Edges.getLast?.map (fun e => e.Cursor) ∧
      r.conn.PageInfo.EndCursor
        = (rows.take (min N.toNat rows.length)).getLast?.map
            (fun x => formatRFC3339 x.CreatedAt) ∧
      r.conn.PageInfo.EndCursor = r.conn.Edges.head?.map (fun e => e.Cursor) := by
  rw [result_of_answer _ _ _ _ _ _ _ ha]
  obtain ⟨k, s2, h1, h2, h3, h4, h5⟩ :=
    scanLoop_heapInv none (some N) rows [] LoopState.init HeapInv.init rfl
  rw [List.nil_append] at h2
  have hk : k = min N.toNat rows.length :=
    window_backward N rows.length k (by omega) h3 (fun i hi => by simpa using h4 i hi)
      (fun hlt => by simpa using h5 hlt)
  subst hk
  have hi : CursorInv s2 :=
    scanLoop_cursors none (some N) _ _ s2 ⟨rfl, fun h => (h rfl).elim⟩ h1
  have hpos : 0 < rows.length := List.length_pos.mpr hne
  have hkpos : 0 < min N.toNat rows.length := by omega
  have hclen : s2.comments.length = min N.toNat rows.length := by
    have := congrArg List.length h2.cursors
    simpa using this
  have hne2 : s2.comments ≠ [] := by
    intro h0
    rw [h0] at hclen
    simp at hclen
    omega
  obtain ⟨hs, he⟩ := hi.2 hne2
  have hhead : s2.comments.head?.map (fun e => e.Cursor)
      = rows.head?.map (fun x => formatRFC3339 x.CreatedAt) := by
    rw [← List.head?_map, h2.cursors, List.head?_map, List.head?_take, if_neg (by omega)]
  have hlast : s2.comments.getLast?.map (fun e => e.Cursor)
      = (rows.take (min N.toNat rows.length)).getLast?.map
          (fun x => formatRFC3339 x.CreatedAt) := by
    rw [← List.getLast?_map, h2.cursors, List.getLast?_map]
  refine ⟨finish none (some N) s2, by simp only [scanRows, h1], ?_, ?_, ?_, ?_, ?_⟩
  · simpa [finish] using hne2
  · simpa [finish, hs] using hhead
  · simpa [finish, List.getLast?_reverse] using hs
  · simpa [finish, he] using hlast
  · simpa [finish, List.head?_reverse] using he

/-- Witness of C26: the three comments delivered newest first, `last = 2`. -/
theorem backward_cursors_pre_reversal_witness :
    ∃ r, (GetCommentsByPostID (cannedStore [topLevel 3 2, topLevel 2 1, topLevel 1 0]) 1 none
        (some 2) none none).result = .ok r ∧
      r.conn.Edges ≠ [] ∧
      r.conn.PageInfo.StartCursor = some "2024-01-01T00:02:00Z" ∧
      r.conn.PageInfo.StartCursor = r.conn.Edges.getLast?.map (fun e => e.Cursor) ∧
      r.conn.PageInfo.EndCursor = some "2024-01-01T00:01:00Z" ∧
      r.conn.PageInfo.EndCursor = r.conn.Edges.head?.map (fun e => e.Cursor) :=
  backward_cursors_pre_reversal (cannedStore [topLevel 3 2, topLevel 2 1, topLevel 1 0]) 1
    none none 2 [topLevel 3 2, topLevel 2 1, topLevel 1 0] none (by decide) (by decide)
    (cannedStore_answers _ _ _ _)

/-! ### Replies and the order of consumption -/

/-- C27: for every call over rows that all scan, a row taken in before the row it names as
its parent (`i < j`, row `i` naming row `j`) is not in the `Replies` of that parent, and with
distinct ids it is in no `Replies` list at all. Consequently, for every call with only `last`
set whose rows are in strictly descending creation order and in which every reply is strictly
newer than the row it names as parent, every comment built has an empty `Replies` list. -/
theorem reply_needs_earlier_parent (db : DB) (postID : Int) (first last : Option Int)
    (after before : Option String) (rows : List Row) (err : Option Err)
    (ha : Answers db postID first last after before { items := rows.map .ok, err := err }) :
    ∃ r, (GetCommentsByPostID db postID first last after before).result = .ok r ∧
      (∀ (i j : Addr) (ri rj : Row) (c : Comment), i < j → rows[i]? = some ri →
        rows[j]? = some rj → ri.ParentCommentID = some rj.ID → r.heap[j]? = some c →
        i ∉ c.Replies) ∧
      ((rows.map (fun x => x.ID)).Nodup →
        ∀ (i j : Addr) (ri rj : Row), i < j → j < r.heap.length → rows[i]? = some ri →
          rows[j]? = some rj → ri.ParentCommentID = some rj.ID →
          ∀ (p : Addr) (c : Comment), r.heap[p]? = some c → i ∉ c.Replies) ∧
      (first = none → last ≠ none →
        rows.Pairwise (fun a b => b.CreatedAt.before a.CreatedAt = true) →
        (∀ x ∈ rows, ∀ y ∈ rows, x.ParentCommentID = some y.ID →
          y.CreatedAt.before x.CreatedAt = true) →
        ∀ (i : Addr) (c : Comment), r.heap[i]? = some c → c.Replies = []) := by
  rw [result_of_answer _ _ _ _ _ _ _ ha]
  obtain ⟨k, s2, h1, h2, h3, _, _⟩ :=
    scanLoop_heapInv first last rows [] LoopState.init HeapInv.init rfl
  rw [List.nil_append] at h2
  have hfw : Forward s2.heap := scanLoop_forward first last _ LoopState.init s2 forward_init h1
  have hlen : s2.heap.length = k := by
    rw [h2.heap_length, List.length_take]; exact Nat.min_eq_left h3
  have hrow : ∀ (i : Addr) (x : Row), (rows.take k)[i]? = some x → rows[i]? = some x := by
    intro i x hx
    have hik : i < k := by
      have := (List.getElem?_eq_some_iff.mp hx).1
      rw [List.length_take] at this
      exact Nat.lt_of_lt_of_le this (Nat.min_le_left _ _)
    rwa [List.getElem?_take_of_lt hik] at hx
  refine ⟨finish first last s2, by simp only [scanRows, h1], ?_, ?_, ?_⟩
  · intro i j ri rj c hij _ _ _ hc hin
    exact Nat.lt_irrefl i (Nat.lt_of_lt_of_le hij (hfw j c i hc hin).1)
  · intro hd i j ri rj hij hj hi hrj hpar p c hc hin
    change j < s2.heap.length at hj
    change s2.heap[p]? = some c at hc
    have hpi := (hfw p c i hc hin).1
    have hs := h2.sound p c i hc hin
    have hik : i < k := hlen ▸ Nat.lt_trans hij hj
    rw [List.getElem?_take_of_lt hik, hi, Option.some_bind, hpar, Option.some.injEq] at hs
    have hp := hrow p _ (h2.heap_id hc)
    have hpl : p < rows.length := (List.getElem?_eq_some_iff.mp hp).1
    have hjl : j < rows.length := (List.getElem?_eq_some_iff.mp hrj).1
    have hpj : p = j := by
      have hinj := List.nodup_iff_injective_getElem.mp hd
      have hp' : rows[p] = c.row := by
        have := hp; rw [List.getElem?_eq_getElem hpl] at this; exact Option.some.inj this
      have hj' : rows[j] = rj := by
        have := hrj; rw [List.getElem?_eq_getElem hjl] at this; exact Option.some.inj this
      have := @hinj ⟨p, by simpa using hpl⟩ ⟨j, by simpa using hjl⟩
        (by simp only [List.getElem_map, hp', hj']; exact hs.symm)
      exact congrArg Fin.val this
    subst hpj
    exact Nat.lt_irrefl i (Nat.lt_of_lt_of_le hij hpi)
  · intro _ _ hdesc hnew i c hc
    change s2.heap[i]? = some c at hc
    cases hrep : c.Replies with
    | nil => rfl
    | cons j js =>
      exfalso
      have hin : j ∈ c.Replies := by rw [hrep]; exact List.mem_cons_self _ _
      obtain ⟨hij, hjl⟩ := hfw i c j hc hin
      have hs := h2.sound i c j hc hin
      have hjk : j < k := hlen ▸ hjl
      have hjr : j < rows.length := Nat.lt_of_lt_of_le hjk h3
      have hir : i < rows.length := Nat.lt_of_le_of_lt hij hjr
      rw [List.getElem?_take_of_lt hjk, List.getElem?_eq_getElem hjr, Option.some_bind] at hs
      have hpi := hrow i _ (h2.heap_id hc)
      rw [List.getElem?_eq_getElem hir, Option.some.injEq] at hpi
      have hb := hnew rows[j] (List.getElem_mem _) rows[i] (List.getElem_mem _)
        (by rw [hs, hpi]; rfl)
      rcases Nat.lt_or_eq_of_le hij with hlt | heq
      · have hd := List.pairwise_iff_getElem.mp hdesc i j hir hjr hlt
        have := before_asymm _ _ hb
        rw [hd] at this
        exact Bool.noConfusion this
      · subst heq
        rw [before_irrefl] at hb
        exact Bool.noConfusion hb

/-- Witness of C27: a reply delivered before its parent, as in a backward page, `last = 2`. -/
theorem reply_needs_earlier_parent_witness :
    ∃ r, (GetCommentsByPostID (cannedStore replyThenParent) 1 none (some 2) none none).result
        = .ok r ∧
      r.heap.length = 2 ∧
      (∀ (i j : Addr) (ri rj : Row) (c : Comment), i < j → replyThenParent[i]? = some ri →
        replyThenParent[j]? = some rj → ri.ParentCommentID = some rj.ID → r.heap[j]? = some c →
        i ∉ c.Replies) ∧
      (∀ (i : Addr) (c : Comment), r.heap[i]? = some c → c.Replies = []) :=
  have h := reply_needs_earlier_parent (cannedStore replyThenParent) 1 none (some 2) none none
    replyThenParent none (cannedStore_answers _ _ _ _)
  ⟨_, rfl, rfl, by
    obtain ⟨r, hr, h1, _, h3⟩ := h
    have hr2 : r = _ := Except.ok.inj (hr.symm.trans rfl)
    subst hr2
    exact ⟨h1, h3 rfl (by simp) (by decide) (by decide)⟩⟩

end CommentRepo

/-! ## The identity middleware -/

namespace Middleware

/-- C22: `GetUserID` returns `(v, nil)` exactly when the context holds the int `v` under the
key `userID`; when the key is absent, and when its value is not an int, it returns 0 and an
error. -/
theorem getUserID_spec (ctx : Context) :
    (∀ v : Int, GetUserID ctx = (v, none) ↔ ctx.value "userID" = Dyn.int v) ∧
    (ctx.value "userID" = Dyn.nil → GetUserID ctx = (0, some "user id not found")) ∧
    (ctx.value "userID" ≠ Dyn.nil → (∀ v : Int, ctx.value "userID" ≠ Dyn.int v) →
      GetUserID ctx = (0, some "invalid type of user id")) := by
  unfold GetUserID
  cases h : ctx.value "userID" with
  | nil => simp
  | int w => simp [eq_comm]
  | str s => simp
  | bool b => simp

/-- Witness of C22: the context of the resolver tests, `WithValue(Background, "userID", 1)`,
and the empty context. -/
theorem getUserID_spec_witness :
    GetUserID (Context.withValue [] "userID" (Dyn.int 1)) = (1, none) ∧
    GetUserID [] = (0, some "user id not found") ∧
    GetUserID (Context.withValue [] "userID" (Dyn.str "1")) = (0, some "invalid type of user id") :=
  ⟨((getUserID_spec (Context.withValue [] "userID" (Dyn.int 1))).1 1).mpr rfl,
   (getUserID_spec []).2.1 rfl,
   (getUserID_spec (Context.withValue [] "userID" (Dyn.str "1"))).2.2 (by decide)
     (by intro v h; simp [Context.withValue, Context.value] at h)⟩

/-- When the token is rejected, the middleware writes the 401 and goes on: the wrapped
handler is invoked with user id 0 in the context. -/
theorem rejected_token_effects (parseWithClaims : String → Except String Token)
    (header : String) (ctx : Context) (hne : header ≠ "")
    (hparts : (splitSpace header.data).length = 2)
    (hrej : (ParseToken parseWithClaims (String.mk ((splitSpace header.data).getD 1 []))).2.isSome
      = true)
    (hzero : (ParseToken parseWithClaims (String.mk ((splitSpace header.data).getD 1 []))).1 = 0) :
    UserIdentity parseWithClaims header ctx
      = [Effect.httpError "Invalid token" 401,
         Effect.next (ctx.withValue "userID" (Dyn.int 0))] := by
  unfold UserIdentity
  simp only [if_neg hne, hparts, ne_eq, not_true_eq_false, if_false]
  rw [hzero, hrej]
  rfl

/-- A token that `ParseToken` rejects comes back with user id 0. -/
theorem parseToken_rejected_zero (parseWithClaims : String → Except String Token)
    (accessToken : String) (h : (ParseToken parseWithClaims accessToken).2.isSome = true) :
    (ParseToken parseWithClaims accessToken).1 = 0 := by
  unfold ParseToken at h ⊢
  cases hp : parseWithClaims accessToken with
  | error e => rfl
  | ok token =>
    simp only [hp] at h ⊢
    cases hv : token.Valid with
    | false => simp
    | true =>
      cases hc : token.Claims with
      | none => simp
      | some u => simp [hv, hc] at h

/-- A header that does not split into two parts is answered 401 without the handler. -/
theorem malformed_header_effects (parseWithClaims : String → Except String Token)
    (header : String) (ctx : Context) (hne : header ≠ "")
    (hparts : (splitSpace header.data).length ≠ 2) :
    UserIdentity parseWithClaims header ctx
      = [Effect.httpError "Invalid authorization header" 401] := by
  simp [UserIdentity, hne, hparts]

/-- An empty header invokes the handler with the context unchanged. -/
theorem empty_header_effects (parseWithClaims : String → Except String Token) (ctx : Context) :
    UserIdentity parseWithClaims "" ctx = [Effect.next ctx] := by
  simp [UserIdentity]

/-- C28 (the code at the failing input): for the header `Bearer bad` and a token the library
rejects, the middleware writes the 401 and then still invokes the wrapped handler, with
`userID = 0` in the context, so that `GetUserID` succeeds there with user 0. -/
theorem invalid_token_reaches_handler :
    UserIdentity rejectAll "Bearer bad" []
      = [Effect.httpError "Invalid token" 401, Effect.next [("userID", Dyn.int 0)]] ∧
    GetUserID [("userID", Dyn.int 0)] = (0, none) ∧
    UserIdentity rejectAll "Bearer" [] = [Effect.httpError "Invalid authorization header" 401] ∧
    UserIdentity rejectAll "" [] = [Effect.next []] ∧
    UserIdentity acceptAll "Bearer good" [] = [Effect.next [("userID", Dyn.int 7)]] := by
  refine ⟨?_, ?_, ?_, ?_, ?_⟩ <;> rfl

end Middleware

/-! ## The post repository -/

namespace PostRepo

set_option maxRecDepth 100000

/-- C23: for every request, `UpdatePost` sends exactly one statement and returns what the
handle answers to it. With `k` fields present, the `i`-th present field (in the order Title,
Body, AllowComments) is assigned from the placeholder `$i` and its value is the `i`-th
argument; the text ends in `WHERE id=$(k+1) AND user_id=$(k+2)` and the arguments end in
`postID`, `userID`, so each placeholder index is the 1-based position of its argument. -/
theorem updatePost_statement (exec : Statement → Option DbErr) (userID postID : Int)
    (req : UpdatePostReq) :
    (UpdatePost exec userID postID req).statements
      = [{ text := updateText ((presentAssignments req).map Prod.fst),
           args := (presentAssignments req).map Prod.snd
             ++ [SqlValue.int postID, SqlValue.int userID] }] ∧
    (UpdatePost exec userID postID req).err
      = exec { text := updateText ((presentAssignments req).map Prod.fst),
               args := (presentAssignments req).map Prod.snd
                 ++ [SqlValue.int postID, SqlValue.int userID] } ∧
    (presentAssignments req).map Prod.snd = presentValues req ∧
    (∀ (i : Nat) (column : String) (v : SqlValue),
      (presentAssignments req).get? i = some (column, v) →
      (((presentAssignments req).map Prod.fst).enum.map
          fun ic => ic.2 ++ "=$" ++ toString (ic.1 + 1)).get? i
        = some (column ++ "=$" ++ toString (i + 1)) ∧
      ((presentAssignments req).map Prod.snd
          ++ [SqlValue.int postID, SqlValue.int userID]).get? (i + 1 - 1) = some v) ∧
    ((presentAssignments req).map Prod.snd ++ [SqlValue.int postID, SqlValue.int userID]).get?
        ((presentAssignments req).length + 1 - 1) = some (SqlValue.int postID) ∧
    ((presentAssignments req).map Prod.snd ++ [SqlValue.int postID, SqlValue.int userID]).get?
        ((presentAssignments req).length + 2 - 1) = some (SqlValue.int userID) := by
  have hst : updateStatement userID postID req
      = { text := updateText ((presentAssignments req).map Prod.fst),
          args := (presentAssignments req).map Prod.snd
            ++ [SqlValue.int postID, SqlValue.int userID] } := by
    rcases req with ⟨_ | t, _ | b, _ | a⟩ <;> rfl
  refine ⟨?_, ?_, ?_, ?_, ?_, ?_⟩
  · simp only [UpdatePost, hst]
  · simp only [UpdatePost, hst]
  · rcases req with ⟨_ | t, _ | b, _ | a⟩ <;> rfl
  · intro i column v h
    constructor
    · simp only [List.get?_eq_getElem?, List.getElem?_map, List.getElem?_enum] at h ⊢
      simp [h]
    · have hi : i < ((presentAssignments req).map Prod.snd).length := by
        rw [List.length_map]
        exact (List.get?_eq_some.mp h).1
      simp only [Nat.add_sub_cancel, List.get?_eq_getElem?] at h ⊢
      rw [List.getElem?_append_left hi, List.getElem?_map, h]
      rfl
  · rcases req with ⟨_ | t, _ | b, _ | a⟩ <;> rfl
  · rcases req with ⟨_ | t, _ | b, _ | a⟩ <;> rfl

/-- Witness of C23: the three requests of the repository tests, with user 1 and post 1, and
a handle that fails. -/
theorem updatePost_statement_witness :
    (UpdatePost execOk 1 1
        { Title := some "test", Body := some "test", AllowComments := some true }).statements
      = [{ text := "UPDATE posts SET title=$1, description=$2, allow_comments=$3 WHERE id=$4 AND user_id=$5;",
           args := [SqlValue.str "test", SqlValue.str "test", SqlValue.bool true,
                    SqlValue.int 1, SqlValue.int 1] }] ∧
    (UpdatePost execOk 1 1 { Title := none, Body := none, AllowComments := some true }).statements
      = [{ text := "UPDATE posts SET allow_comments=$1 WHERE id=$2 AND user_id=$3;",
           args := [SqlValue.bool true, SqlValue.int 1, SqlValue.int 1] }] ∧
    (UpdatePost execOk 1 1 { Title := none, Body := none, AllowComments := none }).statements
      = [{ text := "UPDATE posts SET  WHERE id=$1 AND user_id=$2;",
           args := [SqlValue.int 1, SqlValue.int 1] }] ∧
    (UpdatePost execFails 1 1
        { Title := some "test", Body := some "test", AllowComments := some true }).err
      = some (DbErr.driver "connection refused") :=
  ⟨(updatePost_statement execOk 1 1
      { Title := some "test", Body := some "test", AllowComments := some true }).1,
    (updatePost_statement execOk 1 1
      { Title := none, Body := none, AllowComments := some true }).1,
    (updatePost_statement execOk 1 1
      { Title := none, Body := none, AllowComments := none }).1,
    (updatePost_statement execFails 1 1
      { Title := some "test", Body := some "test", AllowComments := some true }).2.1⟩

/-- Whenever the request has a body, the statement assigns the column `description`, which
`CreatePost` does not write. -/
theorem body_assigns_description (userID postID : Int) (req : UpdatePostReq) (b : String)
    (hb : req.Body = some b) :
    "description" ∈ assignedColumns (updateStatement userID postID req).text ∧
    "body" ∉ assignedColumns (updateStatement userID postID req).text := by
  have e1 : ∀ x : String, (updateStatement userID postID
      { Title := none, Body := some x, AllowComments := none }).text
      = "UPDATE posts SET description=$1 WHERE id=$2 AND user_id=$3;" := by
      intros; simp only [updateStatement, setField, Option.map_some', Option.map_none']; rfl
  have e2 : ∀ (x : String) (y : Bool), (updateStatement userID postID
      { Title := none, Body := some x, AllowComments := some y }).text
      = "UPDATE posts SET description=$1, allow_comments=$2 WHERE id=$3 AND user_id=$4;" := by
      intros; simp only [updateStatement, setField, Option.map_some', Option.map_none']; rfl
  have e3 : ∀ x z : String, (updateStatement userID postID
      { Title := some z, Body := some x, AllowComments := none }).text
      = "UPDATE posts SET title=$1, description=$2 WHERE id=$3 AND user_id=$4;" := by
      intros; simp only [updateStatement, setField, Option.map_some', Option.map_none']; rfl
  have e4 : ∀ (x z : String) (y : Bool), (updateStatement userID postID
      { Title := some z, Body := some x, AllowComments := some y }).text
      = "UPDATE posts SET title=$1, description=$2, allow_comments=$3 WHERE id=$4 AND user_id=$5;" := by
      intros; simp only [updateStatement, setField, Option.map_some', Option.map_none']; rfl
  rcases req with ⟨_ | t, _ | b2, _ | a⟩ <;> first
    | (simp at hb; done)
    | (rw [e1]; constructor <;> decide)
    | (rw [e2]; constructor <;> decide)
    | (rw [e3]; constructor <;> decide)
    | (rw [e4]; constructor <;> decide)

/-- C29 (the code at the failing input): for a request with only a body, the one column
`UpdatePost` assigns is `description`, which is not among the columns `CreatePost` writes;
the column `CreatePost` writes and both selects read is `body`. -/
theorem update_assigns_unwritten_column :
    (updateStatement 1 1 { Title := none, Body := some "new body", AllowComments := none }).text
      = "UPDATE posts SET description=$1 WHERE id=$2 AND user_id=$3;" ∧
    assignedColumns
      (updateStatement 1 1 { Title := none, Body := some "new body", AllowComments := none }).text
      = ["description"] ∧
    insertColumns createPostQuery = ["user_id", "title", "body", "created_at", "allow_comments"] ∧
    "description" ∉ insertColumns createPostQuery ∧
    "p.body" ∈ selectedColumns getPostByIDQuery ∧
    "p.body" ∈ selectedColumns getAllPostsByUserIDQuery ∧
    "p.description" ∉ selectedColumns getPostByIDQuery := by
  refine ⟨?_, ?_, ?_, ?_, ?_, ?_, ?_⟩ <;> decide

/-- A row with a time in the fourth position is never scanned by `scanPost`: the
destination of that position is `post.AllowComments`. -/
theorem time_in_fourth_position_fails (columns : List SqlValue) (t : CommentRepo.Time)
    (h : columns.get? 3 = some (SqlValue.time t)) (p : Post) : scanPost columns ≠ .ok p := by
  intro hp
  match columns, h with
  | [c0, c1, c2, c3, c4, c5, c6], h =>
    simp only [List.get?, Option.some.injEq] at h
    subst h
    simp only [scanPost, scanBool, atColumn] at hp
    cases h0 : scanInt c0 with
    | none => simp [h0, Except.bind] at hp
    | some v0 =>
      cases h1 : scanString c1 with
      | none => simp [h0, h1, Except.bind] at hp
      | some v1 =>
        cases h2 : scanString c2 with
        | none => simp [h0, h1, h2, Except.bind] at hp
        | some v2 => simp [h0, h1, h2, Except.bind] at hp
  | [], h => simp at h
  | [_], h => simp [scanPost] at hp
  | [_, _], h => simp [scanPost] at hp
  | [_, _, _], h => simp [scanPost] at hp
  | [_, _, _, _], h => simp [scanPost] at hp
  | [_, _, _, _, _], h => simp [scanPost] at hp
  | [_, _, _, _, _, _], h => simp [scanPost] at hp
  | _ :: _ :: _ :: _ :: _ :: _ :: _ :: _ :: _, h => simp [scanPost] at hp

/-- C30 (the code at the failing input): `GetPostByID` selects `p.created_at` fourth and
`p.allow_comments` fifth, and scans the fourth value into `post.AllowComments` and the fifth
into `post.CreatedAt`; over a storage that answers with the values of the selected columns in
the order selected, the call fails at column index 3. `GetAllPostsByUserID` selects the two
columns in the other order and succeeds over the same table, with every field filled from the
column of its name. -/
theorem get_post_by_id_scans_swapped_columns :
    selectedColumns getPostByIDQuery
      = ["p.id", "p.title", "p.body", "p.created_at", "p.allow_comments", "u.id", "u.username"] ∧
    GetPostByID postRowStore 1 = .error (DbErr.scan 3) ∧
    selectedColumns getAllPostsByUserIDQuery
      = ["p.id", "p.title", "p.body", "p.allow_comments", "p.created_at", "u.id", "u.username"] ∧
    GetAllPostsByUserID postRowsStore 2
      = .ok [{ ID := 1, UserID := 0, User := some { ID := 2, Username := "user" },
               Title := "title", Body := "body", AllowComments := true,
               CreatedAt := postCreatedAt, Comments := none }] ∧
    scanPost [SqlValue.int 1, SqlValue.str "1", SqlValue.str "1", SqlValue.bool true,
        SqlValue.time postCreatedAt, SqlValue.int 1, SqlValue.str "user"]
      = .ok { ID := 1, UserID := 0, User := some { ID := 1, Username := "user" },
              Title := "1", Body := "1", AllowComments := true,
              CreatedAt := postCreatedAt, Comments := none } := by
  refine ⟨?_, ?_, ?_, ?_, ?_⟩ <;> rfl

end PostRepo
